import Mathlib

/-!
Simple-Music-Visualizer: the audio engine

A shallow embedding of `src/visualizer/engine.cpp` (class `AudioEngine`) and of the
parts of `src/visualizer/wasapi_capture.cpp` it calls, followed by theorems about it.

Conventions of the embedding.

* `float` values are elements of an arbitrary linearly ordered field `α` (exact
  arithmetic: rounding, NaN and infinities are not modelled), with one exception: the
  accumulator `static float time` of `generateRealisticSimulation`, where the rounding
  error of `time += 0.016f` adds up tick after tick.  There the literal and the sum are
  rounded to `float` by `MathFns.toFloat`.  The C library functions `cos`, `sin`, `sqrt`,
  `log`, `pow` and the constant `M_PI` are not code of this repository; they are the
  other fields of the parameter `MathFns α`.
* `std::vector<float>` is `List α`; `v[i]` is `v.getD i 0` and `v[i] = x` is `v.set i x`
  (they agree with C++ whenever the index is in bounds).
* `int` and `size_t` values are `Nat`/`Int`; where the source mixes signed and unsigned
  operands the wrap modulo `2 ^ 64` (or `2 ^ 32` for `Uint32`) is written out.
* `SDL_GetTicks()` is an input of `update` (`currentTime`); the result of the capture API
  calls is an input of `initialize` (`ComResults`).
* Everything the methods do to the outside world (lines written by `writeDebugLog`,
  truncation of the log file, COM calls of the capture object) is appended to
  `Process.trace`.  The time stamp `writeDebugLog` puts in front of a line is left out.
* The function-local `static` variables of `update` and `generateRealisticSimulation`
  belong to the process, not to the object: they are fields of `Process`.
-/

namespace Visualizer

/-! ## Data model -/

/-- The C library functions and the constant `M_PI` used by `engine.cpp`, and the
rounding of a value to `float`. -/
structure MathFns (α : Type) where
  cos : α → α
  sin : α → α
  sqrt : α → α
  log : α → α
  pow : α → α → α
  pi : α
  /-- The `float` nearest to a value: what a `float` variable holds after the value is
  stored in it. -/
  toFloat : α → α

/-- A line handed to `writeDebugLog`.  Lines built with `std::to_string` keep the values
they are built from instead of their decimal rendering. -/
inductive LogLine (α : Type) where
  /-- A fixed text. -/
  | text (msg : String)
  /-- A failed COM call: `"<what> failed: " + err.ErrorMessage()`. -/
  | comError (what : String)
  /-- The line `"Audio callback #<count>, data length: <len> bytes"`. -/
  | audioCallback (count : Nat) (len : Nat)
  /-- The line `"Callback #<count> - Level: <level>, Max: <maxSample>"`. -/
  | callbackLevel (count : Nat) (level maxSample : α)
  /-- The line `"Update #<counter> | Audio Level: ... | Mode: ..."`. -/
  | updateDump (counter : Nat) (level energy : α) (callbacks : Nat) (sim : Bool)
  /-- The line `"Frequency data: ..."` with the first bands. -/
  | frequencyDump (vals : List α)
  deriving DecidableEq

/-- Calls into COM / WASAPI / `std::thread` made by `WASAPICapture`. -/
inductive ComCall where
  | coInitializeEx
  | coCreateInstance
  | getDefaultAudioEndpoint
  | activate
  | getMixFormat
  | clientInitialize
  | coTaskMemFree
  | getService
  | clientStart
  | clientStop
  | releaseCaptureClient
  | releaseAudioClient
  | releaseDefaultDevice
  | releaseDeviceEnumerator
  | coUninit
  | threadStart
  | threadJoin
  deriving DecidableEq, Repr

/-- An observable action of the process. -/
inductive Effect (α : Type) where
  /-- The call `writeDebugLog(line)`. -/
  | log (line : LogLine α)
  /-- Opening `audio_debug.txt` with `std::ios::trunc`. -/
  | truncateLog
  /-- A call made by the capture object. -/
  | com (call : ComCall)
  deriving DecidableEq

/-- Fields of `class WASAPICapture` (`wasapi_capture.h`).  A pointer field is `true` when
it is not `nullptr`; `threadJoinable` is `captureThread.joinable()`. -/
structure WASAPICapture where
  running : Bool
  threadJoinable : Bool
  deviceEnumerator : Bool
  defaultDevice : Bool
  audioClient : Bool
  captureClient : Bool
  deriving DecidableEq, Repr

/-- Whether each API call of `WASAPICapture::initialize` succeeds (`!FAILED(hr)`). -/
structure ComResults where
  coInitializeEx : Bool
  coCreateInstance : Bool
  getDefaultAudioEndpoint : Bool
  activate : Bool
  getMixFormat : Bool
  clientInitialize : Bool
  getService : Bool
  clientStart : Bool
  deriving DecidableEq, Repr

/-- Fields of `class AudioEngine` (`engine.h`), without the mutex. -/
structure AudioEngine (α : Type) where
  deviceId : Nat
  initialized : Bool
  simulationMode : Bool
  sampleRate : Nat
  bufferSize : Nat
  audioBuffer : List α
  frequencyData : List α
  smoothedFreqData : List α
  hanningWindow : List α
  wasapiCapture : Option WASAPICapture
  currentWritePos : Nat
  lastUpdateTime : Nat
  audioLevel : α
  callbackCount : Nat
  deriving DecidableEq

/-- The engine object together with the process-wide state its methods touch. -/
structure Process (α : Type) where
  engine : AudioEngine α
  /-- The variable `static float time` of `generateRealisticSimulation`. -/
  simTime : α
  /-- The variable `static bool loggedSim` of `generateRealisticSimulation`. -/
  loggedSim : Bool
  /-- The variable `static int debugCounter` of `update`. -/
  debugCounter : Nat
  /-- The variable `static Uint32 lastDebugTime` of `update`. -/
  lastDebugTime : Nat
  /-- Everything done to the outside world so far, oldest first. -/
  trace : List (Effect α)
  deriving DecidableEq

section Defs

variable {α : Type} [LinearOrderedField α]

/-- The effect of `writeDebugLog(message)`. -/
def writeDebugLog (line : LogLine α) (p : Process α) : Process α :=
  { p with trace := p.trace ++ [Effect.log line] }

/-- Subtraction of two `Uint32` values. -/
def sub32 (a b : Nat) : Nat :=
  (a % 4294967296 + 4294967296 - b % 4294967296) % 4294967296

/-- The values `i` taken by `for (int i = 0; i < n; i += step)`, for `step ≥ 1`. -/
def loopIndices (n step : Nat) : List Nat :=
  (List.range ((n + step - 1) / step)).map (fun k => k * step)

/-- The Hann window written by the constructor and by `initialize`:
`hanningWindow.resize(bufferSize)` followed by the loop over `i`. -/
def hanning (m : MathFns α) (bufferSize : Nat) : List α :=
  (List.range bufferSize).map
    (fun (i : Nat) => 0.5 * (1 - m.cos (2 * m.pi * (i : α) / (((bufferSize : Int) - 1 : Int) : α))))

/-- The statement `v.resize(n, 0.0f)`. -/
def resize (v : List α) (n : Nat) : List α :=
  v.take n ++ List.replicate (n - v.length) 0

/-- The constructor `AudioEngine::AudioEngine()`, run in a fresh process. -/
def AudioEngine.new (m : MathFns α) : Process α :=
  let bufferSize := 2048
  writeDebugLog (.text "AudioEngine constructor called")
    { engine :=
        { deviceId := 0
          initialized := false
          sampleRate := 44100
          bufferSize := bufferSize
          currentWritePos := 0
          audioBuffer := resize [] (bufferSize * 2)
          frequencyData := resize [] 64
          smoothedFreqData := resize [] 64
          hanningWindow := hanning m bufferSize
          wasapiCapture := none
          simulationMode := false
          lastUpdateTime := 0
          audioLevel := 0
          callbackCount := 0 }
      simTime := 0
      loggedSim := false
      debugCounter := 0
      lastDebugTime := 0
      trace := [Effect.truncateLog] }

/-! ## `processAudioInput` -/

/-- The variables carried around the loop of `processAudioInput`. -/
structure FoldState (α : Type) where
  audioBuffer : List α
  currentWritePos : Nat
  levelSum : α
  levelSamples : Nat
  maxSample : α

/-- One iteration of the loop of `processAudioInput`, at `i = 2 * k`. -/
def foldFrame (floatStream : Nat → α) (st : FoldState α) (k : Nat) : FoldState α :=
  let i := 2 * k
  let monoSample := (floatStream i + floatStream (i + 1)) * 0.5
  let maxSample := max st.maxSample |monoSample|
  let monoSample := monoSample * 3
  let monoSample := max (-1) (min 1 monoSample)
  { audioBuffer := st.audioBuffer.set st.currentWritePos monoSample
    currentWritePos := (st.currentWritePos + 1) % st.audioBuffer.length
    levelSum := st.levelSum + |monoSample|
    levelSamples := st.levelSamples + 1
    maxSample := maxSample }

/-- The loop `for (size_t i = 0; i < sampleCount; i += 2)` of `processAudioInput`. -/
def foldLoop (floatStream : Nat → α) (sampleCount : Nat) (st : FoldState α) : FoldState α :=
  (List.range ((sampleCount + 1) / 2)).foldl (foldFrame floatStream) st

/-- The method `AudioEngine::processAudioInput(stream, len)`; `floatStream i` is the
`float` at `reinterpret_cast<float*>(stream)[i]`. -/
def AudioEngine.processAudioInput (floatStream : Nat → α) (len : Nat) (p : Process α) :
    Process α :=
  if p.engine.simulationMode then
    writeDebugLog (.text "ERROR: processAudioInput called in simulation mode!") p
  else
    let callbackCount := p.engine.callbackCount + 1
    let p := if callbackCount ≤ 5 then writeDebugLog (.audioCallback callbackCount len) p else p
    let sampleCount := len / 4
    let st := foldLoop floatStream sampleCount
      { audioBuffer := p.engine.audioBuffer
        currentWritePos := p.engine.currentWritePos
        levelSum := 0
        levelSamples := 0
        maxSample := 0 }
    let e : AudioEngine α :=
      { p.engine with
        callbackCount := callbackCount
        audioBuffer := st.audioBuffer
        currentWritePos := st.currentWritePos }
    if 0 < st.levelSamples then
      let newLevel := st.levelSum / (st.levelSamples : α)
      let audioLevel := e.audioLevel * 0.9 + newLevel * 0.1
      let p := { p with engine := { e with audioLevel := audioLevel } }
      if callbackCount % 100 = 0 then
        writeDebugLog (.callbackLevel callbackCount audioLevel st.maxSample) p
      else p
    else { p with engine := e }

/-- The delivery callback `[this](const float* data, size_t frames)` that `initialize`
hands to the capture object; `data = none` is the null pointer. -/
def AudioEngine.deliver (data : Option (Nat → α)) (frames : Nat) (p : Process α) :
    Process α :=
  match data with
  | none => p
  | some floatStream =>
    if frames = 0 then p
    else
      let byteLen := frames * 4 * 2 % 18446744073709551616
      AudioEngine.processAudioInput floatStream byteLen p

/-! ## The capture object (`wasapi_capture.cpp`) -/

/-- The constructor `WASAPICapture::WASAPICapture()`. -/
def WASAPICapture.new : WASAPICapture :=
  { running := false
    threadJoinable := false
    deviceEnumerator := false
    defaultDevice := false
    audioClient := false
    captureClient := false }

/-- The method `WASAPICapture::initialize(cb)`: the object afterwards, what it did, and
the value returned. -/
def WASAPICapture.initialize (r : ComResults) (c : WASAPICapture) :
    WASAPICapture × List (Effect α) × Bool :=
  let c := { c with running := true }
  let t := [Effect.com .coInitializeEx]
  if !r.coInitializeEx then
    (c, t ++ [.log (.comError "CoInitializeEx")], false)
  else
  let t := t ++ [.com .coCreateInstance]
  if !r.coCreateInstance then
    (c, t ++ [.log (.comError "CoCreateInstance"), .com .coUninit], false)
  else
  let c := { c with deviceEnumerator := true }
  let t := t ++ [.com .getDefaultAudioEndpoint]
  if !r.getDefaultAudioEndpoint then
    ({ c with deviceEnumerator := false },
      t ++ [.log (.comError "GetDefaultAudioEndpoint"), .com .releaseDeviceEnumerator,
        .com .coUninit], false)
  else
  let c := { c with defaultDevice := true }
  let t := t ++ [.com .activate]
  if !r.activate then
    ({ c with defaultDevice := false, deviceEnumerator := false },
      t ++ [.log (.comError "Device Activate"), .com .releaseDefaultDevice,
        .com .releaseDeviceEnumerator, .com .coUninit], false)
  else
  let c := { c with audioClient := true }
  let t := t ++ [.com .getMixFormat]
  if !r.getMixFormat then
    ({ c with audioClient := false, defaultDevice := false, deviceEnumerator := false },
      t ++ [.log (.comError "GetMixFormat"), .com .releaseAudioClient,
        .com .releaseDefaultDevice, .com .releaseDeviceEnumerator, .com .coUninit],
      false)
  else
  let t := t ++ [.com .clientInitialize, .com .coTaskMemFree]
  if !r.clientInitialize then
    ({ c with audioClient := false, defaultDevice := false, deviceEnumerator := false },
      t ++ [.log (.comError "AudioClient Initialize"), .com .releaseAudioClient,
        .com .releaseDefaultDevice, .com .releaseDeviceEnumerator, .com .coUninit],
      false)
  else
  let t := t ++ [.com .getService]
  if !r.getService then
    ({ c with audioClient := false, defaultDevice := false, deviceEnumerator := false },
      t ++ [.log (.comError "GetService"), .com .releaseAudioClient,
        .com .releaseDefaultDevice, .com .releaseDeviceEnumerator, .com .coUninit],
      false)
  else
  let c := { c with captureClient := true }
  let t := t ++ [.com .clientStart]
  if !r.clientStart then
    ({ c with captureClient := false, audioClient := false, defaultDevice := false,
              deviceEnumerator := false },
      t ++ [.log (.comError "AudioClient Start"), .com .releaseCaptureClient,
        .com .releaseAudioClient, .com .releaseDefaultDevice, .com .releaseDeviceEnumerator,
        .com .coUninit], false)
  else
  ({ c with threadJoinable := true },
    t ++ [.com .threadStart, .log (.text "WASAPI capture initialized successfully")], true)

/-- The method `WASAPICapture::shutdown()`: the object afterwards and what it did. -/
def WASAPICapture.shutdown (c : WASAPICapture) : WASAPICapture × List (Effect α) :=
  let c := { c with running := false }
  let t1 : List (Effect α) := if c.threadJoinable then [.com .threadJoin] else []
  let c := { c with threadJoinable := false }
  let t2 : List (Effect α) :=
    if c.audioClient then [.com .clientStop, .com .releaseAudioClient] else []
  let c := { c with audioClient := false }
  let t3 : List (Effect α) := if c.captureClient then [.com .releaseCaptureClient] else []
  let c := { c with captureClient := false }
  let t4 : List (Effect α) := if c.defaultDevice then [.com .releaseDefaultDevice] else []
  let c := { c with defaultDevice := false }
  let t5 : List (Effect α) :=
    if c.deviceEnumerator then [.com .releaseDeviceEnumerator] else []
  let c := { c with deviceEnumerator := false }
  (c, t1 ++ t2 ++ t3 ++ t4 ++ t5 ++
    [.com .coUninit, .log (.text "WASAPI capture shutdown")])

/-- Destroying the object a `std::unique_ptr<WASAPICapture>` owns (`reset()`, or the
assignment of a new object): `~WASAPICapture()` calls `shutdown()`. -/
def destroyCapture (w : Option WASAPICapture) : List (Effect α) :=
  match w with
  | none => []
  | some c => (WASAPICapture.shutdown c).2

/-! ## `initialize` and `cleanup` -/

/-- The method `AudioEngine::initialize()`, with the results `r` of the capture API
calls: the process afterwards and the value returned. -/
def AudioEngine.initialize (m : MathFns α) (r : ComResults) (p : Process α) :
    Process α × Bool :=
  let p := writeDebugLog (.text "=== AUDIO ENGINE INITIALIZATION START ===") p
  let p := writeDebugLog (.text "Operating System: Windows 10 or later (WASAPI Mode)") p
  let p := writeDebugLog (.text "Using WASAPI loopback for system audio capture") p
  let e := p.engine
  let e : AudioEngine α :=
    { e with
      audioBuffer := resize e.audioBuffer (e.bufferSize * 2)
      frequencyData := resize e.frequencyData 64
      smoothedFreqData := resize e.smoothedFreqData 64
      hanningWindow := hanning m e.bufferSize
      simulationMode := false
      lastUpdateTime := 0
      audioLevel := 0
      callbackCount := 0 }
  let p := { p with engine := e, trace := p.trace ++ [Effect.truncateLog] }
  let old := p.engine.wasapiCapture
  let (c, t, success) := WASAPICapture.initialize r WASAPICapture.new
  let p : Process α :=
    { p with
      engine := { p.engine with wasapiCapture := some c }
      trace := p.trace ++ destroyCapture old ++ t }
  if !success then
    let p := writeDebugLog (.text "WASAPI loopback initialization FAILED!") p
    let p := writeDebugLog (.text "Falling back to simulation mode.") p
    ({ p with engine := { p.engine with simulationMode := true, initialized := true } }, true)
  else
    let p := writeDebugLog (.text "WASAPI loopback initialized successfully.") p
    let p := writeDebugLog (.text "=== AUDIO ENGINE INITIALIZATION COMPLETE ===") p
    ({ p with engine := { p.engine with initialized := true } }, true)

/-- The method `AudioEngine::cleanup()`. -/
def AudioEngine.cleanup (p : Process α) : Process α :=
  if p.engine.initialized then
    let p := writeDebugLog (.text "Cleaning up audio engine...") p
    let p :=
      match p.engine.wasapiCapture with
      | some c =>
        let (c, t) := WASAPICapture.shutdown c
        let p : Process α :=
          { p with
            engine := { p.engine with wasapiCapture := none }
            trace := p.trace ++ t ++ destroyCapture (some c) }
        writeDebugLog (.text "WASAPI capture shutdown complete.") p
      | none => p
    let p := { p with engine := { p.engine with initialized := false } }
    let p := writeDebugLog (.text "Audio Engine cleanup complete.") p
    writeDebugLog (.text "=== DEBUG LOG END ===") p
  else p

/-! ## `update` -/

/-- The method `AudioEngine::generateRealisticSimulation()`. -/
def AudioEngine.generateRealisticSimulation (m : MathFns α) (p : Process α) : Process α :=
  let p :=
    if !p.loggedSim then
      { writeDebugLog (.text "Running in simulation mode - generating test audio") p with
        loggedSim := true }
    else p
  let time := m.toFloat (p.simTime + m.toFloat 0.016)
  let audioBuffer := (List.range p.engine.audioBuffer.length).map (fun (i : Nat) =>
    let sample : α := 0
    let t := time + (i : α) * 0.0001
    let sample := sample + 0.6 * m.sin (2 * m.pi * 60 * t)
    let sample := sample + 0.4 * m.sin (2 * m.pi * 440 * t)
    let sample := sample + 0.2 * m.sin (2 * m.pi * 2000 * t)
    sample * 0.5)
  { p with
    simTime := time
    engine := { p.engine with audioBuffer := audioBuffer, audioLevel := 0.5 } }

/-- The index expression `(currentWritePos - i + audioBuffer.size()) % audioBuffer.size()`
of `performOptimizedFFT`: the `int` difference is converted to `size_t`. -/
def readIdx (currentWritePos i size : Nat) : Nat :=
  ((((currentWritePos : Int) - (i : Int)) % 18446744073709551616).toNat + size)
    % 18446744073709551616 % size

/-- The value `audioBuffer[idx] * hanningWindow[i]` of the inner loop of
`performOptimizedFFT`. -/
def windowedSample (e : AudioEngine α) (i : Nat) : α :=
  e.audioBuffer.getD (readIdx e.currentWritePos i e.audioBuffer.length) 0 *
    e.hanningWindow.getD i 0

/-- The inner loop of `performOptimizedFFT` for one band: the final `(real, imag)`. -/
def projectBand (m : MathFns α) (e : AudioEngine α) (frequency : α) (step : Nat) : α × α :=
  (loopIndices e.bufferSize step).foldl
    (fun (acc : α × α) (i : Nat) =>
      let sample := windowedSample e i
      let angle := -2 * m.pi * frequency * (i : α) / (e.sampleRate : α)
      (acc.1 + sample * m.cos angle, acc.2 + sample * m.sin angle))
    (0, 0)

/-- The value stored in `magnitudes[band]` by the first loop of `performOptimizedFFT`. -/
def bandMagnitude (m : MathFns α) (e : AudioEngine α) (band : Nat) : α :=
  let frequency := 20 * m.pow 2 ((band : α) / 8)
  let step := max 1 (e.bufferSize / 512)
  let acc := projectBand m e frequency step
  m.sqrt (acc.1 * acc.1 + acc.2 * acc.2) / ((e.bufferSize / step : Nat) : α)

/-- One iteration of the loop "apply scaling and smoothing" of `performOptimizedFFT`. -/
def smoothBand (m : MathFns α) (magnitudes : List α) (e : AudioEngine α) (i : Nat) :
    AudioEngine α :=
  let numBands : Nat := 64
  let logMag := m.log (1 + magnitudes.getD i 0 * 10000) * 0.1
  let smoothFactor := 0.2 + 0.6 * (i : α) / (numBands : α)
  let smoothedFreqData := e.smoothedFreqData.set i
    (e.smoothedFreqData.getD i 0 * smoothFactor + logMag * (1 - smoothFactor))
  { e with
    smoothedFreqData := smoothedFreqData
    frequencyData := e.frequencyData.set i (smoothedFreqData.getD i 0) }

/-- The expression `*std::max_element(v.begin(), v.end())` on a non-empty vector. -/
def maxElement (x : α) (xs : List α) : α :=
  xs.foldl max x

/-- The block "normalize" of `performOptimizedFFT`. -/
def normalize (frequencyData : List α) : List α :=
  match frequencyData with
  | [] => []
  | x :: xs =>
    let maxVal := maxElement x xs
    if 0.001 < maxVal then (x :: xs).map (fun val => min 1 (val / maxVal))
    else x :: xs

/-- The engine after the two loops of `performOptimizedFFT`, before "normalize". -/
def smoothAll (m : MathFns α) (e : AudioEngine α) : AudioEngine α :=
  let numBands := 64
  let magnitudes := (List.range numBands).map (bandMagnitude m e)
  (List.range numBands).foldl (smoothBand m magnitudes) e

/-- The method `AudioEngine::performOptimizedFFT()`. -/
def AudioEngine.performOptimizedFFT (m : MathFns α) (e : AudioEngine α) : AudioEngine α :=
  let e := smoothAll m e
  { e with frequencyData := normalize e.frequencyData }

/-- The block "debug output every 2 seconds" at the end of `update`. -/
def debugDump (currentTime : Nat) (p : Process α) : Process α :=
  if 2000 < sub32 currentTime p.lastDebugTime then
    let p := { p with lastDebugTime := currentTime }
    let totalEnergy := p.engine.frequencyData.foldl (fun acc val => acc + val) 0
    let line := LogLine.updateDump p.debugCounter p.engine.audioLevel totalEnergy
      p.engine.callbackCount p.engine.simulationMode
    let p := writeDebugLog line { p with debugCounter := p.debugCounter + 1 }
    if !p.engine.frequencyData.isEmpty then
      writeDebugLog
        (.frequencyDump (p.engine.frequencyData.take (min 8 p.engine.frequencyData.length))) p
    else p
  else p

/-- The method `AudioEngine::update()`, with `currentTime` the value `SDL_GetTicks()`
returns. -/
def AudioEngine.update (m : MathFns α) (currentTime : Nat) (p : Process α) : Process α :=
  if !p.engine.initialized then p
  else if sub32 currentTime p.engine.lastUpdateTime < 16 then p
  else
    let p := { p with engine := { p.engine with lastUpdateTime := currentTime } }
    let p := if p.engine.simulationMode then AudioEngine.generateRealisticSimulation m p else p
    let p := { p with engine := AudioEngine.performOptimizedFFT m p.engine }
    debugDump currentTime p

/-! ## Accessors -/

/-- The method `AudioEngine::getFrequencyData()`. -/
def AudioEngine.getFrequencyData (e : AudioEngine α) : List α :=
  e.frequencyData

/-- The method `AudioEngine::getBeat()`. -/
def AudioEngine.getBeat (e : AudioEngine α) : α :=
  if e.frequencyData.length < 8 then 0
  else
    let bassEnergy := (List.range 4).foldl (fun acc i => acc + e.frequencyData.getD i 0) 0
    min 1 (bassEnergy * 2)

/-- The method `AudioEngine::getAmplitude()`. -/
def AudioEngine.getAmplitude (e : AudioEngine α) : α :=
  min 1 (e.audioLevel * 2)

/-- The method `AudioEngine::isSimulationMode()`. -/
def AudioEngine.isSimulationMode (e : AudioEngine α) : Bool :=
  e.simulationMode

/-- The method `AudioEngine::getAudioLevel()`. -/
def AudioEngine.getAudioLevel (e : AudioEngine α) : α :=
  e.audioLevel

/-- The feature snapshot the renderer reads: spectrum, envelope level, beat and mode. -/
def snapshot (e : AudioEngine α) : List α × α × α × Bool :=
  (e.getFrequencyData, e.getAudioLevel, e.getBeat, e.isSimulationMode)

/-! ## Runs of the engine -/

/-- The calls that reach an engine: the public methods, and what the capture thread
delivers (through the callback, or to `processAudioInput` itself). -/
inductive Op (α : Type) where
  | init (r : ComResults)
  | update (currentTime : Nat)
  | deliver (data : Option (Nat → α)) (frames : Nat)
  | processAudioInput (floatStream : Nat → α) (len : Nat)
  | cleanup

/-- The process after one call. -/
def step (m : MathFns α) (p : Process α) (op : Op α) : Process α :=
  match op with
  | .init r => ( AudioEngine.initialize m r p).1
  | .update currentTime => AudioEngine.update m currentTime p
  | .deliver data frames => AudioEngine.deliver data frames p
  | .processAudioInput floatStream len => AudioEngine.processAudioInput floatStream len p
  | .cleanup => AudioEngine.cleanup p

/-- The process after a sequence of calls. -/
def run (m : MathFns α) (p : Process α) (ops : List (Op α)) : Process α :=
  ops.foldl (step m) p

/-- The states a process can be in: constructed, then any sequence of calls. -/
def Reachable (m : MathFns α) (p : Process α) : Prop :=
  ∃ ops : List (Op α), p = run m (AudioEngine.new m) ops

/-! ## Auxiliary definitions -/

/-- The value iteration `k` of the loop of `processAudioInput` writes to the ring. -/
def foldedSample (floatStream : Nat → α) (k : Nat) : α :=
  max (-1) (min 1 ((floatStream (2 * k) + floatStream (2 * k + 1)) * 0.5 * 3))

/-- The loop of `processAudioInput` stopped after `n` iterations. -/
def iterFrames (floatStream : Nat → α) (n : Nat) (st : FoldState α) : FoldState α :=
  (List.range n).foldl (foldFrame floatStream) st

/-- The loop variables of `processAudioInput` when the loop starts. -/
def loopStart (e : AudioEngine α) : FoldState α :=
  { audioBuffer := e.audioBuffer
    currentWritePos := e.currentWritePos
    levelSum := 0
    levelSamples := 0
    maxSample := 0 }

/-- The loop variables of `processAudioInput(stream, len)` when the loop ends. -/
def loopEnd (d : Nat → α) (len : Nat) (e : AudioEngine α) : FoldState α :=
  iterFrames d ((len / 4 + 1) / 2) (loopStart e)

/-- The mono samples one delivery of `F` frames writes, in the order they are written. -/
def monoBlock (floatStream : Nat → α) (F : Nat) : List α :=
  (List.range F).map (foldedSample floatStream)

/-- The mono samples a sequence of deliveries `(data, frames)` writes, oldest first. -/
def monoStream (ds : List ((Nat → α) × Nat)) : List α :=
  ds.foldl (fun acc x => acc ++ monoBlock x.1 x.2) []

/-- The process after a sequence of deliveries `(data, frames)` by the capture thread. -/
def deliverAll (ds : List ((Nat → α) × Nat)) (p : Process α) : Process α :=
  ds.foldl (fun q x => AudioEngine.deliver (some x.1) x.2 q) p

/-- The ring `buf` with write index `w` ends with the samples `hist`: going back `i`
slots from the write index finds the `i`-th most recent sample of `hist`. -/
def RingHolds (buf : List α) (w : Nat) (hist : List α) : Prop :=
  ∀ i, 1 ≤ i → i ≤ hist.length → i ≤ 4096 →
    buf.getD ((w + 4096 - i) % 4096) 0 = hist.getD (hist.length - i) 0

/-- The value `smoothBand` writes to `smoothedFreqData[i]`, from the old value `old` and
the raw magnitude `mag` of the band. -/
def smoothedValue (m : MathFns α) (mag old : α) (i : Nat) : α :=
  old * (0.2 + 0.6 * (i : α) / ((64 : Nat) : α)) +
    m.log (1 + mag * 10000) * 0.1 * (1 - (0.2 + 0.6 * (i : α) / ((64 : Nat) : α)))

/-- The smoothing loop of `performOptimizedFFT` stopped after `n` iterations. -/
def iterSmooth (m : MathFns α) (magnitudes : List α) (n : Nat) (e : AudioEngine α) :
    AudioEngine α :=
  (List.range n).foldl (smoothBand m magnitudes) e

/-- The sizes of the vectors and the range of the write index. -/
structure AudioEngine.Shaped (e : AudioEngine α) : Prop where
  bufferSize_eq : e.bufferSize = 2048
  audioBuffer_length : e.audioBuffer.length = 4096
  frequencyData_length : e.frequencyData.length = 64
  smoothedFreqData_length : e.smoothedFreqData.length = 64
  currentWritePos_lt : e.currentWritePos < 4096

/-- The ranges of the smoothed spectrum and of the spectrum. -/
structure AudioEngine.SpectrumOk (e : AudioEngine α) : Prop where
  smoothed_nonneg : ∀ x ∈ e.smoothedFreqData, 0 ≤ x
  frequency_range : ∀ x ∈ e.frequencyData, 0 ≤ x ∧ x ≤ 1

/-- The engine `update` hands to `performOptimizedFFT` when it does not return early. -/
def analysisInput (m : MathFns α) (currentTime : Nat) (p : Process α) : AudioEngine α :=
  let p := { p with engine := { p.engine with lastUpdateTime := currentTime } }
  (if p.engine.simulationMode then AudioEngine.generateRealisticSimulation m p else p).engine

/-- Whether the capture setup of `initialize` succeeds: the value returned by
`wasapiCapture->initialize(...)`. -/
def captureSetupOk (r : ComResults) : Bool :=
  ( WASAPICapture.initialize (α := α) r WASAPICapture.new).2.2

/-- Whether a call is a call of `initialize`. -/
def Op.isInit : Op α → Bool
  | .init _ => true
  | _ => false

/-- Capture results with every API call failing. -/
def allFail : ComResults :=
  ⟨false, false, false, false, false, false, false, false⟩

/-- Capture results with every API call succeeding. -/
def allOk : ComResults :=
  ⟨true, true, true, true, true, true, true, true⟩

/-- What the theorems below use of the C library: `sqrt` is never negative and `log` is
not negative from `1` on. -/
structure MathFns.Sound (m : MathFns α) : Prop where
  sqrt_nonneg : ∀ x, 0 ≤ m.sqrt x
  log_nonneg : ∀ x, 1 ≤ x → 0 ≤ m.log x

/-- The C library functions as functions on the real numbers, with exact arithmetic
throughout: storing a value in a `float` does not change it. -/
noncomputable def realMath : MathFns ℝ :=
  { cos := Real.cos
    sin := Real.sin
    sqrt := Real.sqrt
    log := Real.log
    pow := fun x y => x ^ y
    pi := Real.pi
    toFloat := fun x => x }

/-- Whether `update()` at tick `t` runs `generateRealisticSimulation` in the state `p`:
the engine is initialized, in Simulation mode, and the call is not throttled. -/
def isSimTick (t : Nat) (p : Process α) : Bool :=
  p.engine.initialized && p.engine.simulationMode &&
    decide (16 ≤ sub32 t p.engine.lastUpdateTime)

/-- The smoothing factor of band `k` in the words of the specification:
`α_k = 0.2 + 0.6·k/64`. -/
def smoothFactorSpec (k : Nat) : α :=
  0.2 + 0.6 * (k : α) / 64

/-- More of the C library, used for silence and for the simulation: `sqrt 0 = 0`,
`log 1 = 0` and `|sin x| ≤ 1`. -/
structure MathFns.Exact (m : MathFns α) : Prop where
  sqrt_zero : m.sqrt 0 = 0
  log_one : m.log 1 = 0
  abs_sin_le : ∀ x, |m.sin x| ≤ 1

/-- A call that brings no sound: an `update`, or a capture delivery of zeros. -/
def Op.Silent : Op α → Prop
  | .update _ => True
  | .deliver data F => F < 2305843009213693952 ∧ ∀ d, data = some d → ∀ i, d i = 0
  | _ => False

/-- A Live engine that has heard nothing: the ring, the smoothed spectrum and the
spectrum hold zeros only. -/
structure AudioEngine.Quiet (e : AudioEngine α) : Prop where
  live : e.simulationMode = false
  shaped : e.Shaped
  ring_zero : ∀ i, e.audioBuffer.getD i 0 = 0
  smoothed_zero : ∀ x ∈ e.smoothedFreqData, x = 0
  frequency_zero : ∀ x ∈ e.frequencyData, x = 0

/-! ## The capture thread (`WASAPICapture::captureLoop`) -/

/-- The capture API calls of `captureLoop`. -/
inductive CaptureCall where
  | getNextPacketSize
  | getBuffer
  | releaseBuffer
  deriving DecidableEq, Repr

/-- What the outside world answers when `captureLoop` asks: the value of the flag
`running` when the loop tests it, and the result of an API call (`ok` is `!FAILED(hr)`,
the other fields are the out-parameters; a step reads the fields of the call it makes). -/
structure ApiReply (α : Type) where
  running : Bool
  ok : Bool
  packetLength : Nat
  data : Option (Nat → α)
  numFramesAvailable : Nat
  silent : Bool

/-- What `captureLoop` does, in order. -/
inductive CaptureEvent (α : Type) where
  /-- A call of the capture API. -/
  | call (c : CaptureCall)
  /-- The call `userCallback(data, numFramesAvailable)`. -/
  | callback (data : Option (Nat → α)) (frames : Nat)
  /-- The call `writeDebugLog(line)`; for a failed API call the text before the colon. -/
  | log (line : LogLine α)
  /-- The call `Sleep(10)`. -/
  | sleep

/-- The places of `captureLoop` at which it waits for an answer, and its end. -/
inductive CapturePc where
  /-- At `while (running)`. -/
  | loopTest
  /-- At `GetNextPacketSize` before the inner loop. -/
  | outerPoll
  /-- At `GetBuffer`, inside the inner loop. -/
  | getBuffer
  /-- At `ReleaseBuffer(numFramesAvailable)`. -/
  | releaseBuffer (numFramesAvailable : Nat)
  /-- At `GetNextPacketSize` at the end of the inner loop. -/
  | innerPoll
  /-- After the outer loop, "WASAPI capture loop exited." logged. -/
  | exited
  deriving DecidableEq, Repr

/-- One step of `captureLoop`: from a place and the answer received there to the next
place, with what the thread does on the way. -/
def captureStep (pc : CapturePc) (reply : ApiReply α) : CapturePc × List (CaptureEvent α) :=
  match pc with
  | .loopTest =>
    if reply.running then (.outerPoll, [])
    else (.exited, [.log (.text "WASAPI capture loop exited.")])
  | .outerPoll =>
    if !reply.ok then
      (.exited, [.call .getNextPacketSize,
        .log (.comError "GetNextPacketSize failed in captureLoop"),
        .log (.text "WASAPI capture loop exited.")])
    else if reply.packetLength ≠ 0 then (.getBuffer, [.call .getNextPacketSize])
    else (.loopTest, [.call .getNextPacketSize, .sleep])
  | .getBuffer =>
    if !reply.ok then
      (.loopTest, [.call .getBuffer, .log (.comError "GetBuffer failed in captureLoop"),
        .sleep])
    else if !reply.silent then
      (.releaseBuffer reply.numFramesAvailable,
        [.call .getBuffer, .callback reply.data reply.numFramesAvailable])
    else (.releaseBuffer reply.numFramesAvailable, [.call .getBuffer])
  | .releaseBuffer _ =>
    if !reply.ok then
      (.loopTest, [.call .releaseBuffer,
        .log (.comError "ReleaseBuffer failed in captureLoop"), .sleep])
    else (.innerPoll, [.call .releaseBuffer])
  | .innerPoll =>
    if !reply.ok then
      (.loopTest, [.call .getNextPacketSize,
        .log (.comError "GetNextPacketSize after ReleaseBuffer failed in captureLoop"),
        .sleep])
    else if reply.packetLength ≠ 0 then (.getBuffer, [.call .getNextPacketSize])
    else (.loopTest, [.call .getNextPacketSize, .sleep])
  | .exited => (.exited, [])

/-- The thread `captureLoop` run on a sequence of answers, from the place `pc`: the place
it is at afterwards and everything it did. -/
def captureRun (pc : CapturePc) (replies : List (ApiReply α)) :
    CapturePc × List (CaptureEvent α) :=
  replies.foldl
    (fun (st : CapturePc × List (CaptureEvent α)) reply =>
      ((captureStep st.1 reply).1, st.2 ++ (captureStep st.1 reply).2))
    (pc, [])

/-- Whether an event is an API call or a delivery callback. -/
def CaptureEvent.isPollOrCallback : CaptureEvent α → Bool
  | .call _ => true
  | .callback _ _ => true
  | _ => false

/-- The answer "the flag `running` is set". -/
def replyRunning : ApiReply α :=
  { running := true, ok := true, packetLength := 0, data := none, numFramesAvailable := 0,
    silent := false }

/-- The answer "the call succeeded, the next packet has `n` frames". -/
def replyPacket (n : Nat) : ApiReply α :=
  { running := true, ok := true, packetLength := n, data := none, numFramesAvailable := 0,
    silent := false }

/-- The answer "the call failed". -/
def replyFailed : ApiReply α :=
  { running := true, ok := false, packetLength := 0, data := none, numFramesAvailable := 0,
    silent := false }

/-- The answer "the call succeeded, here is a buffer of `frames` frames, not silent". -/
def replyBuffer (d : Nat → α) (frames : Nat) : ApiReply α :=
  { running := true, ok := true, packetLength := 0, data := some d,
    numFramesAvailable := frames, silent := false }

/-- The indices of `floatStream` the loop of `processAudioInput` reads: `i` and `i + 1`
in the iteration at `i = 2 * k`. -/
def indicesRead (sampleCount : Nat) : List Nat :=
  (List.range ((sampleCount + 1) / 2)).flatMap (fun k => [2 * k, 2 * k + 1])

end Defs

/-! # Theorems -/

theorem realMath_sound : realMath.Sound :=
  ⟨fun x => Real.sqrt_nonneg x, fun _ hx => Real.log_nonneg hx⟩

section Lemmas

/-! ### Lists -/

theorem getD_set_self {α : Type} (l : List α) (i : Nat) (x d : α) (h : i < l.length) :
    (l.set i x).getD i d = x := by
  simp [h]

theorem getD_set_other {α : Type} (l : List α) (i j : Nat) (x d : α) (h : i ≠ j) :
    (l.set i x).getD j d = l.getD j d := by
  simp [h]

theorem getD_replicate_self {α : Type} (n i : Nat) (x : α) :
    (List.replicate n x).getD i x = x := by
  rw [List.getD_eq_getElem?_getD, List.getElem?_replicate]
  split <;> rfl

variable {α : Type} [LinearOrderedField α]

theorem resize_of_length (v : List α) (n : Nat) (h : v.length = n) : resize v n = v := by
  simp [resize, ← h]

theorem resize_nil (n : Nat) : resize ([] : List α) n = List.replicate n 0 := by
  simp [resize]

theorem length_hanning (m : MathFns α) (n : Nat) : (hanning m n).length = n := by
  simp [hanning]

/-! ### `Uint32` subtraction -/

theorem sub32_of_le (a b : Nat) (hab : b ≤ a) (h : a - b < 4294967296) :
    sub32 a b = a - b := by
  unfold sub32
  omega

/-! ### The loop of `processAudioInput` -/

theorem foldLoop_eq (d : Nat → α) (sampleCount : Nat) (st : FoldState α) :
    foldLoop d sampleCount st = iterFrames d ((sampleCount + 1) / 2) st := rfl

theorem iterFrames_zero (d : Nat → α) (st : FoldState α) : iterFrames d 0 st = st := rfl

theorem iterFrames_succ (d : Nat → α) (n : Nat) (st : FoldState α) :
    iterFrames d (n + 1) st = foldFrame d (iterFrames d n st) n := by
  simp [iterFrames, List.range_succ, List.foldl_append]

theorem foldFrame_audioBuffer (d : Nat → α) (st : FoldState α) (k : Nat) :
    (foldFrame d st k).audioBuffer = st.audioBuffer.set st.currentWritePos (foldedSample d k) :=
  rfl

theorem foldFrame_currentWritePos (d : Nat → α) (st : FoldState α) (k : Nat) :
    (foldFrame d st k).currentWritePos = (st.currentWritePos + 1) % st.audioBuffer.length :=
  rfl

theorem foldFrame_levelSum (d : Nat → α) (st : FoldState α) (k : Nat) :
    (foldFrame d st k).levelSum = st.levelSum + |foldedSample d k| := rfl

theorem foldFrame_levelSamples (d : Nat → α) (st : FoldState α) (k : Nat) :
    (foldFrame d st k).levelSamples = st.levelSamples + 1 := rfl

theorem iterFrames_length (d : Nat → α) (n : Nat) (st : FoldState α) :
    (iterFrames d n st).audioBuffer.length = st.audioBuffer.length := by
  induction n with
  | zero => rfl
  | succ n ih => rw [iterFrames_succ, foldFrame_audioBuffer, List.length_set, ih]

theorem iterFrames_levelSamples (d : Nat → α) (n : Nat) (st : FoldState α) :
    (iterFrames d n st).levelSamples = st.levelSamples + n := by
  induction n with
  | zero => rfl
  | succ n ih => rw [iterFrames_succ, foldFrame_levelSamples, ih]; omega

theorem iterFrames_currentWritePos (d : Nat → α) (n : Nat) (st : FoldState α)
    (hw : st.currentWritePos < st.audioBuffer.length) :
    (iterFrames d n st).currentWritePos = (st.currentWritePos + n) % st.audioBuffer.length := by
  induction n with
  | zero => simpa [iterFrames_zero] using (Nat.mod_eq_of_lt hw).symm
  | succ n ih =>
    rw [iterFrames_succ, foldFrame_currentWritePos, ih, iterFrames_length, Nat.mod_add_mod,
      Nat.add_assoc]

/-- Slots the first `n` iterations do not write keep their value. -/
theorem iterFrames_untouched (d : Nat → α) (n : Nat) (st : FoldState α)
    (hw : st.currentWritePos < st.audioBuffer.length) (q : Nat)
    (hq : ∀ j, j < n → (st.currentWritePos + j) % st.audioBuffer.length ≠ q) :
    (iterFrames d n st).audioBuffer.getD q 0 = st.audioBuffer.getD q 0 := by
  induction n with
  | zero => rfl
  | succ n ih =>
    rw [iterFrames_succ, foldFrame_audioBuffer, iterFrames_currentWritePos d n st hw,
      getD_set_other _ _ _ _ _ (hq n (Nat.lt_succ_self n))]
    exact ih (fun j hj => hq j (Nat.lt_succ_of_lt hj))

/-- After `n` iterations the sample of iteration `j` is in slot `(w + j) mod C`, unless a
later iteration has gone round the ring and overwritten it. -/
theorem iterFrames_written (d : Nat → α) (n : Nat) (st : FoldState α)
    (hw : st.currentWritePos < st.audioBuffer.length) (j : Nat) (hj : j < n)
    (hlast : n ≤ j + st.audioBuffer.length) :
    (iterFrames d n st).audioBuffer.getD
        ((st.currentWritePos + j) % st.audioBuffer.length) 0 = foldedSample d j := by
  induction n with
  | zero => omega
  | succ n ih =>
    have hC : 0 < st.audioBuffer.length := by omega
    rw [iterFrames_succ, foldFrame_audioBuffer, iterFrames_currentWritePos d n st hw]
    rcases Nat.lt_or_ge j n with hjn | hjn
    · have hne : (st.currentWritePos + n) % st.audioBuffer.length ≠
          (st.currentWritePos + j) % st.audioBuffer.length := by
        intro heq
        have h1 : (st.currentWritePos + j + (n - j)) % st.audioBuffer.length
            = (st.currentWritePos + j) % st.audioBuffer.length := by
          rw [← heq]; congr 1; omega
        have h2 : (n - j) % st.audioBuffer.length = 0 := by
          have := Nat.ModEq.add_left_cancel' (st.currentWritePos + j)
            (show (st.currentWritePos + j + (n - j)) % st.audioBuffer.length
              = (st.currentWritePos + j + 0) % st.audioBuffer.length by simpa using h1)
          simpa [Nat.ModEq] using this
        have h3 : n - j < st.audioBuffer.length := by omega
        rw [Nat.mod_eq_of_lt h3] at h2
        omega
      rw [getD_set_other _ _ _ _ _ hne]
      exact ih hjn (by omega)
    · have hjn' : j = n := by omega
      subst hjn'
      apply getD_set_self
      rw [iterFrames_length]
      exact Nat.mod_lt _ hC

/-! ### `processAudioInput` on the engine -/

omit [LinearOrderedField α] in
theorem writeDebugLog_engine (line : LogLine α) (p : Process α) :
    (writeDebugLog line p).engine = p.engine := rfl

/-- The engine after `processAudioInput` in Live mode. -/
theorem processAudioInput_engine_live (d : Nat → α) (len : Nat) (p : Process α)
    (hlive : p.engine.simulationMode = false) :
    (AudioEngine.processAudioInput d len p).engine =
      { p.engine with
        callbackCount := p.engine.callbackCount + 1
        audioBuffer := (loopEnd d len p.engine).audioBuffer
        currentWritePos := (loopEnd d len p.engine).currentWritePos
        audioLevel :=
          if 0 < (loopEnd d len p.engine).levelSamples then
            p.engine.audioLevel * 0.9 +
              (loopEnd d len p.engine).levelSum / ((loopEnd d len p.engine).levelSamples : α) * 0.1
          else p.engine.audioLevel } := by
  unfold AudioEngine.processAudioInput
  simp only [hlive, Bool.false_eq_true, if_false]
  by_cases h5 : p.engine.callbackCount + 1 ≤ 5 <;>
  by_cases hs : 0 < (loopEnd d len p.engine).levelSamples <;>
  by_cases h100 : (p.engine.callbackCount + 1) % 100 = 0 <;>
  simp [h5, hs, h100, writeDebugLog, loopEnd, loopStart, foldLoop_eq] at * <;>
  simp [*]

/-- The engine after `processAudioInput` in Simulation mode. -/
theorem processAudioInput_engine_sim (d : Nat → α) (len : Nat) (p : Process α)
    (hsim : p.engine.simulationMode = true) :
    (AudioEngine.processAudioInput d len p).engine = p.engine := by
  unfold AudioEngine.processAudioInput
  simp [hsim, writeDebugLog]

/-- The byte length the delivery callback computes for `F` frames gives `F` iterations. -/
theorem deliver_iterations (F : Nat) (hF : F < 2305843009213693952) :
    (F * 4 * 2 % 18446744073709551616 / 4 + 1) / 2 = F := by
  omega

theorem deliver_some (d : Nat → α) (F : Nat) (p : Process α) (hF : 0 < F) :
    AudioEngine.deliver (some d) F p =
      AudioEngine.processAudioInput d (F * 4 * 2 % 18446744073709551616) p := by
  unfold AudioEngine.deliver
  simp [Nat.pos_iff_ne_zero.mp hF]

theorem loopEnd_deliver (d : Nat → α) (F : Nat) (e : AudioEngine α)
    (hF : F < 2305843009213693952) :
    loopEnd d (F * 4 * 2 % 18446744073709551616) e = iterFrames d F (loopStart e) := by
  unfold loopEnd
  rw [deliver_iterations F hF]

/-- The ring after the delivery of `F` frames is the ring after `F` loop iterations. -/
theorem deliver_audioBuffer (d : Nat → α) (F : Nat) (p : Process α)
    (hlive : p.engine.simulationMode = false) (hF1 : 0 < F)
    (hF : F < 2305843009213693952) :
    (AudioEngine.deliver (some d) F p).engine.audioBuffer =
      (iterFrames d F (loopStart p.engine)).audioBuffer := by
  rw [deliver_some d F p hF1, processAudioInput_engine_live d _ p hlive, loopEnd_deliver d F _ hF]

theorem deliver_currentWritePos (d : Nat → α) (F : Nat) (p : Process α)
    (hlive : p.engine.simulationMode = false) (hF1 : 0 < F)
    (hF : F < 2305843009213693952) :
    (AudioEngine.deliver (some d) F p).engine.currentWritePos =
      (iterFrames d F (loopStart p.engine)).currentWritePos := by
  rw [deliver_some d F p hF1, processAudioInput_engine_live d _ p hlive, loopEnd_deliver d F _ hF]

/-- The code's order of operations and the formula `clamp(3·0.5·(L+R), −1, 1)` agree. -/
theorem foldedSample_eq (d : Nat → α) (k : Nat) :
    foldedSample d k = max (-1) (min 1 (3 * (0.5 * (d (2 * k) + d (2 * k + 1))))) := by
  unfold foldedSample
  congr 2
  ring

/-! ### The ring as a history of samples -/

theorem readIdx_eq (w i : Nat) (hw : w < 4096) (hi : i ≤ 4096) :
    readIdx w i 4096 = (w + 4096 - i) % 4096 := by
  unfold readIdx
  omega

theorem monoBlock_succ (d : Nat → α) (n : Nat) :
    monoBlock d (n + 1) = monoBlock d n ++ [foldedSample d n] := by
  simp [monoBlock, List.range_succ]

theorem ringHolds_nil (buf : List α) (w : Nat) : RingHolds buf w [] := by
  intro i h1 h2 _
  simp at h2
  omega

/-- Writing one sample at the write index and advancing it appends to the history. -/
theorem ringHolds_push (buf : List α) (w : Nat) (hist : List α) (x : α)
    (hlen : buf.length = 4096) (hw : w < 4096) (h : RingHolds buf w hist) :
    RingHolds (buf.set w x) ((w + 1) % 4096) (hist ++ [x]) := by
  intro i h1 h2 h3
  rw [List.length_append, List.length_singleton] at h2
  rw [List.length_append, List.length_singleton]
  rcases Nat.eq_or_lt_of_le h1 with hi | hi
  · subst hi
    have hslot : ((w + 1) % 4096 + 4096 - 1) % 4096 = w := by omega
    rw [hslot, getD_set_self _ _ _ _ (by omega)]
    simp [List.getD_eq_getElem?_getD]
  · have hslot : ((w + 1) % 4096 + 4096 - i) % 4096 = (w + 4096 - (i - 1)) % 4096 := by omega
    have hne : w ≠ (w + 4096 - (i - 1)) % 4096 := by omega
    rw [hslot, getD_set_other _ _ _ _ _ hne, h (i - 1) (by omega) (by omega) (by omega)]
    have hidx : hist.length + 1 - i = hist.length - (i - 1) := by omega
    rw [hidx]
    have hlt : hist.length - (i - 1) < hist.length := by omega
    simp [List.getD_eq_getElem?_getD, List.getElem?_append_left hlt]

theorem ringHolds_iterFrames (d : Nat → α) (n : Nat) (st : FoldState α) (hist : List α)
    (hlen : st.audioBuffer.length = 4096) (hw : st.currentWritePos < 4096)
    (h : RingHolds st.audioBuffer st.currentWritePos hist) :
    RingHolds (iterFrames d n st).audioBuffer (iterFrames d n st).currentWritePos
      (hist ++ monoBlock d n) := by
  induction n with
  | zero => simpa [monoBlock, iterFrames_zero] using h
  | succ n ih =>
    have hlen' := iterFrames_length d n st
    have hpos := iterFrames_currentWritePos d n st (by omega)
    rw [iterFrames_succ, foldFrame_audioBuffer, foldFrame_currentWritePos, monoBlock_succ,
      ← List.append_assoc, hlen', hlen]
    exact ringHolds_push _ _ _ _ (by omega) (by rw [hpos, hlen]; exact Nat.mod_lt _ (by omega)) ih

/-- The fields `processAudioInput` never writes. -/
theorem processAudioInput_frame (d : Nat → α) (len : Nat) (p : Process α) :
    (AudioEngine.processAudioInput d len p).engine.simulationMode = p.engine.simulationMode ∧
    (AudioEngine.processAudioInput d len p).engine.initialized = p.engine.initialized ∧
    (AudioEngine.processAudioInput d len p).engine.bufferSize = p.engine.bufferSize ∧
    (AudioEngine.processAudioInput d len p).engine.sampleRate = p.engine.sampleRate ∧
    (AudioEngine.processAudioInput d len p).engine.frequencyData = p.engine.frequencyData ∧
    (AudioEngine.processAudioInput d len p).engine.smoothedFreqData
      = p.engine.smoothedFreqData ∧
    (AudioEngine.processAudioInput d len p).engine.hanningWindow = p.engine.hanningWindow ∧
    (AudioEngine.processAudioInput d len p).engine.lastUpdateTime = p.engine.lastUpdateTime ∧
    (AudioEngine.processAudioInput d len p).engine.wasapiCapture = p.engine.wasapiCapture := by
  cases hsim : p.engine.simulationMode with
  | true => simp [processAudioInput_engine_sim d len p hsim, hsim]
  | false => simp [processAudioInput_engine_live d len p hsim, hsim]

/-- The ring keeps its size and the write index stays inside it. -/
theorem processAudioInput_ring (d : Nat → α) (len : Nat) (p : Process α)
    (hlen : p.engine.audioBuffer.length = 4096) (hw : p.engine.currentWritePos < 4096) :
    (AudioEngine.processAudioInput d len p).engine.audioBuffer.length = 4096 ∧
    (AudioEngine.processAudioInput d len p).engine.currentWritePos < 4096 := by
  cases hsim : p.engine.simulationMode with
  | true => simp [processAudioInput_engine_sim d len p hsim, hlen, hw]
  | false =>
    have hst : (loopStart p.engine).currentWritePos < (loopStart p.engine).audioBuffer.length := by
      simp [loopStart, hlen, hw]
    have h1 := iterFrames_length d ((len / 4 + 1) / 2) (loopStart p.engine)
    have h2 := iterFrames_currentWritePos d ((len / 4 + 1) / 2) (loopStart p.engine) hst
    have hL : (loopStart p.engine).audioBuffer.length = 4096 := by simp [loopStart, hlen]
    rw [processAudioInput_engine_live d len p hsim]
    simp only [loopEnd]
    rw [h1, h2, hL]
    exact ⟨rfl, Nat.mod_lt _ (by norm_num)⟩

theorem deliver_none (F : Nat) (p : Process α) :
    AudioEngine.deliver (none : Option (Nat → α)) F p = p := rfl

theorem deliver_zero (data : Option (Nat → α)) (p : Process α) :
    AudioEngine.deliver data 0 p = p := by
  cases data <;> simp [AudioEngine.deliver]

/-- A delivery is either nothing or one call of `processAudioInput`. -/
theorem deliver_cases (data : Option (Nat → α)) (F : Nat) (p : Process α) :
    AudioEngine.deliver data F p = p ∨
      ∃ d len, AudioEngine.deliver data F p = AudioEngine.processAudioInput d len p := by
  cases data with
  | none => exact Or.inl rfl
  | some d =>
    rcases Nat.eq_zero_or_pos F with h | h
    · subst h; exact Or.inl (deliver_zero _ p)
    · exact Or.inr ⟨d, _, deliver_some d F p h⟩

theorem ringHolds_deliver (d : Nat → α) (F : Nat) (p : Process α) (hist : List α)
    (hlive : p.engine.simulationMode = false)
    (hlen : p.engine.audioBuffer.length = 4096) (hw : p.engine.currentWritePos < 4096)
    (hF : F < 2305843009213693952)
    (h : RingHolds p.engine.audioBuffer p.engine.currentWritePos hist) :
    RingHolds (AudioEngine.deliver (some d) F p).engine.audioBuffer
      (AudioEngine.deliver (some d) F p).engine.currentWritePos (hist ++ monoBlock d F) := by
  rcases Nat.eq_zero_or_pos F with h0 | h0
  · subst h0
    rw [deliver_zero]
    simpa [monoBlock] using h
  · rw [deliver_audioBuffer d F p hlive h0 hF, deliver_currentWritePos d F p hlive h0 hF]
    exact ringHolds_iterFrames d F (loopStart p.engine) hist hlen hw h

theorem ringHolds_deliverAll (ds : List ((Nat → α) × Nat)) :
    ∀ (p : Process α) (hist : List α), p.engine.simulationMode = false →
      p.engine.audioBuffer.length = 4096 → p.engine.currentWritePos < 4096 →
      (∀ x ∈ ds, x.2 < 2305843009213693952) →
      RingHolds p.engine.audioBuffer p.engine.currentWritePos hist →
      (deliverAll ds p).engine.audioBuffer.length = 4096 ∧
      (deliverAll ds p).engine.currentWritePos < 4096 ∧
      (deliverAll ds p).engine.hanningWindow = p.engine.hanningWindow ∧
      RingHolds (deliverAll ds p).engine.audioBuffer (deliverAll ds p).engine.currentWritePos
        (ds.foldl (fun acc x => acc ++ monoBlock x.1 x.2) hist) := by
  induction ds with
  | nil => intro p hist _ hlen hw _ h; exact ⟨hlen, hw, rfl, h⟩
  | cons x xs ih =>
    intro p hist hlive hlen hw hds h
    have hx : x.2 < 2305843009213693952 := hds x (List.mem_cons_self _ _)
    have hstep := ringHolds_deliver x.1 x.2 p hist hlive hlen hw hx h
    have hpres : (AudioEngine.deliver (some x.1) x.2 p).engine.simulationMode = false ∧
        (AudioEngine.deliver (some x.1) x.2 p).engine.audioBuffer.length = 4096 ∧
        (AudioEngine.deliver (some x.1) x.2 p).engine.currentWritePos < 4096 ∧
        (AudioEngine.deliver (some x.1) x.2 p).engine.hanningWindow = p.engine.hanningWindow := by
      rcases deliver_cases (some x.1) x.2 p with he | ⟨d, len, he⟩
      · rw [he]; exact ⟨hlive, hlen, hw, rfl⟩
      · rw [he]
        have hf := processAudioInput_frame d len p
        have hr := processAudioInput_ring d len p hlen hw
        exact ⟨hf.1.trans hlive, hr.1, hr.2, hf.2.2.2.2.2.2.1⟩
    have := ih (AudioEngine.deliver (some x.1) x.2 p) (hist ++ monoBlock x.1 x.2)
      hpres.1 hpres.2.1 hpres.2.2.1 (fun y hy => hds y (List.mem_cons_of_mem _ hy)) hstep
    simp only [deliverAll, List.foldl_cons] at this ⊢
    exact ⟨this.1, this.2.1, this.2.2.1.trans hpres.2.2.2, this.2.2.2⟩

/-! ### The smoothing loop of `performOptimizedFFT` -/

theorem smoothBand_eq (m : MathFns α) (mags : List α) (e : AudioEngine α) (i : Nat) :
    smoothBand m mags e i =
      { e with
        smoothedFreqData := e.smoothedFreqData.set i
          (smoothedValue m (mags.getD i 0) (e.smoothedFreqData.getD i 0) i)
        frequencyData := e.frequencyData.set i
          ((e.smoothedFreqData.set i
            (smoothedValue m (mags.getD i 0) (e.smoothedFreqData.getD i 0) i)).getD i 0) } :=
  rfl

theorem iterSmooth_succ (m : MathFns α) (mags : List α) (n : Nat) (e : AudioEngine α) :
    iterSmooth m mags (n + 1) e = smoothBand m mags (iterSmooth m mags n e) n := by
  simp [iterSmooth, List.range_succ, List.foldl_append]

/-- The smoothing loop writes `smoothedFreqData` and `frequencyData` only. -/
theorem iterSmooth_frame (m : MathFns α) (mags : List α) (n : Nat) (e : AudioEngine α) :
    iterSmooth m mags n e =
      { e with
        smoothedFreqData := (iterSmooth m mags n e).smoothedFreqData
        frequencyData := (iterSmooth m mags n e).frequencyData } := by
  induction n with
  | zero => rfl
  | succ n ih =>
    rw [iterSmooth_succ, smoothBand_eq]
    generalize iterSmooth m mags n e = e' at ih ⊢
    rw [ih]

theorem iterSmooth_lengths (m : MathFns α) (mags : List α) (n : Nat) (e : AudioEngine α) :
    (iterSmooth m mags n e).smoothedFreqData.length = e.smoothedFreqData.length ∧
    (iterSmooth m mags n e).frequencyData.length = e.frequencyData.length := by
  induction n with
  | zero => exact ⟨rfl, rfl⟩
  | succ n ih =>
    rw [iterSmooth_succ, smoothBand_eq]
    simpa using ih

/-- After `n` iterations the bands below `n` hold their new value in both vectors and the
other bands of `smoothedFreqData` are as before. -/
theorem iterSmooth_values (m : MathFns α) (mags : List α) (n : Nat) (e : AudioEngine α)
    (hn : n ≤ e.smoothedFreqData.length) (hn2 : n ≤ e.frequencyData.length) :
    (∀ i, i < n → (iterSmooth m mags n e).smoothedFreqData.getD i 0
        = smoothedValue m (mags.getD i 0) (e.smoothedFreqData.getD i 0) i) ∧
    (∀ i, i < n → (iterSmooth m mags n e).frequencyData.getD i 0
        = smoothedValue m (mags.getD i 0) (e.smoothedFreqData.getD i 0) i) ∧
    (∀ i, n ≤ i → (iterSmooth m mags n e).smoothedFreqData.getD i 0
        = e.smoothedFreqData.getD i 0) := by
  induction n with
  | zero =>
    refine ⟨fun i hi => ?_, fun i hi => ?_, fun i _ => rfl⟩ <;> omega
  | succ n ih =>
    obtain ⟨ih1, ih2, ih3⟩ := ih (by omega) (by omega)
    have hl := iterSmooth_lengths m mags n e
    rw [iterSmooth_succ, smoothBand_eq]
    refine ⟨fun i hi => ?_, fun i hi => ?_, fun i hi => ?_⟩
    · show (List.set _ n _).getD i 0 = _
      rcases Nat.eq_or_lt_of_le (Nat.le_of_lt_succ hi) with h | h
      · subst h
        rw [getD_set_self _ _ _ _ (by omega), ih3 i (Nat.le_refl i)]
      · rw [getD_set_other _ _ _ _ _ (by omega), ih1 i h]
    · show (List.set _ n _).getD i 0 = _
      rcases Nat.eq_or_lt_of_le (Nat.le_of_lt_succ hi) with h | h
      · subst h
        rw [getD_set_self _ _ _ _ (by omega), getD_set_self _ _ _ _ (by omega),
          ih3 i (Nat.le_refl i)]
      · rw [getD_set_other _ _ _ _ _ (by omega), ih2 i h]
    · show (List.set _ n _).getD i 0 = _
      rw [getD_set_other _ _ _ _ _ (by omega), ih3 i (by omega)]

theorem getD_nonneg (l : List α) (i : Nat) (h : ∀ x ∈ l, 0 ≤ x) : 0 ≤ l.getD i 0 := by
  rcases Nat.lt_or_ge i l.length with hi | hi
  · rw [List.getD_eq_getElem _ _ hi]
    exact h _ (List.getElem_mem _)
  · rw [List.getD_eq_default _ _ hi]

theorem forall_mem_of_getD (l : List α) (P : α → Prop)
    (h : ∀ i, i < l.length → P (l.getD i 0)) : ∀ x ∈ l, P x := by
  intro x hx
  obtain ⟨i, hi, rfl⟩ := List.getElem_of_mem hx
  have := h i hi
  rwa [List.getD_eq_getElem _ _ hi] at this

theorem eq_of_getD (l₁ l₂ : List α) (hl : l₁.length = l₂.length)
    (h : ∀ i, i < l₁.length → l₁.getD i 0 = l₂.getD i 0) : l₁ = l₂ := by
  apply List.ext_getElem hl
  intro i h1 h2
  have := h i h1
  rwa [List.getD_eq_getElem _ _ h1, List.getD_eq_getElem _ _ h2] at this

theorem bandMagnitude_nonneg (m : MathFns α) (hm : m.Sound) (e : AudioEngine α) (band : Nat) :
    0 ≤ bandMagnitude m e band := by
  unfold bandMagnitude
  exact div_nonneg (hm.sqrt_nonneg _) (Nat.cast_nonneg _)

theorem smoothedValue_nonneg (m : MathFns α) (hm : m.Sound) (mag old : α) (i : Nat)
    (hmag : 0 ≤ mag) (hold : 0 ≤ old) (hi : i < 64) : 0 ≤ smoothedValue m mag old i := by
  unfold smoothedValue
  have hlog : 0 ≤ m.log (1 + mag * 10000) := hm.log_nonneg _ (by nlinarith)
  have hi' : (i : α) < 64 := by exact_mod_cast hi
  have hi0 : (0 : α) ≤ (i : α) := Nat.cast_nonneg i
  have hsf0 : (0 : α) ≤ 0.2 + 0.6 * (i : α) / ((64 : Nat) : α) := by
    have : (0 : α) ≤ 0.6 * (i : α) / ((64 : Nat) : α) := by positivity
    norm_num at this ⊢
    linarith
  have hsf1 : 0.2 + 0.6 * (i : α) / ((64 : Nat) : α) ≤ 1 := by
    have h64 : (((64 : Nat) : α)) = 64 := by norm_num
    rw [h64, div_eq_mul_inv]
    norm_num
    linarith
  have h1 : 0 ≤ old * (0.2 + 0.6 * (i : α) / ((64 : Nat) : α)) := mul_nonneg hold hsf0
  have h2 : 0 ≤ m.log (1 + mag * 10000) * 0.1 *
      (1 - (0.2 + 0.6 * (i : α) / ((64 : Nat) : α))) :=
    mul_nonneg (mul_nonneg hlog (by norm_num)) (by linarith)
  linarith

/-- The two loops of `performOptimizedFFT` leave the spectrum equal to the smoothed
spectrum, both of size 64 and without negative entries. -/
theorem smoothAll_spec (m : MathFns α) (hm : m.Sound) (e : AudioEngine α)
    (hs : e.smoothedFreqData.length = 64) (hf : e.frequencyData.length = 64)
    (h0 : ∀ x ∈ e.smoothedFreqData, 0 ≤ x) :
    (smoothAll m e).smoothedFreqData.length = 64 ∧
    (smoothAll m e).frequencyData = (smoothAll m e).smoothedFreqData ∧
    (∀ x ∈ (smoothAll m e).smoothedFreqData, 0 ≤ x) := by
  have hl := iterSmooth_lengths m ((List.range 64).map (bandMagnitude m e)) 64 e
  obtain ⟨h1, h2, -⟩ := iterSmooth_values m ((List.range 64).map (bandMagnitude m e)) 64 e
    (by omega) (by omega)
  have hsm : smoothAll m e = iterSmooth m ((List.range 64).map (bandMagnitude m e)) 64 e := rfl
  rw [hsm]
  refine ⟨by rw [hl.1, hs], ?_, ?_⟩
  · apply eq_of_getD _ _ (by rw [hl.1, hl.2, hs, hf])
    intro i hi
    rw [hl.2, hf] at hi
    rw [h1 i hi, h2 i hi]
  · apply forall_mem_of_getD
    intro i hi
    rw [hl.1, hs] at hi
    rw [h1 i hi]
    apply smoothedValue_nonneg m hm _ _ _ _ (getD_nonneg _ _ h0) hi
    apply getD_nonneg
    intro x hx
    obtain ⟨b, -, rfl⟩ := List.mem_map.mp hx
    exact bandMagnitude_nonneg m hm e b

theorem smoothAll_lengths (m : MathFns α) (e : AudioEngine α) :
    (smoothAll m e).smoothedFreqData.length = e.smoothedFreqData.length ∧
    (smoothAll m e).frequencyData.length = e.frequencyData.length :=
  iterSmooth_lengths m _ 64 e

theorem smoothAll_frame (m : MathFns α) (e : AudioEngine α) :
    smoothAll m e =
      { e with
        smoothedFreqData := (smoothAll m e).smoothedFreqData
        frequencyData := (smoothAll m e).frequencyData } :=
  iterSmooth_frame m _ 64 e

/-! ### The block "normalize" -/

theorem le_maxElement (xs : List α) : ∀ x : α, x ≤ maxElement x xs ∧
    (∀ y ∈ xs, y ≤ maxElement x xs) ∧ maxElement x xs ∈ x :: xs := by
  induction xs with
  | nil => intro x; exact ⟨le_refl x, fun y hy => absurd hy (List.not_mem_nil y), List.mem_cons_self _ _⟩
  | cons z zs ih =>
    intro x
    obtain ⟨h1, h2, h3⟩ := ih (max x z)
    have hfold : maxElement x (z :: zs) = maxElement (max x z) zs := rfl
    rw [hfold]
    refine ⟨le_trans (le_max_left x z) h1, ?_, ?_⟩
    · intro y hy
      rcases List.mem_cons.mp hy with rfl | hy
      · exact le_trans (le_max_right x y) h1
      · exact h2 y hy
    · rcases List.mem_cons.mp h3 with h | h
      · rw [h]
        rcases max_choice x z with hc | hc
        · rw [hc]; exact List.mem_cons_self _ _
        · rw [hc]; exact List.mem_cons_of_mem _ (List.mem_cons_self _ _)
      · exact List.mem_cons_of_mem _ (List.mem_cons_of_mem _ h)

theorem length_normalize (l : List α) : (normalize l).length = l.length := by
  cases l with
  | nil => rfl
  | cons x xs =>
    show (if (0.001 : α) < maxElement x xs then
      (x :: xs).map (fun val => min 1 (val / maxElement x xs)) else x :: xs).length = _
    split <;> simp

/-- What "normalize" does to a vector without negative entries. -/
theorem normalize_spec (l : List α) (h0 : ∀ x ∈ l, 0 ≤ x) :
    (∀ x ∈ normalize l, 0 ≤ x ∧ x ≤ 1) ∧
    ((∃ x ∈ l, 0.001 < x) → (1 : α) ∈ normalize l) ∧
    ((∀ x ∈ l, x ≤ 0.001) → normalize l = l) := by
  cases l with
  | nil =>
    refine ⟨fun x hx => absurd hx (List.not_mem_nil x), ?_, fun _ => rfl⟩
    rintro ⟨x, hx, -⟩
    exact absurd hx (List.not_mem_nil x)
  | cons x xs =>
    obtain ⟨hx, hxs, hmem⟩ := le_maxElement xs x
    have hle : ∀ y ∈ x :: xs, y ≤ maxElement x xs := by
      intro y hy
      rcases List.mem_cons.mp hy with rfl | hy
      · exact hx
      · exact hxs y hy
    by_cases hmax : (0.001 : α) < maxElement x xs
    · have hpos : (0 : α) < maxElement x xs := lt_trans (by norm_num) hmax
      have hn : normalize (x :: xs) = (x :: xs).map (fun val => min 1 (val / maxElement x xs)) := by
        simp [normalize, hmax]
      rw [hn]
      refine ⟨?_, fun _ => ?_, fun hall => ?_⟩
      · intro y hy
        obtain ⟨v, hv, rfl⟩ := List.mem_map.mp hy
        exact ⟨le_min zero_le_one (div_nonneg (h0 v hv) hpos.le), min_le_left _ _⟩
      · exact List.mem_map.mpr ⟨maxElement x xs, hmem, by rw [div_self hpos.ne']; simp⟩
      · exact absurd (hall _ hmem) (not_le.mpr hmax)
    · have hn : normalize (x :: xs) = x :: xs := by
        simp [normalize, hmax]
      rw [hn]
      refine ⟨fun y hy => ⟨h0 y hy, ?_⟩, ?_, fun _ => rfl⟩
      · have h1 : (0.001 : α) ≤ 1 := by norm_num
        exact le_trans (le_trans (hle y hy) (not_lt.mp hmax)) h1
      · rintro ⟨y, hy, hy1⟩
        exact absurd (lt_of_lt_of_le hy1 (hle y hy)) hmax

/-! ### `update`, `initialize` and `cleanup` on the engine -/

theorem debugDump_engine (t : Nat) (p : Process α) : (debugDump t p).engine = p.engine := by
  unfold debugDump
  split
  · simp only []
    split <;> rfl
  · rfl

theorem update_skip (m : MathFns α) (t : Nat) (p : Process α)
    (h : p.engine.initialized = false ∨ sub32 t p.engine.lastUpdateTime < 16) :
    AudioEngine.update m t p = p := by
  unfold AudioEngine.update
  rcases h with h | h
  · simp [h]
  · simp [h]

theorem update_engine (m : MathFns α) (t : Nat) (p : Process α)
    (hinit : p.engine.initialized = true) (ht : 16 ≤ sub32 t p.engine.lastUpdateTime) :
    (AudioEngine.update m t p).engine =
      AudioEngine.performOptimizedFFT m (analysisInput m t p) := by
  unfold AudioEngine.update
  rw [if_neg (by simp [hinit]), if_neg (not_lt.mpr ht)]
  exact (debugDump_engine _ _).trans rfl

theorem generateRealisticSimulation_engine (m : MathFns α) (p : Process α) :
    (AudioEngine.generateRealisticSimulation m p).engine =
      { p.engine with
        audioBuffer := (AudioEngine.generateRealisticSimulation m p).engine.audioBuffer
        audioLevel := 0.5 } ∧
    (AudioEngine.generateRealisticSimulation m p).engine.audioBuffer.length
      = p.engine.audioBuffer.length := by
  unfold AudioEngine.generateRealisticSimulation
  by_cases h : p.loggedSim <;> simp [h, writeDebugLog]

theorem performOptimizedFFT_frame (m : MathFns α) (e : AudioEngine α) :
    AudioEngine.performOptimizedFFT m e =
      { e with
        smoothedFreqData := (smoothAll m e).smoothedFreqData
        frequencyData := normalize (smoothAll m e).frequencyData } := by
  unfold AudioEngine.performOptimizedFFT
  simp only []
  conv_lhs => rw [smoothAll_frame m e]

/-- The fields of the engine that `performOptimizedFFT` receives from `update`. -/
theorem analysisInput_frame (m : MathFns α) (t : Nat) (p : Process α) :
    analysisInput m t p =
      { p.engine with
        lastUpdateTime := t
        audioBuffer := (analysisInput m t p).audioBuffer
        audioLevel := if p.engine.simulationMode then 0.5 else p.engine.audioLevel } ∧
    (analysisInput m t p).audioBuffer.length = p.engine.audioBuffer.length ∧
    (p.engine.simulationMode = false → (analysisInput m t p).audioBuffer = p.engine.audioBuffer) := by
  cases hsim : p.engine.simulationMode with
  | true =>
    have h := generateRealisticSimulation_engine m
      { p with engine := { p.engine with lastUpdateTime := t } }
    have ha : analysisInput m t p = (AudioEngine.generateRealisticSimulation m
        { p with engine := { p.engine with lastUpdateTime := t } }).engine := by
      unfold analysisInput
      dsimp only
      rw [if_pos hsim]
    rw [ha]
    exact ⟨h.1.trans (by simp), h.2, fun h' => absurd h' (by simp)⟩
  | false =>
    have ha : analysisInput m t p = { p.engine with lastUpdateTime := t } := by
      unfold analysisInput
      dsimp only
      rw [if_neg (by simp [hsim])]
    rw [ha]
    exact ⟨by simp, rfl, fun _ => rfl⟩

/-- The engine after an `update` that performs an analysis. -/
theorem update_frame (m : MathFns α) (t : Nat) (p : Process α)
    (hinit : p.engine.initialized = true) (ht : 16 ≤ sub32 t p.engine.lastUpdateTime) :
    (AudioEngine.update m t p).engine =
      { p.engine with
        lastUpdateTime := t
        audioBuffer := (analysisInput m t p).audioBuffer
        audioLevel := if p.engine.simulationMode then 0.5 else p.engine.audioLevel
        smoothedFreqData := (smoothAll m (analysisInput m t p)).smoothedFreqData
        frequencyData := normalize (smoothAll m (analysisInput m t p)).frequencyData } := by
  rw [update_engine m t p hinit ht, performOptimizedFFT_frame]
  generalize hs : (smoothAll m (analysisInput m t p)).smoothedFreqData = sm
  generalize hf : normalize (smoothAll m (analysisInput m t p)).frequencyData = fr
  generalize hb : (analysisInput m t p).audioBuffer = buf
  have h := (analysisInput_frame m t p).1
  rw [hb] at h
  rw [h]

theorem initialize_engine (m : MathFns α) (r : ComResults) (p : Process α) :
    ( AudioEngine.initialize m r p).1.engine =
      { p.engine with
        audioBuffer := resize p.engine.audioBuffer (p.engine.bufferSize * 2)
        frequencyData := resize p.engine.frequencyData 64
        smoothedFreqData := resize p.engine.smoothedFreqData 64
        hanningWindow := hanning m p.engine.bufferSize
        simulationMode := !captureSetupOk (α := α) r
        lastUpdateTime := 0
        audioLevel := 0
        callbackCount := 0
        wasapiCapture := some ( WASAPICapture.initialize (α := α) r WASAPICapture.new).1
        initialized := true } ∧
    ( AudioEngine.initialize m r p).2 = true := by
  unfold AudioEngine.initialize captureSetupOk
  rcases hc : WASAPICapture.initialize (α := α) r WASAPICapture.new with ⟨c, tr, ok⟩
  cases ok <;> simp [writeDebugLog]

omit [LinearOrderedField α] in
theorem cleanup_engine (p : Process α) :
    (AudioEngine.cleanup p).engine =
      if p.engine.initialized then
        { p.engine with wasapiCapture := none, initialized := false }
      else p.engine := by
  unfold AudioEngine.cleanup
  cases hinit : p.engine.initialized with
  | false => simp
  | true =>
    cases hw : p.engine.wasapiCapture with
    | none => simp [writeDebugLog, hw]
    | some c => simp [writeDebugLog, hw]

/-! ### The new engine -/

theorem new_audioBuffer (m : MathFns α) :
    (AudioEngine.new m).engine.audioBuffer = List.replicate 4096 0 := by
  show resize ([] : List α) (2048 * 2) = _
  rw [resize_nil]

theorem new_audioBuffer_length (m : MathFns α) :
    (AudioEngine.new m).engine.audioBuffer.length = 4096 := by
  rw [new_audioBuffer, List.length_replicate]

theorem new_currentWritePos (m : MathFns α) :
    (AudioEngine.new m).engine.currentWritePos = 0 := rfl

/-! ### Invariants of the reachable states -/

theorem analysisInput_spectrum (m : MathFns α) (t : Nat) (p : Process α) :
    (analysisInput m t p).smoothedFreqData = p.engine.smoothedFreqData ∧
    (analysisInput m t p).frequencyData = p.engine.frequencyData := by
  have h := (analysisInput_frame m t p).1
  generalize (analysisInput m t p).audioBuffer = buf at h
  rw [h]
  exact ⟨rfl, rfl⟩

theorem shaped_step (m : MathFns α) (p : Process α) (op : Op α) (h : p.engine.Shaped) :
    (step m p op).engine.Shaped := by
  obtain ⟨hbs, hab, hfd, hsd, hw⟩ := h
  cases op with
  | init r =>
    show ( AudioEngine.initialize m r p).1.engine.Shaped
    rw [(initialize_engine m r p).1]
    constructor
    · exact hbs
    · show (resize p.engine.audioBuffer (p.engine.bufferSize * 2)).length = 4096
      rw [resize_of_length _ _ (by rw [hab, hbs])]; exact hab
    · show (resize p.engine.frequencyData 64).length = 64
      rw [resize_of_length _ _ hfd]; exact hfd
    · show (resize p.engine.smoothedFreqData 64).length = 64
      rw [resize_of_length _ _ hsd]; exact hsd
    · exact hw
  | update t =>
    show (AudioEngine.update m t p).engine.Shaped
    by_cases hskip : p.engine.initialized = false ∨ sub32 t p.engine.lastUpdateTime < 16
    · rw [update_skip m t p hskip]; exact ⟨hbs, hab, hfd, hsd, hw⟩
    · have hinit : p.engine.initialized = true := by
        cases hi : p.engine.initialized with
        | true => rfl
        | false => exact absurd (Or.inl hi) hskip
      have ht : 16 ≤ sub32 t p.engine.lastUpdateTime := not_lt.mp (fun h => hskip (Or.inr h))
      have hsp := analysisInput_spectrum m t p
      have hl := smoothAll_lengths m (analysisInput m t p)
      rw [update_frame m t p hinit ht]
      constructor
      · exact hbs
      · exact (analysisInput_frame m t p).2.1.trans hab
      · dsimp only
        rw [length_normalize, hl.2, hsp.2, hfd]
      · dsimp only
        rw [hl.1, hsp.1, hsd]
      · exact hw
  | deliver data frames =>
    show (AudioEngine.deliver data frames p).engine.Shaped
    rcases deliver_cases data frames p with he | ⟨d, len, he⟩
    · rw [he]; exact ⟨hbs, hab, hfd, hsd, hw⟩
    · rw [he]
      have hf := processAudioInput_frame d len p
      have hr := processAudioInput_ring d len p hab hw
      exact ⟨hf.2.2.1.trans hbs, hr.1, by rw [hf.2.2.2.2.1, hfd], by rw [hf.2.2.2.2.2.1, hsd], hr.2⟩
  | processAudioInput d len =>
    show (AudioEngine.processAudioInput d len p).engine.Shaped
    have hf := processAudioInput_frame d len p
    have hr := processAudioInput_ring d len p hab hw
    exact ⟨hf.2.2.1.trans hbs, hr.1, by rw [hf.2.2.2.2.1, hfd], by rw [hf.2.2.2.2.2.1, hsd], hr.2⟩
  | cleanup =>
    show (AudioEngine.cleanup p).engine.Shaped
    rw [cleanup_engine]
    split
    · exact ⟨hbs, hab, hfd, hsd, hw⟩
    · exact ⟨hbs, hab, hfd, hsd, hw⟩

theorem spectrumOk_step (m : MathFns α) (hm : m.Sound) (p : Process α) (op : Op α)
    (hsh : p.engine.Shaped) (h : p.engine.SpectrumOk) : (step m p op).engine.SpectrumOk := by
  obtain ⟨hbs, hab, hfd, hsd, hw⟩ := hsh
  obtain ⟨h0, h1⟩ := h
  cases op with
  | init r =>
    show ( AudioEngine.initialize m r p).1.engine.SpectrumOk
    rw [(initialize_engine m r p).1]
    constructor
    · show ∀ x ∈ resize p.engine.smoothedFreqData 64, 0 ≤ x
      rw [resize_of_length _ _ hsd]; exact h0
    · show ∀ x ∈ resize p.engine.frequencyData 64, 0 ≤ x ∧ x ≤ 1
      rw [resize_of_length _ _ hfd]; exact h1
  | update t =>
    show (AudioEngine.update m t p).engine.SpectrumOk
    by_cases hskip : p.engine.initialized = false ∨ sub32 t p.engine.lastUpdateTime < 16
    · rw [update_skip m t p hskip]; exact ⟨h0, h1⟩
    · have hinit : p.engine.initialized = true := by
        cases hi : p.engine.initialized with
        | true => rfl
        | false => exact absurd (Or.inl hi) hskip
      have ht : 16 ≤ sub32 t p.engine.lastUpdateTime := not_lt.mp (fun h => hskip (Or.inr h))
      have hsp := analysisInput_spectrum m t p
      obtain ⟨-, hEq, hnn⟩ := smoothAll_spec m hm (analysisInput m t p)
        (by rw [hsp.1, hsd]) (by rw [hsp.2, hfd]) (by rw [hsp.1]; exact h0)
      have hno := (normalize_spec (smoothAll m (analysisInput m t p)).frequencyData
        (by rw [hEq]; exact hnn)).1
      rw [update_frame m t p hinit ht]
      constructor
      · dsimp only
        exact hnn
      · dsimp only
        exact hno
  | deliver data frames =>
    show (AudioEngine.deliver data frames p).engine.SpectrumOk
    rcases deliver_cases data frames p with he | ⟨d, len, he⟩
    · rw [he]; exact ⟨h0, h1⟩
    · rw [he]
      have hf := processAudioInput_frame d len p
      exact ⟨by rw [hf.2.2.2.2.2.1]; exact h0, by rw [hf.2.2.2.2.1]; exact h1⟩
  | processAudioInput d len =>
    show (AudioEngine.processAudioInput d len p).engine.SpectrumOk
    have hf := processAudioInput_frame d len p
    exact ⟨by rw [hf.2.2.2.2.2.1]; exact h0, by rw [hf.2.2.2.2.1]; exact h1⟩
  | cleanup =>
    show (AudioEngine.cleanup p).engine.SpectrumOk
    rw [cleanup_engine]
    split
    · exact ⟨h0, h1⟩
    · exact ⟨h0, h1⟩

theorem shaped_new (m : MathFns α) : (AudioEngine.new m).engine.Shaped := by
  constructor
  · rfl
  · exact new_audioBuffer_length m
  · show (resize ([] : List α) 64).length = 64
    rw [resize_nil, List.length_replicate]
  · show (resize ([] : List α) 64).length = 64
    rw [resize_nil, List.length_replicate]
  · show 0 < 4096
    norm_num

theorem spectrumOk_new (m : MathFns α) : (AudioEngine.new m).engine.SpectrumOk := by
  constructor
  · show ∀ x ∈ resize ([] : List α) 64, 0 ≤ x
    rw [resize_nil]
    intro x hx
    rw [List.eq_of_mem_replicate hx]
  · show ∀ x ∈ resize ([] : List α) 64, 0 ≤ x ∧ x ≤ 1
    rw [resize_nil]
    intro x hx
    rw [List.eq_of_mem_replicate hx]
    exact ⟨le_refl 0, zero_le_one⟩

theorem run_append_singleton (m : MathFns α) (p : Process α) (ops : List (Op α)) (op : Op α) :
    run m p (ops ++ [op]) = step m (run m p ops) op := by
  simp [run, List.foldl_append]

/-- Every reachable state has vectors of the right sizes, and a spectrum in range. -/
theorem reachable_inv (m : MathFns α) (hm : m.Sound) (p : Process α) (h : Reachable m p) :
    p.engine.Shaped ∧ p.engine.SpectrumOk := by
  obtain ⟨ops, rfl⟩ := h
  induction ops using List.reverseRecOn with
  | nil => exact ⟨shaped_new m, spectrumOk_new m⟩
  | append_singleton ops op ih =>
    rw [run_append_singleton]
    exact ⟨shaped_step m _ op ih.1, spectrumOk_step m hm _ op ih.1 ih.2⟩

theorem reachable_new (m : MathFns α) : Reachable m (AudioEngine.new m) := ⟨[], rfl⟩

theorem reachable_step (m : MathFns α) (p : Process α) (op : Op α) (h : Reachable m p) :
    Reachable m (step m p op) := by
  obtain ⟨ops, rfl⟩ := h
  exact ⟨ops ++ [op], (run_append_singleton m _ ops op).symm⟩

/-- The result of `initialize` on a new engine, for any outcome of the capture setup. -/
theorem initialize_new_fields (m : MathFns α) (r : ComResults) :
    ( AudioEngine.initialize m r (AudioEngine.new m)).1.engine.initialized = true ∧
    ( AudioEngine.initialize m r (AudioEngine.new m)).1.engine.lastUpdateTime = 0 ∧
    ( AudioEngine.initialize m r (AudioEngine.new m)).1.engine.audioLevel = 0 ∧
    ( AudioEngine.initialize m r (AudioEngine.new m)).1.engine.simulationMode
      = !captureSetupOk (α := α) r := by
  rw [(initialize_engine m r (AudioEngine.new m)).1]
  exact ⟨rfl, rfl, rfl, rfl⟩

/-- The sum `getBeat` computes. -/
theorem getBeat_eq (e : AudioEngine α) (h : 8 ≤ e.frequencyData.length) :
    e.getBeat = min 1 (2 * (e.frequencyData.getD 0 0 + e.frequencyData.getD 1 0 +
      e.frequencyData.getD 2 0 + e.frequencyData.getD 3 0)) := by
  unfold AudioEngine.getBeat
  rw [if_neg (by omega)]
  have hsum : (List.range 4).foldl (fun acc i => acc + e.frequencyData.getD i 0) 0
      = 0 + e.frequencyData.getD 0 0 + e.frequencyData.getD 1 0 +
        e.frequencyData.getD 2 0 + e.frequencyData.getD 3 0 := rfl
  simp only [hsum]
  congr 1
  ring

/-- Two ticks less than 16 ms apart are less than 16 ms apart for the code. -/
theorem sub32_lt_of_close (t1 t2 : Nat) (h12 : t1 ≤ t2) (hlt : t2 - t1 < 16) :
    sub32 t2 t1 < 16 := by
  unfold sub32
  omega

/-- No call other than `initialize` writes `simulationMode`. -/
theorem step_simulationMode (m : MathFns α) (p : Process α) (op : Op α)
    (h : op.isInit = false) :
    (step m p op).engine.simulationMode = p.engine.simulationMode := by
  cases op with
  | init r => exact absurd h (by simp [Op.isInit])
  | update t =>
    show (AudioEngine.update m t p).engine.simulationMode = _
    by_cases hskip : p.engine.initialized = false ∨ sub32 t p.engine.lastUpdateTime < 16
    · rw [update_skip m t p hskip]
    · have hinit : p.engine.initialized = true := by
        cases hi : p.engine.initialized with
        | true => rfl
        | false => exact absurd (Or.inl hi) hskip
      have ht : 16 ≤ sub32 t p.engine.lastUpdateTime := not_lt.mp (fun h => hskip (Or.inr h))
      rw [update_frame m t p hinit ht]
  | deliver data frames =>
    show (AudioEngine.deliver data frames p).engine.simulationMode = _
    rcases deliver_cases data frames p with he | ⟨d, len, he⟩
    · rw [he]
    · rw [he]; exact (processAudioInput_frame d len p).1
  | processAudioInput d len => exact (processAudioInput_frame d len p).1
  | cleanup =>
    show (AudioEngine.cleanup p).engine.simulationMode = _
    rw [cleanup_engine]
    split <;> rfl

omit [LinearOrderedField α] in
theorem cleanup_of_not_initialized (p : Process α) (h : p.engine.initialized = false) :
    AudioEngine.cleanup p = p := by
  unfold AudioEngine.cleanup
  simp [h]

/-- In Simulation mode an analysis sets the envelope level to `0.5`. -/
theorem update_sim_audioLevel (m : MathFns α) (t : Nat) (p : Process α)
    (hinit : p.engine.initialized = true) (ht : 16 ≤ sub32 t p.engine.lastUpdateTime)
    (hsim : p.engine.simulationMode = true) :
    (AudioEngine.update m t p).engine.audioLevel = 0.5 := by
  rw [update_frame m t p hinit ht]
  show (if p.engine.simulationMode = true then (0.5 : α) else p.engine.audioLevel) = 0.5
  rw [if_pos hsim]

/-- From an initialized Simulation engine with `lastUpdateTime = 0` and envelope level
`0`: `update()` at tick 10 is skipped and `update()` at tick 20 is not. -/
theorem skipped_then_analysed (m : MathFns α) (p : Process α)
    (hinit : p.engine.initialized = true) (hlast : p.engine.lastUpdateTime = 0)
    (hlevel : p.engine.audioLevel = 0) (hsim : p.engine.simulationMode = true) :
    (snapshot (AudioEngine.update m 10 p).engine).2.1 = 0 ∧
    (snapshot (AudioEngine.update m 20 (AudioEngine.update m 10 p)).engine).2.1 = 0.5 ∧
    snapshot (AudioEngine.update m 20 (AudioEngine.update m 10 p)).engine
      ≠ snapshot (AudioEngine.update m 10 p).engine := by
  have h1 : AudioEngine.update m 10 p = p :=
    update_skip m 10 p (Or.inr (by rw [hlast]; decide))
  have h2 : (AudioEngine.update m 20 p).engine.audioLevel = 0.5 :=
    update_sim_audioLevel m 20 p hinit (by rw [hlast]; decide) hsim
  rw [h1]
  refine ⟨hlevel, h2, fun h => ?_⟩
  have h3 : (snapshot (AudioEngine.update m 20 p).engine).2.1 = (snapshot p.engine).2.1 := by
    rw [h]
  have h4 : (0.5 : α) = 0 := by
    rw [← h2, ← hlevel]; exact h3
  norm_num at h4

/-! ### Accessors around `initialize` and `cleanup` -/

omit [LinearOrderedField α] in
/-- What `cleanup` leaves alone: every vector and scalar the accessors read. -/
theorem cleanup_fields (p : Process α) :
    (AudioEngine.cleanup p).engine.frequencyData = p.engine.frequencyData ∧
    (AudioEngine.cleanup p).engine.audioLevel = p.engine.audioLevel ∧
    (AudioEngine.cleanup p).engine.smoothedFreqData = p.engine.smoothedFreqData ∧
    (AudioEngine.cleanup p).engine.audioBuffer = p.engine.audioBuffer ∧
    (AudioEngine.cleanup p).engine.currentWritePos = p.engine.currentWritePos ∧
    (AudioEngine.cleanup p).engine.hanningWindow = p.engine.hanningWindow ∧
    (AudioEngine.cleanup p).engine.simulationMode = p.engine.simulationMode ∧
    (AudioEngine.cleanup p).engine.bufferSize = p.engine.bufferSize := by
  rw [cleanup_engine]
  split <;> exact ⟨rfl, rfl, rfl, rfl, rfl, rfl, rfl, rfl⟩

theorem getBeat_of_zero (e : AudioEngine α) (h : ∀ i, e.frequencyData.getD i 0 = 0) :
    e.getBeat = 0 := by
  rcases Nat.lt_or_ge e.frequencyData.length 8 with hl | hl
  · unfold AudioEngine.getBeat
    rw [if_pos hl]
  · rw [getBeat_eq e hl, h 0, h 1, h 2, h 3]
    norm_num

theorem new_frequencyData (m : MathFns α) :
    (AudioEngine.new m).engine.frequencyData = List.replicate 64 0 := by
  show resize ([] : List α) 64 = _
  rw [resize_nil]

theorem new_audioLevel (m : MathFns α) : (AudioEngine.new m).engine.audioLevel = 0 := rfl

/-- The accessors on an engine that has been constructed and initialized, nothing else. -/
theorem initialize_new_accessors (m : MathFns α) (r : ComResults) :
    ( AudioEngine.initialize m r (AudioEngine.new m)).1.engine.frequencyData
      = List.replicate 64 0 ∧
    ( AudioEngine.initialize m r (AudioEngine.new m)).1.engine.audioLevel = 0 := by
  rw [(initialize_engine m r (AudioEngine.new m)).1]
  refine ⟨?_, rfl⟩
  show resize (AudioEngine.new m).engine.frequencyData 64 = _
  rw [new_frequencyData, resize_of_length _ _ (List.length_replicate _ _)]

/-! ### The envelope level -/

theorem foldedSample_range (d : Nat → α) (k : Nat) :
    -1 ≤ foldedSample d k ∧ foldedSample d k ≤ 1 := by
  unfold foldedSample
  exact ⟨le_max_left _ _, max_le (by norm_num) (min_le_left _ _)⟩

theorem abs_foldedSample_le (d : Nat → α) (k : Nat) : |foldedSample d k| ≤ 1 :=
  abs_le.mpr (foldedSample_range d k)

/-- The loop of `processAudioInput` adds up the magnitudes of the samples it writes. -/
theorem iterFrames_levelSum (d : Nat → α) (n : Nat) (st : FoldState α) :
    (iterFrames d n st).levelSum
      = st.levelSum + ((monoBlock d n).map (fun x => |x|)).sum := by
  induction n with
  | zero => simp [iterFrames_zero, monoBlock]
  | succ n ih =>
    rw [iterFrames_succ, foldFrame_levelSum, ih, monoBlock_succ]
    simp [add_assoc]

theorem absSum_monoBlock_range (d : Nat → α) (n : Nat) :
    0 ≤ ((monoBlock d n).map (fun x => |x|)).sum ∧
    ((monoBlock d n).map (fun x => |x|)).sum ≤ (n : α) := by
  induction n with
  | zero => simp [monoBlock]
  | succ n ih =>
    rw [monoBlock_succ]
    have h1 := abs_nonneg (foldedSample d n)
    have h2 := abs_foldedSample_le d n
    simp only [List.map_append, List.map_cons, List.map_nil, List.sum_append, List.sum_cons,
      List.sum_nil, add_zero, Nat.cast_add, Nat.cast_one]
    exact ⟨by linarith [ih.1], by linarith [ih.2]⟩

/-- The envelope level after `processAudioInput` in Live mode, with `n` the number of
loop iterations. -/
theorem processAudioInput_audioLevel (d : Nat → α) (len : Nat) (p : Process α)
    (hlive : p.engine.simulationMode = false) :
    (AudioEngine.processAudioInput d len p).engine.audioLevel =
      if 0 < (len / 4 + 1) / 2 then
        p.engine.audioLevel * 0.9 +
          ((monoBlock d ((len / 4 + 1) / 2)).map (fun x => |x|)).sum
            / (((len / 4 + 1) / 2 : Nat) : α) * 0.1
      else p.engine.audioLevel := by
  rw [processAudioInput_engine_live d len p hlive]
  have h1 : (loopEnd d len p.engine).levelSamples = (len / 4 + 1) / 2 := by
    unfold loopEnd
    rw [iterFrames_levelSamples]
    simp [loopStart]
  have h2 : (loopEnd d len p.engine).levelSum
      = ((monoBlock d ((len / 4 + 1) / 2)).map (fun x => |x|)).sum := by
    unfold loopEnd
    rw [iterFrames_levelSum]
    simp [loopStart]
  dsimp only
  rw [h1, h2]

theorem deliver_audioLevel (d : Nat → α) (F : Nat) (p : Process α)
    (hlive : p.engine.simulationMode = false) (hF1 : 0 < F)
    (hF : F < 2305843009213693952) :
    (AudioEngine.deliver (some d) F p).engine.audioLevel =
      p.engine.audioLevel * 0.9 + ((monoBlock d F).map (fun x => |x|)).sum / (F : α) * 0.1 := by
  rw [deliver_some d F p hF1, processAudioInput_audioLevel d _ p hlive, deliver_iterations F hF,
    if_pos hF1]

/-- `processAudioInput` keeps the envelope level in `[0, 1]`. -/
theorem processAudioInput_level_range (d : Nat → α) (len : Nat) (p : Process α)
    (h : 0 ≤ p.engine.audioLevel ∧ p.engine.audioLevel ≤ 1) :
    0 ≤ (AudioEngine.processAudioInput d len p).engine.audioLevel ∧
    (AudioEngine.processAudioInput d len p).engine.audioLevel ≤ 1 := by
  cases hsim : p.engine.simulationMode with
  | true => rw [processAudioInput_engine_sim d len p hsim]; exact h
  | false =>
    rw [processAudioInput_audioLevel d len p hsim]
    split
    · rename_i hn
      have hs := absSum_monoBlock_range d ((len / 4 + 1) / 2)
      have hpos : (0 : α) < (((len / 4 + 1) / 2 : Nat) : α) := by exact_mod_cast hn
      have hq0 : 0 ≤ ((monoBlock d ((len / 4 + 1) / 2)).map (fun x => |x|)).sum
          / (((len / 4 + 1) / 2 : Nat) : α) := div_nonneg hs.1 hpos.le
      have hq1 : ((monoBlock d ((len / 4 + 1) / 2)).map (fun x => |x|)).sum
          / (((len / 4 + 1) / 2 : Nat) : α) ≤ 1 := (div_le_one hpos).mpr hs.2
      constructor
      · have : (0 : α) ≤ p.engine.audioLevel * 0.9 := mul_nonneg h.1 (by norm_num)
        have : (0 : α) ≤ ((monoBlock d ((len / 4 + 1) / 2)).map (fun x => |x|)).sum
            / (((len / 4 + 1) / 2 : Nat) : α) * 0.1 := mul_nonneg hq0 (by norm_num)
        linarith
      · have e1 : p.engine.audioLevel * 0.9 ≤ 1 * 0.9 :=
          mul_le_mul_of_nonneg_right h.2 (by norm_num)
        have e2 : ((monoBlock d ((len / 4 + 1) / 2)).map (fun x => |x|)).sum
            / (((len / 4 + 1) / 2 : Nat) : α) * 0.1 ≤ 1 * 0.1 :=
          mul_le_mul_of_nonneg_right hq1 (by norm_num)
        have e3 : (1 : α) * 0.9 + 1 * 0.1 = 1 := by norm_num
        linarith
    · exact h

/-- Every call keeps the envelope level in `[0, 1]`. -/
theorem level_step (m : MathFns α) (p : Process α) (op : Op α)
    (h : 0 ≤ p.engine.audioLevel ∧ p.engine.audioLevel ≤ 1) :
    0 ≤ (step m p op).engine.audioLevel ∧ (step m p op).engine.audioLevel ≤ 1 := by
  cases op with
  | init r =>
    show 0 ≤ ( AudioEngine.initialize m r p).1.engine.audioLevel ∧
      ( AudioEngine.initialize m r p).1.engine.audioLevel ≤ 1
    rw [(initialize_engine m r p).1]
    exact ⟨le_refl 0, zero_le_one⟩
  | update t =>
    show 0 ≤ (AudioEngine.update m t p).engine.audioLevel ∧
      (AudioEngine.update m t p).engine.audioLevel ≤ 1
    by_cases hskip : p.engine.initialized = false ∨ sub32 t p.engine.lastUpdateTime < 16
    · rw [update_skip m t p hskip]; exact h
    · have hinit : p.engine.initialized = true := by
        cases hi : p.engine.initialized with
        | true => rfl
        | false => exact absurd (Or.inl hi) hskip
      have ht : 16 ≤ sub32 t p.engine.lastUpdateTime := not_lt.mp (fun h => hskip (Or.inr h))
      rw [update_frame m t p hinit ht]
      dsimp only
      split
      · constructor <;> norm_num
      · exact h
  | deliver data frames =>
    show 0 ≤ (AudioEngine.deliver data frames p).engine.audioLevel ∧
      (AudioEngine.deliver data frames p).engine.audioLevel ≤ 1
    rcases deliver_cases data frames p with he | ⟨d, len, he⟩
    · rw [he]; exact h
    · rw [he]; exact processAudioInput_level_range d len p h
  | processAudioInput d len => exact processAudioInput_level_range d len p h
  | cleanup =>
    show 0 ≤ (AudioEngine.cleanup p).engine.audioLevel ∧
      (AudioEngine.cleanup p).engine.audioLevel ≤ 1
    rw [(cleanup_fields p).2.1]; exact h

/-- In every reachable state the envelope level lies in `[0, 1]`. -/
theorem reachable_level (m : MathFns α) (p : Process α) (h : Reachable m p) :
    0 ≤ p.engine.audioLevel ∧ p.engine.audioLevel ≤ 1 := by
  obtain ⟨ops, rfl⟩ := h
  induction ops using List.reverseRecOn with
  | nil => exact ⟨le_of_eq (new_audioLevel m).symm, le_trans (le_of_eq (new_audioLevel m)) zero_le_one⟩
  | append_singleton ops op ih =>
    rw [run_append_singleton]
    exact level_step m _ op ih

/-! ### Blocks that fold to silence -/

theorem foldedSample_cancel (d : Nat → α) (k : Nat) (h : d (2 * k + 1) = -d (2 * k)) :
    foldedSample d k = 0 := by
  unfold foldedSample
  rw [h]
  norm_num

theorem absSum_cancel (d : Nat → α) (n : Nat) (h : ∀ j, j < n → d (2 * j + 1) = -d (2 * j)) :
    ((monoBlock d n).map (fun x => |x|)).sum = 0 := by
  induction n with
  | zero => simp [monoBlock]
  | succ n ih =>
    rw [monoBlock_succ]
    simp only [List.map_append, List.map_cons, List.map_nil, List.sum_append, List.sum_cons,
      List.sum_nil, add_zero]
    rw [ih (fun j hj => h j (Nat.lt_succ_of_lt hj)),
      foldedSample_cancel d n (h n (Nat.lt_succ_self n))]
    norm_num

/-- A non-empty block whose pairs cancel multiplies the envelope level by `0.9`. -/
theorem deliver_cancel_level (d : Nat → α) (F : Nat) (p : Process α)
    (hlive : p.engine.simulationMode = false) (hF1 : 0 < F)
    (hF : F < 2305843009213693952) (h : ∀ j, j < F → d (2 * j + 1) = -d (2 * j)) :
    (AudioEngine.deliver (some d) F p).engine.audioLevel = 0.9 * p.engine.audioLevel := by
  rw [deliver_audioLevel d F p hlive hF1 hF, absSum_cancel d F h]
  ring

theorem deliver_simulationMode (data : Option (Nat → α)) (F : Nat) (p : Process α) :
    (AudioEngine.deliver data F p).engine.simulationMode = p.engine.simulationMode := by
  rcases deliver_cases data F p with he | ⟨d, len, he⟩
  · rw [he]
  · rw [he]; exact (processAudioInput_frame d len p).1

theorem deliverAll_cancel_level (ds : List ((Nat → α) × Nat)) :
    ∀ p : Process α, p.engine.simulationMode = false →
      (∀ x ∈ ds, 1 ≤ x.2 ∧ x.2 < 2305843009213693952 ∧
        ∀ j, j < x.2 → x.1 (2 * j + 1) = -x.1 (2 * j)) →
      (deliverAll ds p).engine.audioLevel = 0.9 ^ ds.length * p.engine.audioLevel := by
  induction ds with
  | nil => intro p _ _; simp [deliverAll]
  | cons x xs ih =>
    intro p hlive hds
    obtain ⟨h1, h2, h3⟩ := hds x (List.mem_cons_self _ _)
    have hstep := deliver_cancel_level x.1 x.2 p hlive h1 h2 h3
    have hl := (deliver_simulationMode (some x.1) x.2 p).trans hlive
    have := ih (AudioEngine.deliver (some x.1) x.2 p) hl
      (fun y hy => hds y (List.mem_cons_of_mem _ hy))
    simp only [deliverAll, List.foldl_cons, List.length_cons] at this ⊢
    rw [this, hstep, pow_succ]
    ring

/-! ### The envelope level in Simulation mode -/

/-- Once the envelope level is `0.5` in Simulation mode, every call other than
`initialize` keeps it there. -/
theorem sim_pin_step (m : MathFns α) (p : Process α) (op : Op α) (hop : op.isInit = false)
    (hsim : p.engine.simulationMode = true) (hlevel : p.engine.audioLevel = 0.5) :
    (step m p op).engine.simulationMode = true ∧ (step m p op).engine.audioLevel = 0.5 := by
  refine ⟨(step_simulationMode m p op hop).trans hsim, ?_⟩
  cases op with
  | init r => exact absurd hop (by simp [Op.isInit])
  | update t =>
    show (AudioEngine.update m t p).engine.audioLevel = 0.5
    by_cases hskip : p.engine.initialized = false ∨ sub32 t p.engine.lastUpdateTime < 16
    · rw [update_skip m t p hskip]; exact hlevel
    · have hinit : p.engine.initialized = true := by
        cases hi : p.engine.initialized with
        | true => rfl
        | false => exact absurd (Or.inl hi) hskip
      exact update_sim_audioLevel m t p hinit
        (not_lt.mp (fun h => hskip (Or.inr h))) hsim
  | deliver data frames =>
    show (AudioEngine.deliver data frames p).engine.audioLevel = 0.5
    rcases deliver_cases data frames p with he | ⟨d, len, he⟩
    · rw [he]; exact hlevel
    · rw [he, processAudioInput_engine_sim d len p hsim]; exact hlevel
  | processAudioInput d len =>
    show (AudioEngine.processAudioInput d len p).engine.audioLevel = 0.5
    rw [processAudioInput_engine_sim d len p hsim]; exact hlevel
  | cleanup =>
    show (AudioEngine.cleanup p).engine.audioLevel = 0.5
    rw [(cleanup_fields p).2.1]; exact hlevel

theorem sim_pin_run (m : MathFns α) (p : Process α) (ops : List (Op α))
    (hops : ∀ op ∈ ops, op.isInit = false)
    (hsim : p.engine.simulationMode = true) (hlevel : p.engine.audioLevel = 0.5) :
    (run m p ops).engine.simulationMode = true ∧ (run m p ops).engine.audioLevel = 0.5 := by
  induction ops using List.reverseRecOn with
  | nil => exact ⟨hsim, hlevel⟩
  | append_singleton ops op ih =>
    have h := ih (fun o ho => hops o (by simp [ho]))
    rw [run_append_singleton]
    exact sim_pin_step m _ op (hops op (by simp)) h.1 h.2

theorem update_simulationMode (m : MathFns α) (t : Nat) (p : Process α) :
    (AudioEngine.update m t p).engine.simulationMode = p.engine.simulationMode :=
  step_simulationMode m p (.update t) rfl

/-! ### The simulation source -/

omit [LinearOrderedField α] in
theorem isSimTick_iff (t : Nat) (p : Process α) :
    isSimTick t p = true ↔ p.engine.initialized = true ∧ p.engine.simulationMode = true ∧
      16 ≤ sub32 t p.engine.lastUpdateTime := by
  simp [isSimTick, and_assoc]

/-- The ring and the time variable after `generateRealisticSimulation`. -/
theorem generateRealisticSimulation_ring (m : MathFns α) (p : Process α) :
    (AudioEngine.generateRealisticSimulation m p).simTime
      = m.toFloat (p.simTime + m.toFloat 0.016) ∧
    (AudioEngine.generateRealisticSimulation m p).engine.audioBuffer =
      (List.range p.engine.audioBuffer.length).map (fun (i : Nat) =>
        (0 + 0.6 * m.sin (2 * m.pi * 60 * (m.toFloat (p.simTime + m.toFloat 0.016) + (i : α) * 0.0001))
          + 0.4 * m.sin (2 * m.pi * 440 * (m.toFloat (p.simTime + m.toFloat 0.016) + (i : α) * 0.0001))
          + 0.2 * m.sin (2 * m.pi * 2000 * (m.toFloat (p.simTime + m.toFloat 0.016) + (i : α) * 0.0001))) * 0.5) := by
  unfold AudioEngine.generateRealisticSimulation
  by_cases h : p.loggedSim <;> simp [h, writeDebugLog]

/-- The ring after an `update` that executes a simulation tick. -/
theorem update_sim_ring (m : MathFns α) (t : Nat) (p : Process α)
    (h : isSimTick t p = true) :
    (AudioEngine.update m t p).engine.audioBuffer =
      (List.range p.engine.audioBuffer.length).map (fun (i : Nat) =>
        (0 + 0.6 * m.sin (2 * m.pi * 60 * (m.toFloat (p.simTime + m.toFloat 0.016) + (i : α) * 0.0001))
          + 0.4 * m.sin (2 * m.pi * 440 * (m.toFloat (p.simTime + m.toFloat 0.016) + (i : α) * 0.0001))
          + 0.2 * m.sin (2 * m.pi * 2000 * (m.toFloat (p.simTime + m.toFloat 0.016) + (i : α) * 0.0001))) * 0.5) ∧
    (AudioEngine.update m t p).engine.currentWritePos = p.engine.currentWritePos := by
  obtain ⟨hinit, hsim, ht⟩ := (isSimTick_iff t p).mp h
  rw [update_frame m t p hinit ht]
  refine ⟨?_, rfl⟩
  dsimp only
  unfold analysisInput
  dsimp only
  rw [if_pos hsim]
  exact (generateRealisticSimulation_ring m _).2

/-- Every reachable state has vectors of the right sizes, whatever the C library does. -/
theorem reachable_shaped (m : MathFns α) (p : Process α) (h : Reachable m p) :
    p.engine.Shaped := by
  obtain ⟨ops, rfl⟩ := h
  induction ops using List.reverseRecOn with
  | nil => exact shaped_new m
  | append_singleton ops op ih =>
    rw [run_append_singleton]
    exact shaped_step m _ op ih

theorem getD_map_range (f : Nat → α) (n i : Nat) (hi : i < n) :
    ((List.range n).map f).getD i 0 = f i := by
  rw [List.getD_eq_getElem _ _ (by simpa using hi)]
  simp

/-! ### The Hann window -/

theorem new_hanningWindow (m : MathFns α) :
    (AudioEngine.new m).engine.hanningWindow = hanning m 2048 := by
  unfold AudioEngine.new writeDebugLog
  dsimp only

/-- No call changes the window of an engine that holds the window of size 2048. -/
theorem hanning_step (m : MathFns α) (p : Process α) (op : Op α)
    (hbs : p.engine.bufferSize = 2048) (hw : p.engine.hanningWindow = hanning m 2048) :
    (step m p op).engine.hanningWindow = p.engine.hanningWindow := by
  cases op with
  | init r =>
    show ( AudioEngine.initialize m r p).1.engine.hanningWindow = _
    rw [(initialize_engine m r p).1]
    show hanning m p.engine.bufferSize = _
    rw [hbs, hw]
  | update t =>
    show (AudioEngine.update m t p).engine.hanningWindow = _
    by_cases hskip : p.engine.initialized = false ∨ sub32 t p.engine.lastUpdateTime < 16
    · rw [update_skip m t p hskip]
    · have hinit : p.engine.initialized = true := by
        cases hi : p.engine.initialized with
        | true => rfl
        | false => exact absurd (Or.inl hi) hskip
      rw [update_frame m t p hinit (not_lt.mp (fun h => hskip (Or.inr h)))]
  | deliver data frames =>
    show (AudioEngine.deliver data frames p).engine.hanningWindow = _
    rcases deliver_cases data frames p with he | ⟨d, len, he⟩
    · rw [he]
    · rw [he]; exact (processAudioInput_frame d len p).2.2.2.2.2.2.1
  | processAudioInput d len => exact (processAudioInput_frame d len p).2.2.2.2.2.2.1
  | cleanup => exact (cleanup_fields p).2.2.2.2.2.1

/-- In every reachable state the window is the one the constructor computed. -/
theorem reachable_hanning (m : MathFns α) (p : Process α) (h : Reachable m p) :
    p.engine.hanningWindow = hanning m 2048 := by
  obtain ⟨ops, rfl⟩ := h
  induction ops using List.reverseRecOn with
  | nil => exact new_hanningWindow m
  | append_singleton ops op ih =>
    rw [run_append_singleton,
      hanning_step m _ op (reachable_shaped m _ ⟨ops, rfl⟩).bufferSize_eq ih]
    exact ih

theorem hanning_getD (m : MathFns α) (i : Nat) (hi : i < 2048) :
    (hanning m 2048).getD i 0 = 0.5 * (1 - m.cos (2 * m.pi * (i : α) / (2048 - 1))) := by
  unfold hanning
  rw [getD_map_range _ _ _ hi]
  norm_num

/-! ### The smoothing factor -/

theorem smoothFactorSpec_range (k : Nat) (hk : k < 64) :
    (0.2 : α) ≤ smoothFactorSpec k ∧ smoothFactorSpec k < (0.8 : α) := by
  unfold smoothFactorSpec
  have h0 : (0 : α) ≤ (k : α) := Nat.cast_nonneg k
  have h1 : (k : α) < 64 := by exact_mod_cast hk
  constructor
  · have : (0 : α) ≤ 0.6 * (k : α) / 64 := by positivity
    linarith
  · have : 0.6 * (k : α) / 64 < 0.6 := by
      rw [div_lt_iff₀ (by norm_num : (0 : α) < 64)]
      nlinarith
    have e : (0.2 : α) + 0.6 = 0.8 := by norm_num
    linarith

theorem smoothFactorSpec_strictMono (j k : Nat) (h : j < k) :
    (smoothFactorSpec j : α) < smoothFactorSpec k := by
  unfold smoothFactorSpec
  have h1 : (j : α) < (k : α) := by exact_mod_cast h
  have : 0.6 * (j : α) / 64 < 0.6 * (k : α) / 64 := by
    apply div_lt_div_of_pos_right _ (by norm_num)
    nlinarith
  linarith

/-- The smoothed spectrum after `performOptimizedFFT`, band by band. -/
theorem performOptimizedFFT_smoothed (m : MathFns α) (e : AudioEngine α) (k : Nat)
    (hs : e.smoothedFreqData.length = 64) (hf : e.frequencyData.length = 64) (hk : k < 64) :
    (AudioEngine.performOptimizedFFT m e).smoothedFreqData.getD k 0 =
      smoothedValue m (bandMagnitude m e k) (e.smoothedFreqData.getD k 0) k := by
  rw [performOptimizedFFT_frame]
  dsimp only
  have hsm : smoothAll m e = iterSmooth m ((List.range 64).map (bandMagnitude m e)) 64 e := rfl
  rw [hsm, (iterSmooth_values m _ 64 e (by omega) (by omega)).1 k hk,
    List.getD_eq_getElem _ _ (by simpa using hk)]
  simp

/-! ### Silence -/

theorem realMath_exact : realMath.Exact :=
  ⟨Real.sqrt_zero, Real.log_one, Real.abs_sin_le_one⟩

theorem getD_set_zero (l : List α) (w i : Nat) (h : ∀ j, l.getD j 0 = 0) :
    (l.set w 0).getD i 0 = 0 := by
  by_cases hwi : w = i
  · subst hwi
    rcases Nat.lt_or_ge w l.length with hl | hl
    · exact getD_set_self _ _ _ _ hl
    · exact List.getD_eq_default _ _ (by rw [List.length_set]; exact hl)
  · rw [getD_set_other _ _ _ _ _ hwi]; exact h i

theorem getD_zero_of_mem (l : List α) (h : ∀ x ∈ l, x = 0) (i : Nat) : l.getD i 0 = 0 := by
  rcases Nat.lt_or_ge i l.length with hi | hi
  · rw [List.getD_eq_getElem _ _ hi]
    exact h _ (List.getElem_mem _)
  · exact List.getD_eq_default _ _ hi

theorem foldedSample_zero (d : Nat → α) (k : Nat) (h : ∀ i, d i = 0) : foldedSample d k = 0 := by
  unfold foldedSample
  rw [h, h]
  norm_num

/-- Zeros written into a ring of zeros leave a ring of zeros. -/
theorem iterFrames_ring_zero (d : Nat → α) (n : Nat) (st : FoldState α) (hd : ∀ i, d i = 0)
    (h : ∀ i, st.audioBuffer.getD i 0 = 0) :
    ∀ i, (iterFrames d n st).audioBuffer.getD i 0 = 0 := by
  induction n with
  | zero => exact h
  | succ n ih =>
    intro i
    rw [iterFrames_succ, foldFrame_audioBuffer, foldedSample_zero d n hd]
    exact getD_set_zero _ _ _ ih

theorem windowedSample_zero (e : AudioEngine α) (i : Nat) (h : ∀ j, e.audioBuffer.getD j 0 = 0) :
    windowedSample e i = 0 := by
  unfold windowedSample
  rw [h, zero_mul]

theorem foldl_pair_zero (f : α × α → Nat → α × α) (l : List Nat)
    (h : ∀ i, f (0, 0) i = (0, 0)) : l.foldl f (0, 0) = (0, 0) := by
  induction l with
  | nil => rfl
  | cons x xs ih => rw [List.foldl_cons, h x, ih]

theorem projectBand_zero (m : MathFns α) (e : AudioEngine α) (frequency : α) (step : Nat)
    (h : ∀ j, e.audioBuffer.getD j 0 = 0) : projectBand m e frequency step = (0, 0) := by
  unfold projectBand
  apply foldl_pair_zero
  intro i
  dsimp only
  rw [windowedSample_zero e i h]
  simp

theorem bandMagnitude_zero (m : MathFns α) (hx : m.Exact) (e : AudioEngine α) (band : Nat)
    (h : ∀ j, e.audioBuffer.getD j 0 = 0) : bandMagnitude m e band = 0 := by
  unfold bandMagnitude
  dsimp only
  rw [projectBand_zero m e _ _ h]
  simp [hx.sqrt_zero]

theorem smoothedValue_zero (m : MathFns α) (hx : m.Exact) (k : Nat) :
    smoothedValue m 0 0 k = 0 := by
  unfold smoothedValue
  simp [hx.log_one]

/-- The two loops of `performOptimizedFFT` on an engine that has heard nothing. -/
theorem smoothAll_quiet (m : MathFns α) (hx : m.Exact) (e : AudioEngine α)
    (hs : e.smoothedFreqData.length = 64) (hf : e.frequencyData.length = 64)
    (hring : ∀ j, e.audioBuffer.getD j 0 = 0) (h0 : ∀ x ∈ e.smoothedFreqData, x = 0) :
    (∀ x ∈ (smoothAll m e).smoothedFreqData, x = 0) ∧
    (∀ x ∈ (smoothAll m e).frequencyData, x = 0) := by
  have hl := iterSmooth_lengths m ((List.range 64).map (bandMagnitude m e)) 64 e
  obtain ⟨h1, h2, -⟩ := iterSmooth_values m ((List.range 64).map (bandMagnitude m e)) 64 e
    (by omega) (by omega)
  have hsm : smoothAll m e = iterSmooth m ((List.range 64).map (bandMagnitude m e)) 64 e := rfl
  have hval : ∀ i, i < 64 →
      smoothedValue m (((List.range 64).map (bandMagnitude m e)).getD i 0)
        (e.smoothedFreqData.getD i 0) i = 0 := by
    intro i hi
    rw [getD_map_range _ _ _ hi, bandMagnitude_zero m hx e i hring,
      getD_zero_of_mem _ h0 i, smoothedValue_zero m hx]
  rw [hsm]
  constructor
  · apply forall_mem_of_getD
    intro i hi
    rw [hl.1, hs] at hi
    rw [h1 i hi, hval i hi]
  · apply forall_mem_of_getD
    intro i hi
    rw [hl.2, hf] at hi
    rw [h2 i hi, hval i hi]

/-- "Normalize" leaves a vector of zeros alone, and does not take its branch. -/
theorem normalize_zero (l : List α) (h : ∀ x ∈ l, x = 0) :
    normalize l = l ∧ ∀ x xs, l = x :: xs → ¬ (0.001 : α) < maxElement x xs := by
  constructor
  · apply (normalize_spec l (fun x hx => le_of_eq (h x hx).symm)).2.2
    intro x hx
    rw [h x hx]
    norm_num
  · intro x xs hl
    have hm := (le_maxElement xs x).2.2
    rw [← hl] at hm
    rw [h _ hm]
    norm_num

theorem new_smoothedFreqData (m : MathFns α) :
    (AudioEngine.new m).engine.smoothedFreqData = List.replicate 64 0 := by
  show resize ([] : List α) 64 = _
  rw [resize_nil]

/-- A new engine whose capture setup succeeds has heard nothing. -/
theorem quiet_initialize_new (m : MathFns α) (r : ComResults)
    (hok : captureSetupOk (α := α) r = true) :
    ( AudioEngine.initialize m r (AudioEngine.new m)).1.engine.Quiet := by
  have hsh := shaped_step m (AudioEngine.new m) (.init r) (shaped_new m)
  have hlive := (initialize_new_fields m r).2.2.2
  rw [hok] at hlive
  refine ⟨hlive, hsh, ?_, ?_, ?_⟩
  · intro i
    rw [(initialize_engine m r (AudioEngine.new m)).1]
    show (resize (AudioEngine.new m).engine.audioBuffer
      ((AudioEngine.new m).engine.bufferSize * 2)).getD i 0 = 0
    rw [resize_of_length _ _ (by rw [new_audioBuffer_length]; rfl), new_audioBuffer,
      getD_replicate_self]
  · rw [(initialize_engine m r (AudioEngine.new m)).1]
    show ∀ x ∈ resize (AudioEngine.new m).engine.smoothedFreqData 64, x = 0
    rw [new_smoothedFreqData, resize_of_length _ _ (List.length_replicate _ _)]
    exact fun x hx => List.eq_of_mem_replicate hx
  · rw [(initialize_new_accessors m r).1]
    exact fun x hx => List.eq_of_mem_replicate hx

/-- The pre-normalization spectrum of an analysis of an engine that has heard nothing. -/
theorem quiet_analysis (m : MathFns α) (hx : m.Exact) (t : Nat) (p : Process α)
    (hq : p.engine.Quiet) :
    (∀ x ∈ (smoothAll m (analysisInput m t p)).smoothedFreqData, x = 0) ∧
    (∀ x ∈ (smoothAll m (analysisInput m t p)).frequencyData, x = 0) := by
  have hsp := analysisInput_spectrum m t p
  have hbuf := (analysisInput_frame m t p).2.2 hq.live
  exact smoothAll_quiet m hx (analysisInput m t p)
    (by rw [hsp.1]; exact hq.shaped.smoothedFreqData_length)
    (by rw [hsp.2]; exact hq.shaped.frequencyData_length)
    (by rw [hbuf]; exact hq.ring_zero)
    (by rw [hsp.1]; exact hq.smoothed_zero)

theorem quiet_update (m : MathFns α) (hx : m.Exact) (t : Nat) (p : Process α)
    (hq : p.engine.Quiet) : (AudioEngine.update m t p).engine.Quiet := by
  by_cases hskip : p.engine.initialized = false ∨ sub32 t p.engine.lastUpdateTime < 16
  · rw [update_skip m t p hskip]; exact hq
  · have hinit : p.engine.initialized = true := by
      cases hi : p.engine.initialized with
      | true => rfl
      | false => exact absurd (Or.inl hi) hskip
    have ht : 16 ≤ sub32 t p.engine.lastUpdateTime := not_lt.mp (fun h => hskip (Or.inr h))
    have hsh := shaped_step m p (.update t) hq.shaped
    have ha := quiet_analysis m hx t p hq
    have hn := (normalize_zero _ ha.2).1
    have hbuf := (analysisInput_frame m t p).2.2 hq.live
    refine ⟨(update_simulationMode m t p).trans hq.live, hsh, ?_, ?_, ?_⟩
    · rw [update_frame m t p hinit ht]
      dsimp only
      rw [hbuf]
      exact hq.ring_zero
    · rw [update_frame m t p hinit ht]
      dsimp only
      exact ha.1
    · rw [update_frame m t p hinit ht]
      dsimp only
      rw [hn]
      exact ha.2

theorem quiet_step (m : MathFns α) (hx : m.Exact) (p : Process α) (op : Op α)
    (hop : op.Silent) (hq : p.engine.Quiet) : (step m p op).engine.Quiet := by
  cases op with
  | init r => exact absurd hop (by simp [Op.Silent])
  | processAudioInput d len => exact absurd hop (by simp [Op.Silent])
  | cleanup => exact absurd hop (by simp [Op.Silent])
  | update t => exact quiet_update m hx t p hq
  | deliver data frames =>
    show (AudioEngine.deliver data frames p).engine.Quiet
    have hsh := shaped_step m p (.deliver data frames) hq.shaped
    cases data with
    | none => exact hq
    | some d =>
      rcases Nat.eq_zero_or_pos frames with h0 | hpos
      · subst h0; rw [deliver_zero]; exact hq
      · have hd : ∀ i, d i = 0 := hop.2 d rfl
        have hf := processAudioInput_frame d (frames * 4 * 2 % 18446744073709551616) p
        refine ⟨(deliver_simulationMode _ _ p).trans hq.live, hsh, ?_, ?_, ?_⟩
        · rw [deliver_audioBuffer d frames p hq.live hpos hop.1]
          exact iterFrames_ring_zero d frames _ hd hq.ring_zero
        · rw [deliver_some d frames p hpos, hf.2.2.2.2.2.1]
          exact hq.smoothed_zero
        · rw [deliver_some d frames p hpos, hf.2.2.2.2.1]
          exact hq.frequency_zero

theorem quiet_run (m : MathFns α) (hx : m.Exact) (p : Process α) (ops : List (Op α))
    (hops : ∀ op ∈ ops, op.Silent) (hq : p.engine.Quiet) : (run m p ops).engine.Quiet := by
  induction ops using List.reverseRecOn with
  | nil => exact hq
  | append_singleton ops op ih =>
    rw [run_append_singleton]
    exact quiet_step m hx _ op (hops op (by simp)) (ih (fun o ho => hops o (by simp [ho])))

/-! ### The range of the ring entries -/

theorem iterFrames_ring_range (d : Nat → α) (n : Nat) (st : FoldState α)
    (h : ∀ x ∈ st.audioBuffer, -1 ≤ x ∧ x ≤ 1) :
    ∀ x ∈ (iterFrames d n st).audioBuffer, -1 ≤ x ∧ x ≤ 1 := by
  induction n with
  | zero => exact h
  | succ n ih =>
    intro x hx
    rw [iterFrames_succ, foldFrame_audioBuffer] at hx
    rcases List.mem_or_eq_of_mem_set hx with hmem | heq
    · exact ih x hmem
    · rw [heq]; exact foldedSample_range d n

theorem processAudioInput_ring_range (d : Nat → α) (len : Nat) (p : Process α)
    (h : ∀ x ∈ p.engine.audioBuffer, -1 ≤ x ∧ x ≤ 1) :
    ∀ x ∈ (AudioEngine.processAudioInput d len p).engine.audioBuffer, -1 ≤ x ∧ x ≤ 1 := by
  cases hsim : p.engine.simulationMode with
  | true => rw [processAudioInput_engine_sim d len p hsim]; exact h
  | false =>
    rw [processAudioInput_engine_live d len p hsim]
    exact iterFrames_ring_range d _ (loopStart p.engine) h

/-- A sample of the simulation has magnitude at most `0.6`. -/
theorem simSample_bound (m : MathFns α) (hx : m.Exact) (a b c : α) :
    |(0 + 0.6 * m.sin a + 0.4 * m.sin b + 0.2 * m.sin c) * 0.5| ≤ 0.6 := by
  have ha := abs_le.mp (hx.abs_sin_le a)
  have hb := abs_le.mp (hx.abs_sin_le b)
  have hc := abs_le.mp (hx.abs_sin_le c)
  rw [abs_le]
  constructor
  · norm_num
    linarith [ha.1, hb.1, hc.1]
  · norm_num
    linarith [ha.2, hb.2, hc.2]

/-- After an `update` that executes a simulation tick every ring entry has magnitude at
most `0.6`. -/
theorem update_sim_ring_bound (m : MathFns α) (hx : m.Exact) (t : Nat) (p : Process α)
    (h : isSimTick t p = true) :
    ∀ x ∈ (AudioEngine.update m t p).engine.audioBuffer, |x| ≤ 0.6 := by
  rw [(update_sim_ring m t p h).1]
  intro x hx'
  obtain ⟨i, -, rfl⟩ := List.mem_map.mp hx'
  exact simSample_bound m hx _ _ _

theorem update_ring_range (m : MathFns α) (hx : m.Exact) (t : Nat) (p : Process α)
    (h : ∀ x ∈ p.engine.audioBuffer, -1 ≤ x ∧ x ≤ 1) :
    ∀ x ∈ (AudioEngine.update m t p).engine.audioBuffer, -1 ≤ x ∧ x ≤ 1 := by
  by_cases hskip : p.engine.initialized = false ∨ sub32 t p.engine.lastUpdateTime < 16
  · rw [update_skip m t p hskip]; exact h
  · have hinit : p.engine.initialized = true := by
      cases hi : p.engine.initialized with
      | true => rfl
      | false => exact absurd (Or.inl hi) hskip
    have ht : 16 ≤ sub32 t p.engine.lastUpdateTime := not_lt.mp (fun h => hskip (Or.inr h))
    by_cases hsim : p.engine.simulationMode = true
    · intro x hx'
      have hb := update_sim_ring_bound m hx t p ((isSimTick_iff t p).mpr ⟨hinit, hsim, ht⟩) x hx'
      have h6 : (0.6 : α) ≤ 1 := by norm_num
      have := abs_le.mp hb
      exact ⟨by linarith [this.1], by linarith [this.2]⟩
    · have hlive : p.engine.simulationMode = false := by
        cases hs : p.engine.simulationMode with
        | true => exact absurd hs hsim
        | false => rfl
      rw [update_frame m t p hinit ht]
      dsimp only
      rw [(analysisInput_frame m t p).2.2 hlive]
      exact h

theorem ring_range_step (m : MathFns α) (hx : m.Exact) (p : Process α) (op : Op α)
    (hsh : p.engine.Shaped) (h : ∀ x ∈ p.engine.audioBuffer, -1 ≤ x ∧ x ≤ 1) :
    ∀ x ∈ (step m p op).engine.audioBuffer, -1 ≤ x ∧ x ≤ 1 := by
  cases op with
  | init r =>
    show ∀ x ∈ ( AudioEngine.initialize m r p).1.engine.audioBuffer, -1 ≤ x ∧ x ≤ 1
    rw [(initialize_engine m r p).1]
    show ∀ x ∈ resize p.engine.audioBuffer (p.engine.bufferSize * 2), -1 ≤ x ∧ x ≤ 1
    rw [resize_of_length _ _ (by rw [hsh.audioBuffer_length, hsh.bufferSize_eq])]
    exact h
  | update t => exact update_ring_range m hx t p h
  | deliver data frames =>
    show ∀ x ∈ (AudioEngine.deliver data frames p).engine.audioBuffer, -1 ≤ x ∧ x ≤ 1
    rcases deliver_cases data frames p with he | ⟨d, len, he⟩
    · rw [he]; exact h
    · rw [he]; exact processAudioInput_ring_range d len p h
  | processAudioInput d len => exact processAudioInput_ring_range d len p h
  | cleanup =>
    show ∀ x ∈ (AudioEngine.cleanup p).engine.audioBuffer, -1 ≤ x ∧ x ≤ 1
    rw [(cleanup_fields p).2.2.2.1]
    exact h

/-- In every reachable state every ring entry lies in `[−1, 1]`. -/
theorem reachable_ring_range (m : MathFns α) (hx : m.Exact) (p : Process α)
    (h : Reachable m p) : ∀ x ∈ p.engine.audioBuffer, -1 ≤ x ∧ x ≤ 1 := by
  obtain ⟨ops, rfl⟩ := h
  induction ops using List.reverseRecOn with
  | nil =>
    show ∀ x ∈ (AudioEngine.new m).engine.audioBuffer, -1 ≤ x ∧ x ≤ 1
    rw [new_audioBuffer]
    intro x hx'
    rw [List.eq_of_mem_replicate hx']
    constructor <;> norm_num
  | append_singleton ops op ih =>
    rw [run_append_singleton]
    exact ring_range_step m hx _ op (reachable_shaped m _ ⟨ops, rfl⟩) ih

/-! ### One writer of the ring per mode -/

/-- In Live mode `update` writes `lastUpdateTime` and the two spectrum vectors only. -/
theorem update_live_frame (m : MathFns α) (t : Nat) (p : Process α)
    (hlive : p.engine.simulationMode = false) :
    (AudioEngine.update m t p).engine =
      { p.engine with
        lastUpdateTime := (AudioEngine.update m t p).engine.lastUpdateTime
        smoothedFreqData := (AudioEngine.update m t p).engine.smoothedFreqData
        frequencyData := (AudioEngine.update m t p).engine.frequencyData } := by
  by_cases hskip : p.engine.initialized = false ∨ sub32 t p.engine.lastUpdateTime < 16
  · rw [update_skip m t p hskip]
  · have hinit : p.engine.initialized = true := by
      cases hi : p.engine.initialized with
      | true => rfl
      | false => exact absurd (Or.inl hi) hskip
    have ht : 16 ≤ sub32 t p.engine.lastUpdateTime := not_lt.mp (fun h => hskip (Or.inr h))
    have hbuf := (analysisInput_frame m t p).2.2 hlive
    rw [update_frame m t p hinit ht, hbuf]
    dsimp only
    rw [if_neg (by simp [hlive])]

/-! ### The stride of the projection loop -/

theorem loopIndices_2048 :
    loopIndices 2048 4 = (List.range 512).map (fun j => j * 4) := by
  unfold loopIndices
  norm_num

theorem mem_loopIndices_2048 (i : Nat) :
    i ∈ loopIndices 2048 4 ↔ i < 2048 ∧ i % 4 = 0 := by
  rw [loopIndices_2048, List.mem_map]
  constructor
  · rintro ⟨j, hj, rfl⟩
    rw [List.mem_range] at hj
    omega
  · rintro ⟨h1, h2⟩
    exact ⟨i / 4, by rw [List.mem_range]; omega, by omega⟩

/-! ### The read index of `performOptimizedFFT` -/

theorem readIdx_int (w i : Nat) (hw : w < 4096) (hi : i ≤ 4096) :
    ((readIdx w i 4096 : Nat) : Int) = ((w : Int) - (i : Int)) % 4096 := by
  rw [readIdx_eq w i hw hi]
  omega

/-! ### `Uint32` ticks -/

theorem sub32_int (t last : Nat) (ht : t < 4294967296) (hl : last < 4294967296) :
    ((sub32 t last : Nat) : Int) = ((t : Int) - (last : Int)) % 4294967296 := by
  unfold sub32
  omega

theorem sub32_wrap (last elapsed : Nat) (hl : last < 4294967296)
    (he : elapsed < 4294967296) :
    sub32 ((last + elapsed) % 4294967296) last = elapsed := by
  unfold sub32
  omega

/-- From a state with `lastUpdateTime = 0`, updates at ticks below 16 are all skipped. -/
theorem run_early_updates (m : MathFns α) (p : Process α) (hlast : p.engine.lastUpdateTime = 0)
    (ts : List Nat) (hts : ∀ t ∈ ts, t < 16) :
    run m p (ts.map Op.update) = p := by
  induction ts using List.reverseRecOn with
  | nil => rfl
  | append_singleton ts t ih =>
    rw [List.map_append, List.map_singleton, run_append_singleton,
      ih (fun x hx => hts x (by simp [hx]))]
    apply update_skip
    right
    rw [hlast]
    have := hts t (by simp)
    unfold sub32
    omega

/-! ### The capture thread -/

omit [LinearOrderedField α] in
theorem captureRun_foldl (rs : List (ApiReply α)) :
    ∀ (pc : CapturePc) (acc : List (CaptureEvent α)),
      rs.foldl
        (fun (st : CapturePc × List (CaptureEvent α)) reply =>
          ((captureStep st.1 reply).1, st.2 ++ (captureStep st.1 reply).2))
        (pc, acc)
      = ((captureRun pc rs).1, acc ++ (captureRun pc rs).2) := by
  induction rs with
  | nil => intro pc acc; simp [captureRun]
  | cons r rs ih =>
    intro pc acc
    unfold captureRun
    rw [List.foldl_cons, List.foldl_cons, ih, ih]
    simp [List.append_assoc]

omit [LinearOrderedField α] in
/-- The run of the thread, one step at a time. -/
theorem captureRun_cons (pc : CapturePc) (r : ApiReply α) (rs : List (ApiReply α)) :
    captureRun pc (r :: rs) =
      ((captureRun (captureStep pc r).1 rs).1,
        (captureStep pc r).2 ++ (captureRun (captureStep pc r).1 rs).2) := by
  unfold captureRun
  rw [List.foldl_cons, captureRun_foldl]
  simp [captureRun]

omit [LinearOrderedField α] in
/-- Once the loop has exited the thread does nothing more. -/
theorem captureRun_exited (rs : List (ApiReply α)) :
    captureRun CapturePc.exited rs = (CapturePc.exited, ([] : List (CaptureEvent α))) := by
  induction rs with
  | nil => rfl
  | cons r rs ih =>
    rw [captureRun_cons]
    show ((captureRun CapturePc.exited rs).1, [] ++ (captureRun CapturePc.exited rs).2) = _
    rw [ih]
    rfl

/-! ### The input indices `processAudioInput` reads -/

omit [LinearOrderedField α] in
theorem mem_indicesRead (sampleCount j : Nat) :
    j ∈ indicesRead sampleCount ↔ j < 2 * ((sampleCount + 1) / 2) := by
  unfold indicesRead
  rw [List.mem_flatMap]
  constructor
  · rintro ⟨k, hk, hj⟩
    rw [List.mem_range] at hk
    simp only [List.mem_cons, List.mem_singleton, List.not_mem_nil, or_false] at hj
    omega
  · intro hj
    refine ⟨j / 2, by rw [List.mem_range]; omega, ?_⟩
    simp only [List.mem_cons, List.mem_singleton, List.not_mem_nil, or_false]
    omega

theorem foldFrame_congr (d d' : Nat → α) (st : FoldState α) (k : Nat)
    (h0 : d (2 * k) = d' (2 * k)) (h1 : d (2 * k + 1) = d' (2 * k + 1)) :
    foldFrame d st k = foldFrame d' st k := by
  unfold foldFrame
  simp only [h0, h1]

/-- The loop reads nothing but the indices below twice the number of its iterations. -/
theorem iterFrames_congr (d d' : Nat → α) (n : Nat) (st : FoldState α)
    (h : ∀ j, j < 2 * n → d j = d' j) : iterFrames d n st = iterFrames d' n st := by
  induction n with
  | zero => rfl
  | succ n ih =>
    rw [iterFrames_succ, iterFrames_succ, ih (fun j hj => h j (by omega)),
      foldFrame_congr d d' _ n (h _ (by omega)) (h _ (by omega))]

theorem processAudioInput_congr (d d' : Nat → α) (len : Nat) (p : Process α)
    (h : ∀ j ∈ indicesRead (len / 4), d j = d' j) :
    AudioEngine.processAudioInput d len p = AudioEngine.processAudioInput d' len p := by
  have hloop : ∀ st : FoldState α, foldLoop d (len / 4) st = foldLoop d' (len / 4) st := by
    intro st
    rw [foldLoop_eq, foldLoop_eq]
    exact iterFrames_congr d d' _ st (fun j hj => h j ((mem_indicesRead _ j).mpr hj))
  unfold AudioEngine.processAudioInput
  simp only [hloop]

/-! ### What the analysis depends on -/

/-- The smoothing loop copies the smoothed spectrum into the spectrum. -/
theorem smoothAll_copy (m : MathFns α) (e : AudioEngine α)
    (hs : e.smoothedFreqData.length = 64) (hf : e.frequencyData.length = 64) :
    (smoothAll m e).frequencyData = (smoothAll m e).smoothedFreqData := by
  have hl := iterSmooth_lengths m ((List.range 64).map (bandMagnitude m e)) 64 e
  obtain ⟨h1, h2, -⟩ := iterSmooth_values m ((List.range 64).map (bandMagnitude m e)) 64 e
    (by omega) (by omega)
  have hsm : smoothAll m e = iterSmooth m ((List.range 64).map (bandMagnitude m e)) 64 e := rfl
  rw [hsm]
  apply eq_of_getD _ _ (by rw [hl.1, hl.2, hs, hf])
  intro i hi
  rw [hl.2, hf] at hi
  rw [h1 i hi, h2 i hi]

/-- The spectrum after `performOptimizedFFT` is the normalized smoothed spectrum. -/
theorem performOptimizedFFT_spectrum (m : MathFns α) (e : AudioEngine α)
    (hs : e.smoothedFreqData.length = 64) (hf : e.frequencyData.length = 64) :
    (AudioEngine.performOptimizedFFT m e).frequencyData
      = normalize (AudioEngine.performOptimizedFFT m e).smoothedFreqData := by
  rw [performOptimizedFFT_frame]
  dsimp only
  rw [smoothAll_copy m e hs hf]

/-- The smoothed spectrum after `performOptimizedFFT`, as a list. -/
theorem performOptimizedFFT_smoothed_ext (m : MathFns α) (e₁ e₂ : AudioEngine α)
    (hs₁ : e₁.smoothedFreqData.length = 64) (hf₁ : e₁.frequencyData.length = 64)
    (hs₂ : e₂.smoothedFreqData.length = 64) (hf₂ : e₂.frequencyData.length = 64)
    (hold : e₁.smoothedFreqData = e₂.smoothedFreqData)
    (hmag : ∀ k, k < 64 → bandMagnitude m e₁ k = bandMagnitude m e₂ k) :
    (AudioEngine.performOptimizedFFT m e₁).smoothedFreqData
      = (AudioEngine.performOptimizedFFT m e₂).smoothedFreqData := by
  have hl₁ := smoothAll_lengths m e₁
  have hl₂ := smoothAll_lengths m e₂
  have len₁ : (AudioEngine.performOptimizedFFT m e₁).smoothedFreqData.length = 64 := by
    rw [performOptimizedFFT_frame]; dsimp only; rw [hl₁.1, hs₁]
  have len₂ : (AudioEngine.performOptimizedFFT m e₂).smoothedFreqData.length = 64 := by
    rw [performOptimizedFFT_frame]; dsimp only; rw [hl₂.1, hs₂]
  apply eq_of_getD _ _ (by rw [len₁, len₂])
  intro k hk
  rw [len₁] at hk
  rw [performOptimizedFFT_smoothed m e₁ k hs₁ hf₁ hk,
    performOptimizedFFT_smoothed m e₂ k hs₂ hf₂ hk, hmag k hk, hold]

theorem foldl_congr_mem {β : Type} (f g : β → Nat → β) (l : List Nat)
    (h : ∀ acc, ∀ i ∈ l, f acc i = g acc i) : ∀ a : β, l.foldl f a = l.foldl g a := by
  induction l with
  | nil => intro a; rfl
  | cons x xs ih =>
    intro a
    rw [List.foldl_cons, List.foldl_cons, h a x (List.mem_cons_self _ _)]
    exact ih (fun acc i hi => h acc i (List.mem_cons_of_mem _ hi)) _

/-- The first entry of the Hann window is `0` when `cos 0 = 1`. -/
theorem hanning_zero (m : MathFns α) (hcos : m.cos 0 = 1) : (hanning m 2048).getD 0 0 = 0 := by
  rw [hanning_getD m 0 (by norm_num)]
  simp [hcos]

/-- "Normalize", whatever the signs of the entries. -/
theorem normalize_cases (l : List α) :
    ((∃ x ∈ l, (0.001 : α) < x) → (1 : α) ∈ normalize l ∧ ∀ y ∈ normalize l, y ≤ 1) ∧
    ((∀ x ∈ l, x ≤ 0.001) → normalize l = l) := by
  cases l with
  | nil =>
    refine ⟨?_, fun _ => rfl⟩
    rintro ⟨x, hx, -⟩
    exact absurd hx (List.not_mem_nil x)
  | cons x xs =>
    obtain ⟨hx, hxs, hmem⟩ := le_maxElement xs x
    have hle : ∀ y ∈ x :: xs, y ≤ maxElement x xs := by
      intro y hy
      rcases List.mem_cons.mp hy with rfl | hy
      · exact hx
      · exact hxs y hy
    constructor
    · rintro ⟨y, hy, hy1⟩
      have hmax : (0.001 : α) < maxElement x xs := lt_of_lt_of_le hy1 (hle y hy)
      have hpos : (0 : α) < maxElement x xs := lt_trans (by norm_num) hmax
      have hn : normalize (x :: xs) = (x :: xs).map (fun val => min 1 (val / maxElement x xs)) := by
        simp [normalize, hmax]
      rw [hn]
      refine ⟨List.mem_map.mpr ⟨maxElement x xs, hmem, by rw [div_self hpos.ne']; simp⟩, ?_⟩
      intro z hz
      obtain ⟨v, -, rfl⟩ := List.mem_map.mp hz
      exact min_le_left _ _
    · intro hall
      have hmax : ¬ (0.001 : α) < maxElement x xs := not_lt.mpr (hall _ hmem)
      simp [normalize, hmax]

/-- The windowed sample at a visited position depends on the ring through the slots
`(w − 4·j) mod 4096`, `j = 1..511`, only. -/
theorem windowedSample_congr (m : MathFns α) (hcos : m.cos 0 = 1) (e₁ e₂ : AudioEngine α)
    (hlen₁ : e₁.audioBuffer.length = 4096) (hlen₂ : e₂.audioBuffer.length = 4096)
    (hw₁ : e₁.currentWritePos < 4096) (hw : e₁.currentWritePos = e₂.currentWritePos)
    (hwin₁ : e₁.hanningWindow = hanning m 2048) (hwin₂ : e₂.hanningWindow = hanning m 2048)
    (hslots : ∀ j, 1 ≤ j → j ≤ 511 →
      e₁.audioBuffer.getD ((e₁.currentWritePos + 4096 - 4 * j) % 4096) 0
        = e₂.audioBuffer.getD ((e₁.currentWritePos + 4096 - 4 * j) % 4096) 0)
    (i : Nat) (hi : i ∈ loopIndices 2048 4) :
    windowedSample e₁ i = windowedSample e₂ i := by
  obtain ⟨hlt, hmod⟩ := (mem_loopIndices_2048 i).mp hi
  unfold windowedSample
  rw [hwin₁, hwin₂, hlen₁, hlen₂, ← hw, readIdx_eq _ _ hw₁ (by omega)]
  rcases Nat.eq_zero_or_pos i with h0 | hpos
  · subst h0
    rw [hanning_zero m hcos, mul_zero, mul_zero]
  · have hj := hslots (i / 4) (by omega) (by omega)
    have h4 : 4 * (i / 4) = i := by omega
    rw [h4] at hj
    rw [hj]

theorem projectBand_congr (m : MathFns α) (e₁ e₂ : AudioEngine α) (frequency : α)
    (hbs₁ : e₁.bufferSize = 2048) (hbs₂ : e₂.bufferSize = 2048)
    (hsr : e₁.sampleRate = e₂.sampleRate)
    (hws : ∀ i ∈ loopIndices 2048 4, windowedSample e₁ i = windowedSample e₂ i) :
    projectBand m e₁ frequency 4 = projectBand m e₂ frequency 4 := by
  unfold projectBand
  rw [hbs₁, hbs₂, hsr]
  apply foldl_congr_mem
  intro acc i hi
  dsimp only
  rw [hws i hi]

theorem bandMagnitude_congr (m : MathFns α) (e₁ e₂ : AudioEngine α) (k : Nat)
    (hbs₁ : e₁.bufferSize = 2048) (hbs₂ : e₂.bufferSize = 2048)
    (hsr : e₁.sampleRate = e₂.sampleRate)
    (hws : ∀ i ∈ loopIndices 2048 4, windowedSample e₁ i = windowedSample e₂ i) :
    bandMagnitude m e₁ k = bandMagnitude m e₂ k := by
  have h4 : max 1 (2048 / 512) = 4 := rfl
  unfold bandMagnitude
  dsimp only
  rw [hbs₁, hbs₂, h4, projectBand_congr m e₁ e₂ _ hbs₁ hbs₂ hsr hws]

omit [LinearOrderedField α] in
theorem set_ring_fields (e : AudioEngine α) (i : Nat) (v : α) :
    e.sampleRate = AudioEngine.sampleRate { e with audioBuffer := e.audioBuffer.set i v } ∧
    e.currentWritePos
      = AudioEngine.currentWritePos { e with audioBuffer := e.audioBuffer.set i v } ∧
    e.smoothedFreqData
      = AudioEngine.smoothedFreqData { e with audioBuffer := e.audioBuffer.set i v } ∧
    AudioEngine.hanningWindow { e with audioBuffer := e.audioBuffer.set i v }
      = e.hanningWindow :=
  ⟨rfl, rfl, rfl, rfl⟩

omit [LinearOrderedField α] in
theorem shaped_set_ring (e : AudioEngine α) (i : Nat) (v : α) (h : e.Shaped) :
    AudioEngine.Shaped { e with audioBuffer := e.audioBuffer.set i v } :=
  ⟨h.bufferSize_eq, (List.length_set _ _ _).trans h.audioBuffer_length,
    h.frequencyData_length, h.smoothedFreqData_length, h.currentWritePos_lt⟩

theorem set_ring_slots (e : AudioEngine α) (v : α) (hw : e.currentWritePos = 0) (j : Nat)
    (h1 : 1 ≤ j) (h2 : j ≤ 511) :
    e.audioBuffer.getD ((e.currentWritePos + 4096 - 4 * j) % 4096) 0
      = (AudioEngine.audioBuffer { e with audioBuffer := e.audioBuffer.set 1 v }).getD
          ((e.currentWritePos + 4096 - 4 * j) % 4096) 0 := by
  rw [hw]
  exact (getD_set_other _ _ _ _ _ (by omega)).symm

theorem new_ring_zero (m : MathFns α) (i : Nat) :
    (AudioEngine.new m).engine.audioBuffer.getD i 0 = 0 := by
  rw [new_audioBuffer]
  exact getD_replicate_self _ _ _

/-! ### Bounds of the raw magnitude and of the smoothed spectrum, over the real numbers -/

theorem hann_weight_range (i : Nat) :
    0 ≤ (hanning realMath 2048).getD i 0 ∧ (hanning realMath 2048).getD i 0 ≤ 1 := by
  rcases Nat.lt_or_ge i 2048 with hi | hi
  · rw [hanning_getD realMath i hi]
    have h1 := Real.neg_one_le_cos (2 * realMath.pi * (i : ℝ) / (2048 - 1))
    have h2 := Real.cos_le_one (2 * realMath.pi * (i : ℝ) / (2048 - 1))
    have hc : realMath.cos = Real.cos := rfl
    rw [hc]
    constructor <;> linarith
  · rw [List.getD_eq_default _ _ (by rw [length_hanning]; exact hi)]
    exact ⟨le_refl _, zero_le_one⟩

theorem getD_abs_le_one (l : List ℝ) (j : Nat) (h : ∀ x ∈ l, -1 ≤ x ∧ x ≤ 1) :
    |l.getD j 0| ≤ 1 := by
  rcases Nat.lt_or_ge j l.length with hj | hj
  · rw [List.getD_eq_getElem _ _ hj]
    exact abs_le.mpr (h _ (List.getElem_mem _))
  · rw [List.getD_eq_default _ _ hj, abs_zero]
    exact zero_le_one

theorem getD_mem_range (l : List ℝ) (i : Nat) (c : ℝ) (hc : 0 ≤ c)
    (h : ∀ x ∈ l, 0 ≤ x ∧ x ≤ c) : 0 ≤ l.getD i 0 ∧ l.getD i 0 ≤ c := by
  rcases Nat.lt_or_ge i l.length with hi | hi
  · rw [List.getD_eq_getElem _ _ hi]
    exact h _ (List.getElem_mem _)
  · rw [List.getD_eq_default _ _ hi]
    exact ⟨le_refl _, hc⟩

theorem abs_windowedSample_le (e : AudioEngine ℝ) (i : Nat)
    (hwin : e.hanningWindow = hanning realMath 2048)
    (hring : ∀ x ∈ e.audioBuffer, -1 ≤ x ∧ x ≤ 1) : |windowedSample e i| ≤ 1 := by
  unfold windowedSample
  rw [hwin, abs_mul]
  have hb := getD_abs_le_one e.audioBuffer
    (readIdx e.currentWritePos i e.audioBuffer.length) hring
  have hw := hann_weight_range i
  rw [abs_of_nonneg hw.1]
  calc |e.audioBuffer.getD (readIdx e.currentWritePos i e.audioBuffer.length) 0|
        * (hanning realMath 2048).getD i 0 ≤ 1 * 1 :=
        mul_le_mul hb hw.2 hw.1 zero_le_one
    _ = 1 := one_mul 1

/-- One term added to the projection moves its length by at most the size of the term. -/
theorem sqrt_step_le (a b s θ : ℝ) :
    realMath.sqrt ((a + s * realMath.cos θ) * (a + s * realMath.cos θ)
        + (b + s * realMath.sin θ) * (b + s * realMath.sin θ))
      ≤ realMath.sqrt (a * a + b * b) + |s| := by
  show Real.sqrt ((a + s * Real.cos θ) * (a + s * Real.cos θ)
        + (b + s * Real.sin θ) * (b + s * Real.sin θ))
      ≤ Real.sqrt (a * a + b * b) + |s|
  have h := Complex.abs.add_le (⟨a, b⟩ : ℂ) ⟨s * Real.cos θ, s * Real.sin θ⟩
  simp only [Complex.abs_apply, Complex.normSq_apply, Complex.add_re, Complex.add_im] at h
  have hs : s * Real.cos θ * (s * Real.cos θ) + s * Real.sin θ * (s * Real.sin θ) = s * s := by
    linear_combination (s * s) * Real.cos_sq_add_sin_sq θ
  rw [hs, Real.sqrt_mul_self_eq_abs] at h
  exact h

theorem projectBand_fold_bound (e : AudioEngine ℝ) (frequency : ℝ)
    (hws : ∀ i, |windowedSample e i| ≤ 1) (l : List Nat) :
    ∀ acc : ℝ × ℝ,
      realMath.sqrt
        ((l.foldl (fun (acc : ℝ × ℝ) (i : Nat) =>
            (acc.1 + windowedSample e i
                * realMath.cos (-2 * realMath.pi * frequency * (i : ℝ) / (e.sampleRate : ℝ)),
              acc.2 + windowedSample e i
                * realMath.sin (-2 * realMath.pi * frequency * (i : ℝ) / (e.sampleRate : ℝ))))
            acc).1 *
          (l.foldl (fun (acc : ℝ × ℝ) (i : Nat) =>
            (acc.1 + windowedSample e i
                * realMath.cos (-2 * realMath.pi * frequency * (i : ℝ) / (e.sampleRate : ℝ)),
              acc.2 + windowedSample e i
                * realMath.sin (-2 * realMath.pi * frequency * (i : ℝ) / (e.sampleRate : ℝ))))
            acc).1 +
        (l.foldl (fun (acc : ℝ × ℝ) (i : Nat) =>
            (acc.1 + windowedSample e i
                * realMath.cos (-2 * realMath.pi * frequency * (i : ℝ) / (e.sampleRate : ℝ)),
              acc.2 + windowedSample e i
                * realMath.sin (-2 * realMath.pi * frequency * (i : ℝ) / (e.sampleRate : ℝ))))
            acc).2 *
          (l.foldl (fun (acc : ℝ × ℝ) (i : Nat) =>
            (acc.1 + windowedSample e i
                * realMath.cos (-2 * realMath.pi * frequency * (i : ℝ) / (e.sampleRate : ℝ)),
              acc.2 + windowedSample e i
                * realMath.sin (-2 * realMath.pi * frequency * (i : ℝ) / (e.sampleRate : ℝ))))
            acc).2)
        ≤ realMath.sqrt (acc.1 * acc.1 + acc.2 * acc.2) + (l.length : ℝ) := by
  induction l with
  | nil =>
    intro acc
    rw [List.foldl_nil, List.length_nil, Nat.cast_zero, add_zero]
  | cons x xs ih =>
    intro acc
    rw [List.foldl_cons, List.length_cons, Nat.cast_succ]
    have h1 := ih (acc.1 + windowedSample e x
        * realMath.cos (-2 * realMath.pi * frequency * (x : ℝ) / (e.sampleRate : ℝ)),
      acc.2 + windowedSample e x
        * realMath.sin (-2 * realMath.pi * frequency * (x : ℝ) / (e.sampleRate : ℝ)))
    have h2 := sqrt_step_le acc.1 acc.2 (windowedSample e x)
      (-2 * realMath.pi * frequency * (x : ℝ) / (e.sampleRate : ℝ))
    have h3 := hws x
    dsimp only at h1
    linarith

theorem projectBand_bound (e : AudioEngine ℝ) (frequency : ℝ)
    (hbs : e.bufferSize = 2048) (hws : ∀ i, |windowedSample e i| ≤ 1) :
    realMath.sqrt ((projectBand realMath e frequency 4).1 * (projectBand realMath e frequency 4).1
      + (projectBand realMath e frequency 4).2 * (projectBand realMath e frequency 4).2) ≤ 512 := by
  have h := projectBand_fold_bound e frequency hws (loopIndices 2048 4) (0, 0)
  have hlen : (loopIndices 2048 4).length = 512 := by
    rw [loopIndices_2048, List.length_map, List.length_range]
  have h0 : realMath.sqrt ((0 : ℝ) * 0 + 0 * 0) = 0 := by
    show Real.sqrt ((0 : ℝ) * 0 + 0 * 0) = 0
    rw [mul_zero, add_zero, Real.sqrt_zero]
  rw [hlen] at h
  dsimp only at h
  rw [h0, zero_add] at h
  unfold projectBand
  rw [hbs]
  dsimp only
  exact_mod_cast h

theorem bandMagnitude_range (e : AudioEngine ℝ) (k : Nat) (hbs : e.bufferSize = 2048)
    (hwin : e.hanningWindow = hanning realMath 2048)
    (hring : ∀ x ∈ e.audioBuffer, -1 ≤ x ∧ x ≤ 1) :
    0 ≤ bandMagnitude realMath e k ∧ bandMagnitude realMath e k ≤ 1 := by
  have hb := projectBand_bound e (20 * realMath.pow 2 ((k : ℝ) / 8)) hbs
    (fun i => abs_windowedSample_le e i hwin hring)
  have h4 : max 1 (2048 / 512) = 4 := rfl
  have h512 : (((2048 / 4 : Nat) : Nat) : ℝ) = 512 := by norm_num
  unfold bandMagnitude
  dsimp only
  rw [hbs, h4, h512]
  constructor
  · exact div_nonneg (Real.sqrt_nonneg _) (by norm_num)
  · rw [div_le_one (by norm_num)]
    exact hb

theorem log_10001_lt : 0.1 * Real.log 10001 < 1 := by
  have h : Real.log 10001 < 10 := by
    rw [Real.log_lt_iff_lt_exp (by norm_num)]
    have h1 : (2.7 : ℝ) < Real.exp 1 := by
      have := Real.exp_one_gt_d9
      linarith
    have h2 : Real.exp 10 = Real.exp 1 ^ 10 := by
      rw [← Real.exp_nat_mul]
      norm_num
    rw [h2]
    calc (10001 : ℝ) < 2.7 ^ 10 := by norm_num
      _ ≤ Real.exp 1 ^ 10 := pow_le_pow_left₀ (by norm_num) h1.le 10
  linarith

theorem log_10001_nonneg : 0 ≤ 0.1 * Real.log 10001 :=
  mul_nonneg (by norm_num) (Real.log_nonneg (by norm_num))

theorem logMagnitude_range (M : ℝ) (h0 : 0 ≤ M) (h1 : M ≤ 1) :
    0 ≤ 0.1 * realMath.log (1 + 10000 * M) ∧
    0.1 * realMath.log (1 + 10000 * M) ≤ 0.1 * Real.log 10001 := by
  show 0 ≤ 0.1 * Real.log (1 + 10000 * M) ∧
    0.1 * Real.log (1 + 10000 * M) ≤ 0.1 * Real.log 10001
  have ha : 1 ≤ 1 + 10000 * M := by linarith
  have hb : 1 + 10000 * M ≤ 10001 := by linarith
  have hl := Real.log_le_log (by linarith) hb
  have hn := Real.log_nonneg ha
  constructor <;> linarith

theorem smoothedValue_range (M old : ℝ) (k : Nat) (hk : k < 64) (h0 : 0 ≤ M) (h1 : M ≤ 1)
    (ho : 0 ≤ old ∧ old ≤ 0.1 * Real.log 10001) :
    0 ≤ smoothedValue realMath M old k ∧
    smoothedValue realMath M old k ≤ 0.1 * Real.log 10001 := by
  obtain ⟨hl0, hl1⟩ := logMagnitude_range M h0 h1
  have hc : (10000 : ℝ) * M = M * 10000 := mul_comm _ _
  rw [hc] at hl0 hl1
  have hk0 : (0 : ℝ) ≤ (k : ℝ) := Nat.cast_nonneg k
  have hk1 : (k : ℝ) < 64 := by exact_mod_cast hk
  have ha0 : (0 : ℝ) ≤ 0.2 + 0.6 * (k : ℝ) / ((64 : Nat) : ℝ) := by
    have : (0 : ℝ) ≤ 0.6 * (k : ℝ) / ((64 : Nat) : ℝ) := by positivity
    linarith
  have ha1 : 0.2 + 0.6 * (k : ℝ) / ((64 : Nat) : ℝ) ≤ 1 := by
    have h64 : (((64 : Nat) : ℝ)) = 64 := by norm_num
    rw [h64]
    linarith
  unfold smoothedValue
  generalize 0.2 + 0.6 * (k : ℝ) / ((64 : Nat) : ℝ) = a at ha0 ha1
  generalize realMath.log (1 + M * 10000) = L at hl0 hl1
  obtain ⟨ho0, ho1⟩ := ho
  generalize 0.1 * Real.log 10001 = c at hl1 ho1
  have hb0 : 0 ≤ 1 - a := by linarith
  constructor
  · have t1 := mul_nonneg ho0 ha0
    have t2 := mul_nonneg hl0 hb0
    nlinarith
  · have t1 := mul_le_mul_of_nonneg_right ho1 ha0
    have t2 := mul_le_mul_of_nonneg_right hl1 hb0
    nlinarith

theorem performOptimizedFFT_smoothed_range (e : AudioEngine ℝ)
    (hbs : e.bufferSize = 2048)
    (hs : e.smoothedFreqData.length = 64) (hf : e.frequencyData.length = 64)
    (hwin : e.hanningWindow = hanning realMath 2048)
    (hring : ∀ x ∈ e.audioBuffer, -1 ≤ x ∧ x ≤ 1)
    (hold : ∀ x ∈ e.smoothedFreqData, 0 ≤ x ∧ x ≤ 0.1 * Real.log 10001) :
    ∀ x ∈ (AudioEngine.performOptimizedFFT realMath e).smoothedFreqData,
      0 ≤ x ∧ x ≤ 0.1 * Real.log 10001 := by
  have hlen : (AudioEngine.performOptimizedFFT realMath e).smoothedFreqData.length = 64 := by
    rw [performOptimizedFFT_frame]
    dsimp only
    exact (smoothAll_lengths realMath e).1.trans hs
  apply forall_mem_of_getD
  intro i hi
  rw [hlen] at hi
  rw [performOptimizedFFT_smoothed realMath e i hs hf hi]
  have hm := bandMagnitude_range e i hbs hwin hring
  exact smoothedValue_range _ _ i hi hm.1 hm.2
    (getD_mem_range _ i _ log_10001_nonneg hold)

theorem analysisInput_fields (m : MathFns α) (t : Nat) (p : Process α) :
    (analysisInput m t p).bufferSize = p.engine.bufferSize ∧
    (analysisInput m t p).hanningWindow = p.engine.hanningWindow := by
  have h := (analysisInput_frame m t p).1
  generalize (analysisInput m t p).audioBuffer = buf at h
  rw [h]
  exact ⟨rfl, rfl⟩

theorem analysisInput_ring_range (m : MathFns α) (hx : m.Exact) (t : Nat) (p : Process α)
    (hinit : p.engine.initialized = true) (ht : 16 ≤ sub32 t p.engine.lastUpdateTime)
    (h : ∀ x ∈ p.engine.audioBuffer, -1 ≤ x ∧ x ≤ 1) :
    ∀ x ∈ (analysisInput m t p).audioBuffer, -1 ≤ x ∧ x ≤ 1 := by
  have hu := update_ring_range m hx t p h
  rw [update_frame m t p hinit ht] at hu
  dsimp only at hu
  exact hu

/-- Every call keeps the smoothed spectrum in `[0, 0.1·ln 10001]`. -/
theorem smoothedRange_step (p : Process ℝ) (op : Op ℝ) (hsh : p.engine.Shaped)
    (hwin : p.engine.hanningWindow = hanning realMath 2048)
    (hring : ∀ x ∈ p.engine.audioBuffer, -1 ≤ x ∧ x ≤ 1)
    (h : ∀ x ∈ p.engine.smoothedFreqData, 0 ≤ x ∧ x ≤ 0.1 * Real.log 10001) :
    ∀ x ∈ (step realMath p op).engine.smoothedFreqData, 0 ≤ x ∧ x ≤ 0.1 * Real.log 10001 := by
  obtain ⟨hbs, hab, hfd, hsd, hw⟩ := hsh
  cases op with
  | init r =>
    show ∀ x ∈ ( AudioEngine.initialize realMath r p).1.engine.smoothedFreqData, _
    rw [(initialize_engine realMath r p).1]
    show ∀ x ∈ resize p.engine.smoothedFreqData 64, _
    rw [resize_of_length _ _ hsd]
    exact h
  | update t =>
    show ∀ x ∈ (AudioEngine.update realMath t p).engine.smoothedFreqData, _
    by_cases hskip : p.engine.initialized = false ∨ sub32 t p.engine.lastUpdateTime < 16
    · rw [update_skip realMath t p hskip]; exact h
    · have hinit : p.engine.initialized = true := by
        cases hi : p.engine.initialized with
        | true => rfl
        | false => exact absurd (Or.inl hi) hskip
      have ht : 16 ≤ sub32 t p.engine.lastUpdateTime := not_lt.mp (fun h => hskip (Or.inr h))
      have hsp := analysisInput_spectrum realMath t p
      have hfl := analysisInput_fields realMath t p
      rw [update_engine realMath t p hinit ht]
      exact performOptimizedFFT_smoothed_range (analysisInput realMath t p)
        (hfl.1.trans hbs) (by rw [hsp.1, hsd]) (by rw [hsp.2, hfd]) (hfl.2.trans hwin)
        (analysisInput_ring_range realMath realMath_exact t p hinit ht hring)
        (by rw [hsp.1]; exact h)
  | deliver data frames =>
    show ∀ x ∈ (AudioEngine.deliver data frames p).engine.smoothedFreqData, _
    rcases deliver_cases data frames p with he | ⟨d, len, he⟩
    · rw [he]; exact h
    · rw [he, (processAudioInput_frame d len p).2.2.2.2.2.1]; exact h
  | processAudioInput d len =>
    show ∀ x ∈ (AudioEngine.processAudioInput d len p).engine.smoothedFreqData, _
    rw [(processAudioInput_frame d len p).2.2.2.2.2.1]; exact h
  | cleanup =>
    show ∀ x ∈ (AudioEngine.cleanup p).engine.smoothedFreqData, _
    rw [(cleanup_fields p).2.2.1]; exact h

theorem reachable_smoothed_range (p : Process ℝ) (h : Reachable realMath p) :
    ∀ x ∈ p.engine.smoothedFreqData, 0 ≤ x ∧ x ≤ 0.1 * Real.log 10001 := by
  obtain ⟨ops, rfl⟩ := h
  induction ops using List.reverseRecOn with
  | nil =>
    show ∀ x ∈ (AudioEngine.new realMath).engine.smoothedFreqData, _
    rw [new_smoothedFreqData]
    intro x hx
    rw [List.eq_of_mem_replicate hx]
    exact ⟨le_refl _, log_10001_nonneg⟩
  | append_singleton ops op ih =>
    rw [run_append_singleton]
    exact smoothedRange_step _ op (reachable_shaped realMath _ ⟨ops, rfl⟩)
      (reachable_hanning realMath _ ⟨ops, rfl⟩)
      (reachable_ring_range realMath realMath_exact _ ⟨ops, rfl⟩) ih

/-! ### The simulation signal -/

/-- A single `1` in the input gives a single `1` among the samples written. -/
theorem foldedSample_pulse (j k : Nat) :
    foldedSample (fun (i : Nat) => if i = j then (1 : α) else 0) k
      = if j / 2 = k then 1 else 0 := by
  unfold foldedSample
  dsimp only
  by_cases h0 : 2 * k = j
  · rw [if_pos h0, if_neg (by omega), if_pos (by omega)]
    rw [min_eq_left (by norm_num), max_eq_right (by norm_num)]
  · by_cases h1 : 2 * k + 1 = j
    · rw [if_neg h0, if_pos h1, if_pos (by omega)]
      rw [min_eq_left (by norm_num), max_eq_right (by norm_num)]
    · rw [if_neg h0, if_neg h1, if_neg (by omega)]
      norm_num

theorem absSum_pulse (j n : Nat) :
    ((monoBlock (fun (i : Nat) => if i = j then (1 : α) else 0) n).map (fun x => |x|)).sum
      = if j < 2 * n then 1 else 0 := by
  induction n with
  | zero => simp [monoBlock]
  | succ n ih =>
    rw [monoBlock_succ]
    simp only [List.map_append, List.map_cons, List.map_nil, List.sum_append, List.sum_cons,
      List.sum_nil, add_zero]
    rw [ih, foldedSample_pulse]
    by_cases h1 : j < 2 * n
    · rw [if_pos h1, if_neg (by omega), if_pos (by omega)]
      norm_num
    · by_cases h2 : j / 2 = n
      · rw [if_neg h1, if_pos h2, if_pos (by omega)]
        norm_num
      · rw [if_neg h1, if_neg h2, if_neg (by omega)]
        norm_num

/-- The result of `processAudioInput` depends on the input value at every index below
twice the number of loop iterations. -/
theorem processAudioInput_pulse (len j : Nat) (p : Process α)
    (hlive : p.engine.simulationMode = false) (hj : j < 2 * ((len / 4 + 1) / 2)) :
    (AudioEngine.processAudioInput (fun (i : Nat) => if i = j then (1 : α) else 0)
        len p).engine.audioLevel
      = p.engine.audioLevel * 0.9 + 1 / (((len / 4 + 1) / 2 : Nat) : α) * 0.1 ∧
    (AudioEngine.processAudioInput (fun _ => (0 : α)) len p).engine.audioLevel
      = p.engine.audioLevel * 0.9 ∧
    AudioEngine.processAudioInput (fun (i : Nat) => if i = j then (1 : α) else 0) len p
      ≠ AudioEngine.processAudioInput (fun _ => (0 : α)) len p := by
  have hn : 0 < (len / 4 + 1) / 2 := by omega
  have hpos : (0 : α) < (((len / 4 + 1) / 2 : Nat) : α) := by exact_mod_cast hn
  have h1 : (AudioEngine.processAudioInput (fun (i : Nat) => if i = j then (1 : α) else 0)
        len p).engine.audioLevel
      = p.engine.audioLevel * 0.9 + 1 / (((len / 4 + 1) / 2 : Nat) : α) * 0.1 := by
    rw [processAudioInput_audioLevel _ len p hlive, if_pos hn, absSum_pulse, if_pos hj]
  have h0 : (AudioEngine.processAudioInput (fun _ => (0 : α)) len p).engine.audioLevel
      = p.engine.audioLevel * 0.9 := by
    rw [processAudioInput_audioLevel _ len p hlive, if_pos hn,
      absSum_cancel _ _ (fun _ _ => neg_zero.symm)]
    norm_num
  refine ⟨h1, h0, fun h => ?_⟩
  have h2 := congrArg (fun q : Process α => q.engine.audioLevel) h
  dsimp only at h2
  rw [h1, h0] at h2
  have h3 : (0 : α) < 1 / (((len / 4 + 1) / 2 : Nat) : α) * 0.1 := by positivity
  linarith

/-- The write index and the envelope level after `processAudioInput` in Live mode: the
loop runs `(len/4 + 1)/2` times and folds the input at `2·k` and `2·k + 1` in run `k`. -/
theorem processAudioInput_iterations (d : Nat → α) (len : Nat) (p : Process α)
    (hlive : p.engine.simulationMode = false)
    (hlen : p.engine.audioBuffer.length = 4096) (hw : p.engine.currentWritePos < 4096) :
    (AudioEngine.processAudioInput d len p).engine.currentWritePos
      = (p.engine.currentWritePos + (len / 4 + 1) / 2) % 4096 ∧
    (AudioEngine.processAudioInput d len p).engine.audioLevel =
      (if 0 < (len / 4 + 1) / 2 then
        p.engine.audioLevel * 0.9 +
          ((List.range ((len / 4 + 1) / 2)).map (fun (k : Nat) =>
            |max (-1) (min 1 ((d (2 * k) + d (2 * k + 1)) * 0.5 * 3))|)).sum
            / (((len / 4 + 1) / 2 : Nat) : α) * 0.1
      else p.engine.audioLevel) := by
  constructor
  · have hst : (loopStart p.engine).currentWritePos < (loopStart p.engine).audioBuffer.length := by
      show p.engine.currentWritePos < p.engine.audioBuffer.length
      rw [hlen]; exact hw
    have h2 := iterFrames_currentWritePos d ((len / 4 + 1) / 2) (loopStart p.engine) hst
    have hL : (loopStart p.engine).audioBuffer.length = 4096 := hlen
    rw [hL] at h2
    rw [processAudioInput_engine_live d len p hlive]
    exact h2
  · rw [processAudioInput_audioLevel d len p hlive]
    unfold monoBlock
    rw [List.map_map]
    rfl

/-- The sample the last loop iteration writes is still in the ring on return. -/
theorem processAudioInput_last (d : Nat → α) (len : Nat) (p : Process α)
    (hlive : p.engine.simulationMode = false)
    (hlen : p.engine.audioBuffer.length = 4096) (hw : p.engine.currentWritePos < 4096)
    (hn : 0 < (len / 4 + 1) / 2) :
    (AudioEngine.processAudioInput d len p).engine.audioBuffer.getD
        ((p.engine.currentWritePos + ((len / 4 + 1) / 2 - 1)) % 4096) 0
      = max (-1) (min 1 ((d (2 * ((len / 4 + 1) / 2 - 1))
          + d (2 * ((len / 4 + 1) / 2 - 1) + 1)) * 0.5 * 3)) := by
  have hst : (loopStart p.engine).currentWritePos < (loopStart p.engine).audioBuffer.length := by
    show p.engine.currentWritePos < p.engine.audioBuffer.length
    rw [hlen]; exact hw
  have hL : (loopStart p.engine).audioBuffer.length = 4096 := hlen
  have h := iterFrames_written d ((len / 4 + 1) / 2) (loopStart p.engine) hst
    ((len / 4 + 1) / 2 - 1) (by omega) (by omega)
  rw [hL] at h
  rw [processAudioInput_engine_live d len p hlive]
  exact h

theorem deliver_eq_processAudioInput (d : Nat → α) (F : Nat) (p : Process α) (hF1 : 0 < F)
    (hF : F < 2305843009213693952) :
    AudioEngine.deliver (some d) F p = AudioEngine.processAudioInput d (8 * F) p := by
  rw [deliver_some d F p hF1]
  congr 1
  omega

end Lemmas

/-! ## The claims -/

section Claims

variable {α : Type} [LinearOrderedField α]

/-- C1 (stereo folding).  In Live mode, when the capture thread delivers a block of `F`
stereo frames `(L_j, R_j) = (d (2j), d (2j+1))` to a ring with write index `w`, the mono
sample written for frame `j` is `v = clamp(3·0.5·(L_j + R_j), −1, 1)`: slot `(w + j) mod
4096` holds `v` when the loop has written frame `j`, and still holds it when the call
returns unless the same block has gone round the ring (`F > j + 4096`).  The pair
`(0.5, 0.5)` gives `v = 1` and the pair `(0.3, −0.3)` gives `v = 0`.  The bound on `F`
says that `8·F` fits `size_t`; the capture thread passes a `UINT32`. -/
theorem C1_stereo_fold (p : Process α) (d : Nat → α) (F j : Nat)
    (hlive : p.engine.simulationMode = false)
    (hlen : p.engine.audioBuffer.length = 4096)
    (hw : p.engine.currentWritePos < 4096)
    (hF : F < 2305843009213693952) (hj : j < F) :
    let v := max (-1) (min 1 (3 * (0.5 * (d (2 * j) + d (2 * j + 1)))))
    (iterFrames d (j + 1) (loopStart p.engine)).audioBuffer.getD
      ((p.engine.currentWritePos + j) % 4096) 0 = v ∧
    (F ≤ j + 4096 →
      (AudioEngine.deliver (some d) F p).engine.audioBuffer.getD
        ((p.engine.currentWritePos + j) % 4096) 0 = v) ∧
    (d (2 * j) = 0.5 → d (2 * j + 1) = 0.5 → v = 1) ∧
    (d (2 * j) = 0.3 → d (2 * j + 1) = -0.3 → v = 0) := by
  have hF1 : 0 < F := by omega
  have hst : (loopStart p.engine).currentWritePos < (loopStart p.engine).audioBuffer.length := by
    simp [loopStart, hlen, hw]
  have hL : (loopStart p.engine).audioBuffer.length = 4096 := hlen
  have hW : (loopStart p.engine).currentWritePos = p.engine.currentWritePos := rfl
  intro v
  refine ⟨?_, ?_, ?_, ?_⟩
  · have key := iterFrames_written d (j + 1) (loopStart p.engine) hst j (by omega) (by omega)
    rw [hL, hW, foldedSample_eq] at key
    exact key
  · intro hlast
    have key := iterFrames_written d F (loopStart p.engine) hst j hj (by omega)
    rw [hL, hW, foldedSample_eq] at key
    rw [deliver_audioBuffer d F p hlive hF1 hF]
    exact key
  · intro h1 h2
    show max (-1) (min 1 (3 * (0.5 * (d (2 * j) + d (2 * j + 1))))) = 1
    rw [h1, h2]
    norm_num
  · intro h1 h2
    show max (-1) (min 1 (3 * (0.5 * (d (2 * j) + d (2 * j + 1))))) = 0
    rw [h1, h2]
    norm_num

/-- C2 (ring append order and index advance).  In Live mode, the delivery of `F ≥ 1`
stereo frames leaves the write index at `(w + F) mod 4096`; and for `F ≤ 4096` the `j`-th
folded sample is in slot `(w + j) mod 4096` and every other slot of the ring is unchanged. -/
theorem C2_ring_append (p : Process α) (d : Nat → α) (F : Nat)
    (hlive : p.engine.simulationMode = false)
    (hlen : p.engine.audioBuffer.length = 4096)
    (hw : p.engine.currentWritePos < 4096)
    (hF1 : 1 ≤ F) (hF : F < 2305843009213693952) :
    let q := AudioEngine.deliver (some d) F p
    q.engine.currentWritePos = (p.engine.currentWritePos + F) % 4096 ∧
    q.engine.audioBuffer.length = 4096 ∧
    (F ≤ 4096 →
      (∀ j, j < F →
        q.engine.audioBuffer.getD ((p.engine.currentWritePos + j) % 4096) 0
          = max (-1) (min 1 ((d (2 * j) + d (2 * j + 1)) * 0.5 * 3))) ∧
      (∀ s, s < 4096 → (∀ j, j < F → s ≠ (p.engine.currentWritePos + j) % 4096) →
        q.engine.audioBuffer.getD s 0 = p.engine.audioBuffer.getD s 0)) := by
  have hst : (loopStart p.engine).currentWritePos < (loopStart p.engine).audioBuffer.length := by
    simp [loopStart, hlen, hw]
  have hL : (loopStart p.engine).audioBuffer.length = 4096 := by simp [loopStart, hlen]
  have hW : (loopStart p.engine).currentWritePos = p.engine.currentWritePos := rfl
  have hB : (loopStart p.engine).audioBuffer = p.engine.audioBuffer := rfl
  intro q
  refine ⟨?_, ?_, ?_⟩
  · show (AudioEngine.deliver (some d) F p).engine.currentWritePos = _
    rw [deliver_currentWritePos d F p hlive hF1 hF, iterFrames_currentWritePos d F _ hst, hL, hW]
  · show (AudioEngine.deliver (some d) F p).engine.audioBuffer.length = _
    rw [deliver_audioBuffer d F p hlive hF1 hF, iterFrames_length, hL]
  · intro hF4096
    constructor
    · intro j hj
      show (AudioEngine.deliver (some d) F p).engine.audioBuffer.getD _ 0 = _
      rw [deliver_audioBuffer d F p hlive hF1 hF]
      have key := iterFrames_written d F (loopStart p.engine) hst j hj (by omega)
      rw [hL, hW] at key
      exact key
    · intro s _ hs
      show (AudioEngine.deliver (some d) F p).engine.audioBuffer.getD _ 0 = _
      rw [deliver_audioBuffer d F p hlive hF1 hF]
      have key := iterFrames_untouched d F (loopStart p.engine) hst s
        (fun j hj => by rw [hL, hW]; exact fun h => hs j hj h.symm)
      rw [hB] at key
      exact key

/-- C1 at a concrete input: the first delivery to a new engine, one frame `(0.5, 0.5)`,
puts `clamp(3·0.5·(0.5 + 0.5), −1, 1)` into slot `0`. -/
theorem C1_stereo_fold_witness :
    (AudioEngine.deliver (some (fun _ => (0.5 : ℝ))) 1
      (AudioEngine.new realMath)).engine.audioBuffer.getD 0 0
        = max (-1) (min 1 (3 * (0.5 * (0.5 + 0.5)))) :=
  (C1_stereo_fold (AudioEngine.new realMath) (fun _ => (0.5 : ℝ)) 1 0 rfl
    (new_audioBuffer_length realMath) (by decide)
    (by norm_num) (by norm_num)).2.1 (by norm_num)

/-- C2 at a concrete input: three frames delivered to a new engine move the write index
from `0` to `3`. -/
theorem C2_ring_append_witness :
    (AudioEngine.deliver (some (fun i => ((i : ℝ) / 10))) 3
      (AudioEngine.new realMath)).engine.currentWritePos = 3 :=
  (C2_ring_append (AudioEngine.new realMath) (fun i => ((i : ℝ) / 10)) 3 rfl
    (new_audioBuffer_length realMath) (by decide)
    (by norm_num) (by norm_num)).1

/-- C3 as stated fails.  Deliver four frames `(0.1, 0.1)` to a new engine: the ring holds
`0.3` in slots `0..3` and the write index is `w = 4`.  At the visited window position
`i = 4` the code multiplies `hanningWindow[4]` with the entry of slot `(w − i) mod 4096 =
0`, which is `0.3`; the entry of slot `(w − 2048 + i) mod 4096 = 2056` is `0`. -/
theorem C3_counterexample :
    let p := AudioEngine.deliver (some (fun _ => (0.1 : ℝ))) 4 (AudioEngine.new realMath)
    4 ∈ loopIndices p.engine.bufferSize (max 1 (p.engine.bufferSize / 512)) ∧
    p.engine.currentWritePos = 4 ∧
    readIdx p.engine.currentWritePos 4 p.engine.audioBuffer.length = 0 ∧
    p.engine.audioBuffer.getD
      (readIdx p.engine.currentWritePos 4 p.engine.audioBuffer.length) 0 = 0.3 ∧
    p.engine.audioBuffer.getD
      ((((p.engine.currentWritePos : Int) - 2048 + 4) % 4096).toNat) 0 = 0 ∧
    p.engine.audioBuffer.getD
      (readIdx p.engine.currentWritePos 4 p.engine.audioBuffer.length) 0 ≠
    p.engine.audioBuffer.getD
      ((((p.engine.currentWritePos : Int) - 2048 + 4) % 4096).toNat) 0 := by
  intro p
  have hlive : (AudioEngine.new realMath).engine.simulationMode = false := rfl
  have hst : (loopStart (AudioEngine.new realMath).engine).currentWritePos <
      (loopStart (AudioEngine.new realMath).engine).audioBuffer.length := by
    show 0 < (AudioEngine.new realMath).engine.audioBuffer.length
    rw [new_audioBuffer_length]; norm_num
  have hL : (loopStart (AudioEngine.new realMath).engine).audioBuffer.length = 4096 :=
    new_audioBuffer_length realMath
  have hbuf : p.engine.audioBuffer =
      (iterFrames (fun _ => (0.1 : ℝ)) 4 (loopStart (AudioEngine.new realMath).engine)).audioBuffer :=
    deliver_audioBuffer _ 4 _ hlive (by norm_num) (by norm_num)
  have hpos : p.engine.currentWritePos = 4 := by
    show (AudioEngine.deliver (some (fun _ => (0.1 : ℝ))) 4 _).engine.currentWritePos = 4
    rw [deliver_currentWritePos _ 4 _ hlive (by norm_num) (by norm_num),
      iterFrames_currentWritePos _ 4 _ hst, hL]
    rfl
  have hlen : p.engine.audioBuffer.length = 4096 := by
    rw [hbuf, iterFrames_length, hL]
  have hbs : p.engine.bufferSize = 2048 := by
    show (AudioEngine.deliver (some (fun _ => (0.1 : ℝ))) 4 _).engine.bufferSize = 2048
    rw [deliver_some _ 4 _ (by norm_num), (processAudioInput_frame _ _ _).2.2.1]
    rfl
  have hread : readIdx p.engine.currentWritePos 4 p.engine.audioBuffer.length = 0 := by
    rw [hpos, hlen]; decide
  have hclaim : (((p.engine.currentWritePos : Int) - 2048 + 4) % 4096).toNat = 2056 := by
    rw [hpos]; decide
  have h0 : p.engine.audioBuffer.getD 0 0 = 0.3 := by
    have key := iterFrames_written (fun _ => (0.1 : ℝ)) 4
      (loopStart (AudioEngine.new realMath).engine) hst 0 (by norm_num) (by rw [hL]; norm_num)
    rw [hL] at key
    rw [hbuf]
    have hz : ((loopStart (AudioEngine.new realMath).engine).currentWritePos + 0) % 4096 = 0 := rfl
    rw [hz] at key
    rw [key]
    unfold foldedSample
    norm_num
  have h2056 : p.engine.audioBuffer.getD 2056 0 = 0 := by
    have key := iterFrames_untouched (fun _ => (0.1 : ℝ)) 4
      (loopStart (AudioEngine.new realMath).engine) hst 2056 (by
        intro j hj
        rw [hL]
        show (0 + j) % 4096 ≠ 2056
        omega)
    rw [hbuf, key]
    show (AudioEngine.new realMath).engine.audioBuffer.getD 2056 0 = 0
    rw [new_audioBuffer, getD_replicate_self]
  refine ⟨?_, hpos, hread, ?_, ?_, ?_⟩
  · rw [hbs]
    exact List.mem_map.mpr ⟨1, by simp, rfl⟩
  · rw [hread, h0]
  · rw [hclaim, h2056]
  · rw [hread, hclaim, h0, h2056]
    norm_num

/-- C3 (amended).  For every ring reached from a Live engine by capture deliveries and
every window position `i` in `[0, 2048)`, the ring sample that `performOptimizedFFT`
multiplies by `hanningWindow[i]` is the entry of slot `(w − i) mod 4096`, with `w` the
write index; for `1 ≤ i` (up to the number of samples written) that entry is the `i`-th
most recent mono sample written, so the window runs over the samples newest first. -/
theorem C3_window_newest_first (p0 : Process α) (ds : List ((Nat → α) × Nat)) (i : Nat)
    (hlive : p0.engine.simulationMode = false)
    (hlen : p0.engine.audioBuffer.length = 4096)
    (hw : p0.engine.currentWritePos < 4096)
    (hds : ∀ x ∈ ds, x.2 < 2305843009213693952)
    (hi : i < 2048) :
    let p := deliverAll ds p0
    windowedSample p.engine i =
      p.engine.audioBuffer.getD ((p.engine.currentWritePos + 4096 - i) % 4096) 0 *
        p.engine.hanningWindow.getD i 0 ∧
    (1 ≤ i → i ≤ (monoStream ds).length →
      p.engine.audioBuffer.getD ((p.engine.currentWritePos + 4096 - i) % 4096) 0 =
        (monoStream ds).getD ((monoStream ds).length - i) 0) := by
  intro p
  have h := ringHolds_deliverAll ds p0 [] hlive hlen hw hds (ringHolds_nil _ _)
  refine ⟨?_, ?_⟩
  · unfold windowedSample
    rw [h.1, readIdx_eq _ _ h.2.1 (by omega)]
  · intro h1 h2
    exact h.2.2.2 i h1 h2 (by omega)

/-- C3 (amended) at a concrete input: a new engine, one delivery of four frames
`(0.1, 0.1)`, window position `4`. -/
theorem C3_window_newest_first_witness :
    let p := deliverAll [((fun _ => (0.1 : ℝ)), 4)] (AudioEngine.new realMath)
    windowedSample p.engine 4 =
      p.engine.audioBuffer.getD ((p.engine.currentWritePos + 4096 - 4) % 4096) 0 *
        p.engine.hanningWindow.getD 4 0 ∧
    (1 ≤ 4 → 4 ≤ (monoStream [((fun _ => (0.1 : ℝ)), 4)]).length →
      p.engine.audioBuffer.getD ((p.engine.currentWritePos + 4096 - 4) % 4096) 0 =
        (monoStream [((fun _ => (0.1 : ℝ)), 4)]).getD
          ((monoStream [((fun _ => (0.1 : ℝ)), 4)]).length - 4) 0) :=
  C3_window_newest_first (AudioEngine.new realMath) [((fun _ => (0.1 : ℝ)), 4)] 4 rfl
    (new_audioBuffer_length realMath) (by decide) (by simp) (by norm_num)

/-- C4 (spectrum bounds).  In every reachable state, after an `update()` that performs
an analysis (the engine is initialized and at least 16 ms have passed), the spectrum has
64 entries, all in `[0, 1]`.  The smoothed spectrum stored by the update is the spectrum
before normalization; if one of its entries exceeds `0.001` then `1` is an entry of the
spectrum (so its maximum is exactly `1`), and if none does the spectrum is left equal to
the smoothed, un-normalized values. -/
theorem C4_spectrum_bounds (m : MathFns α) (hm : m.Sound) (p : Process α) (t : Nat)
    (hr : Reachable m p) (hinit : p.engine.initialized = true)
    (ht : 16 ≤ sub32 t p.engine.lastUpdateTime) :
    let q := AudioEngine.update m t p
    q.engine.getFrequencyData.length = 64 ∧
    (∀ x ∈ q.engine.getFrequencyData, 0 ≤ x ∧ x ≤ 1) ∧
    q.engine.smoothedFreqData = (smoothAll m (analysisInput m t p)).frequencyData ∧
    ((∃ x ∈ q.engine.smoothedFreqData, 0.001 < x) → (1 : α) ∈ q.engine.getFrequencyData) ∧
    ((∀ x ∈ q.engine.smoothedFreqData, x ≤ 0.001) →
      q.engine.getFrequencyData = q.engine.smoothedFreqData) := by
  intro q
  obtain ⟨⟨-, -, hfd, hsd, -⟩, ⟨h0, -⟩⟩ := reachable_inv m hm p hr
  have hsp := analysisInput_spectrum m t p
  have hl := smoothAll_lengths m (analysisInput m t p)
  obtain ⟨-, hEq, hnn⟩ := smoothAll_spec m hm (analysisInput m t p)
    (by rw [hsp.1, hsd]) (by rw [hsp.2, hfd]) (by rw [hsp.1]; exact h0)
  obtain ⟨hn1, hn2, hn3⟩ := normalize_spec (smoothAll m (analysisInput m t p)).frequencyData
    (by rw [hEq]; exact hnn)
  have hq : q.engine = _ := update_frame m t p hinit ht
  have hfreq : q.engine.getFrequencyData =
      normalize (smoothAll m (analysisInput m t p)).frequencyData := by
    unfold AudioEngine.getFrequencyData
    rw [hq]
  have hsm : q.engine.smoothedFreqData = (smoothAll m (analysisInput m t p)).smoothedFreqData := by
    rw [hq]
  rw [hfreq, hsm, ← hEq]
  refine ⟨?_, hn1, rfl, hn2, hn3⟩
  rw [length_normalize, hl.2, hsp.2, hfd]

/-- C4 at a concrete input: a new engine, initialized, first analysis at tick 16. -/
theorem C4_spectrum_bounds_witness :
    (AudioEngine.update realMath 16
      ( AudioEngine.initialize realMath ⟨true, true, true, true, true, true, true, true⟩
        (AudioEngine.new realMath)).1).engine.getFrequencyData.length = 64 :=
  (C4_spectrum_bounds realMath realMath_sound
    ( AudioEngine.initialize realMath ⟨true, true, true, true, true, true, true, true⟩
      (AudioEngine.new realMath)).1 16
    (reachable_step realMath _ (.init ⟨true, true, true, true, true, true, true, true⟩)
      (reachable_new realMath))
    (initialize_new_fields realMath _).1
    (by rw [(initialize_new_fields realMath _).2.1]; decide)).1

/-- C5 (beat signal).  In every reachable state `getBeat()` is `min(1, 2·(s₀+s₁+s₂+s₃))`
for the spectrum `s`, and lies in `[0, 1]`. -/
theorem C5_beat (m : MathFns α) (hm : m.Sound) (p : Process α) (hr : Reachable m p) :
    p.engine.getBeat =
      min 1 (2 * (p.engine.getFrequencyData.getD 0 0 + p.engine.getFrequencyData.getD 1 0 +
        p.engine.getFrequencyData.getD 2 0 + p.engine.getFrequencyData.getD 3 0)) ∧
    0 ≤ p.engine.getBeat ∧ p.engine.getBeat ≤ 1 := by
  obtain ⟨⟨-, -, hfd, -, -⟩, ⟨-, h1⟩⟩ := reachable_inv m hm p hr
  have hb := getBeat_eq p.engine (by omega)
  have hnn : ∀ i, 0 ≤ p.engine.frequencyData.getD i 0 :=
    fun i => getD_nonneg _ i (fun x hx => (h1 x hx).1)
  refine ⟨hb, ?_, ?_⟩
  · rw [hb]
    apply le_min zero_le_one
    have := hnn 0
    have := hnn 1
    have := hnn 2
    have := hnn 3
    linarith
  · rw [hb]
    exact min_le_left _ _

/-- C5 at a concrete input: the new engine. -/
theorem C5_beat_witness :
    0 ≤ (AudioEngine.new realMath).engine.getBeat ∧
      (AudioEngine.new realMath).engine.getBeat ≤ 1 :=
  (C5_beat realMath realMath_sound (AudioEngine.new realMath) (reachable_new realMath)).2

/-- C6 (throttle no-op).  If the engine is not initialized, or less than 16 ms have
passed since `lastUpdateTime` (the `Uint32` difference `currentTime - lastUpdateTime`,
which is the plain difference whenever the tick counter has not wrapped), `update()`
leaves the whole process state unchanged: ring, write index, spectrum, smoothed spectrum,
envelope level, `lastUpdateTime` and mode, and also the statics and the log. -/
theorem C6_throttle_noop (m : MathFns α) (t : Nat) (p : Process α)
    (h : p.engine.initialized = false ∨ sub32 t p.engine.lastUpdateTime < 16) :
    AudioEngine.update m t p = p ∧
    (∀ last, last ≤ t → t - last < 16 → sub32 t last = t - last) := by
  exact ⟨update_skip m t p h, fun last h1 h2 => sub32_of_le t last h1 (by omega)⟩

/-- C6 at a concrete input: an initialized Live engine (`lastUpdateTime = 0`), tick 10. -/
theorem C6_throttle_noop_witness :
    AudioEngine.update realMath 10 ( AudioEngine.initialize realMath allOk
        (AudioEngine.new realMath)).1
      = ( AudioEngine.initialize realMath allOk (AudioEngine.new realMath)).1 :=
  (C6_throttle_noop realMath 10 ( AudioEngine.initialize realMath allOk
      (AudioEngine.new realMath)).1
    (Or.inr (by rw [(initialize_new_fields realMath allOk).2.1]; decide))).1

/-- C7 as stated fails.  Start an engine whose capture setup fails (Simulation mode,
`lastUpdateTime = 0`, envelope level `0`).  The call of `update()` at tick 10 is skipped;
the call at tick 20, less than 16 ms later, is 20 ms after `lastUpdateTime` and performs an
analysis, which sets the envelope level to `0.5`: the two snapshots differ. -/
theorem C7_counterexample :
    let p0 := ( AudioEngine.initialize realMath allFail (AudioEngine.new realMath)).1
    let p1 := AudioEngine.update realMath 10 p0
    let p2 := AudioEngine.update realMath 20 p1
    (10 ≤ 20 ∧ 20 - 10 < 16) ∧
    (snapshot p1.engine).2.1 = 0 ∧ (snapshot p2.engine).2.1 = 0.5 ∧
    snapshot p2.engine ≠ snapshot p1.engine :=
  have h := initialize_new_fields realMath allFail
  have hd := skipped_then_analysed realMath _ h.1 h.2.1 h.2.2.1 (h.2.2.2.trans rfl)
  ⟨by decide, hd.1, hd.2.1, hd.2.2⟩

/-- C7 (amended).  For two calls of `update()` at ticks `t1 ≤ t2` less than 16 ms apart
with nothing in between: if the first call performs an analysis, or the engine is not
initialized, or the second call is itself within 16 ms of `lastUpdateTime`, then the
second call changes nothing, so the feature snapshot (spectrum, envelope level, beat,
mode) after the second call is the one after the first call. -/
theorem C7_throttle_pair (m : MathFns α) (p : Process α) (t1 t2 : Nat)
    (h12 : t1 ≤ t2) (hlt : t2 - t1 < 16)
    (hfirst : p.engine.initialized = false ∨ 16 ≤ sub32 t1 p.engine.lastUpdateTime ∨
      sub32 t2 p.engine.lastUpdateTime < 16) :
    AudioEngine.update m t2 (AudioEngine.update m t1 p) = AudioEngine.update m t1 p ∧
    snapshot (AudioEngine.update m t2 (AudioEngine.update m t1 p)).engine
      = snapshot (AudioEngine.update m t1 p).engine := by
  have key : AudioEngine.update m t2 (AudioEngine.update m t1 p) = AudioEngine.update m t1 p := by
    cases hinit : p.engine.initialized with
    | false =>
      rw [update_skip m t1 p (Or.inl hinit), update_skip m t2 p (Or.inl hinit)]
    | true =>
      by_cases ht1 : sub32 t1 p.engine.lastUpdateTime < 16
      · have ht2 : sub32 t2 p.engine.lastUpdateTime < 16 := by
          rcases hfirst with h | h | h
          · rw [hinit] at h; exact absurd h (by simp)
          · omega
          · exact h
        rw [update_skip m t1 p (Or.inr ht1), update_skip m t2 p (Or.inr ht2)]
      · apply update_skip
        right
        have hlast : (AudioEngine.update m t1 p).engine.lastUpdateTime = t1 := by
          rw [update_frame m t1 p hinit (not_lt.mp ht1)]
        rw [hlast]
        exact sub32_lt_of_close t1 t2 h12 hlt
  exact ⟨key, by rw [key]⟩

/-- C7 (amended) at a concrete input: an initialized Live engine, an analysis at tick
100 and a second call at tick 110. -/
theorem C7_throttle_pair_witness :
    snapshot (AudioEngine.update realMath 110 (AudioEngine.update realMath 100
        ( AudioEngine.initialize realMath allOk (AudioEngine.new realMath)).1)).engine
      = snapshot (AudioEngine.update realMath 100
        ( AudioEngine.initialize realMath allOk (AudioEngine.new realMath)).1).engine :=
  (C7_throttle_pair realMath ( AudioEngine.initialize realMath allOk
      (AudioEngine.new realMath)).1 100 110 (by decide) (by decide)
    (Or.inr (Or.inl (by rw [(initialize_new_fields realMath allOk).2.1]; decide)))).2

/-- C8 (`initialize()` never reports failure).  Whatever the results of the capture API
calls, `initialize()` returns `true` and leaves the engine initialized; the mode is
Simulation exactly when the capture setup failed and Live exactly when it succeeded; and
the capture setup succeeds exactly when every one of its API calls does. -/
theorem C8_initialize_reports_success (m : MathFns α) (r : ComResults) (p : Process α) :
    ( AudioEngine.initialize m r p).2 = true ∧
    ( AudioEngine.initialize m r p).1.engine.initialized = true ∧
    (( AudioEngine.initialize m r p).1.engine.isSimulationMode = true ↔
      captureSetupOk (α := α) r = false) ∧
    (( AudioEngine.initialize m r p).1.engine.isSimulationMode = false ↔
      captureSetupOk (α := α) r = true) ∧
    captureSetupOk (α := α) r = (r.coInitializeEx && r.coCreateInstance &&
      r.getDefaultAudioEndpoint && r.activate && r.getMixFormat && r.clientInitialize &&
      r.getService && r.clientStart) := by
  have h := initialize_engine m r p
  refine ⟨h.2, ?_, ?_, ?_, ?_⟩
  · rw [h.1]
  · unfold AudioEngine.isSimulationMode
    rw [h.1]
    cases captureSetupOk (α := α) r <;> simp
  · unfold AudioEngine.isSimulationMode
    rw [h.1]
    cases captureSetupOk (α := α) r <;> simp
  · rcases r with ⟨a, b, c, d, e, f, g, k⟩
    cases a <;> cases b <;> cases c <;> cases d <;> cases e <;> cases f <;> cases g <;>
      cases k <;> rfl

/-- C9 as stated fails.  On a new engine `isSimulationMode()` returns `false`; after a
call of `initialize()` whose capture setup fails it returns `true`. -/
theorem C9_counterexample :
    (AudioEngine.new realMath).engine.isSimulationMode = false ∧
    (run realMath (AudioEngine.new realMath) [.init allFail]).engine.isSimulationMode = true := by
  refine ⟨rfl, ?_⟩
  show ( AudioEngine.initialize realMath allFail (AudioEngine.new realMath)).1.engine.simulationMode
    = true
  rw [(initialize_new_fields realMath allFail).2.2.2]
  rfl

/-- C9 (amended).  The mode changes only in `initialize()`: from any state, after any
sequence of calls of `update`, `cleanup`, `processAudioInput` and capture deliveries (the
accessors do not change the state), `isSimulationMode()` returns what it returned before. -/
theorem C9_mode_stable (m : MathFns α) (p : Process α) (ops : List (Op α))
    (h : ∀ op ∈ ops, op.isInit = false) :
    (run m p ops).engine.isSimulationMode = p.engine.isSimulationMode := by
  unfold AudioEngine.isSimulationMode
  induction ops using List.reverseRecOn with
  | nil => rfl
  | append_singleton ops op ih =>
    rw [run_append_singleton, step_simulationMode m _ op (h op (by simp))]
    exact ih (fun o ho => h o (by simp [ho]))

/-- C9 (amended) at a concrete input: an engine in Simulation mode, then an update, a
delivery, a cleanup and another update. -/
theorem C9_mode_stable_witness :
    (run realMath ( AudioEngine.initialize realMath allFail (AudioEngine.new realMath)).1
      [.update 16, .deliver (some (fun _ => 0.25)) 8, .cleanup, .update 40]).engine.isSimulationMode
      = ( AudioEngine.initialize realMath allFail
          (AudioEngine.new realMath)).1.engine.isSimulationMode :=
  C9_mode_stable realMath _ _ (by
    intro op hop
    simp only [List.mem_cons, List.mem_singleton, List.not_mem_nil, or_false] at hop
    rcases hop with rfl | rfl | rfl | rfl <;> rfl)

/-- C10 (shutdown idempotence).  `cleanup()` followed by `cleanup()` gives the same
process state as one `cleanup()`; in particular the second call adds nothing to the trace:
no log line and no call of the capture object. -/
theorem C10_cleanup_idempotent {β : Type} (p : Process β) :
    AudioEngine.cleanup (AudioEngine.cleanup p) = AudioEngine.cleanup p ∧
    (AudioEngine.cleanup (AudioEngine.cleanup p)).engine = (AudioEngine.cleanup p).engine ∧
    (AudioEngine.cleanup (AudioEngine.cleanup p)).trace = (AudioEngine.cleanup p).trace := by
  have hinit : (AudioEngine.cleanup p).engine.initialized = false := by
    rw [cleanup_engine]
    cases h : p.engine.initialized <;> simp [h]
  have key := cleanup_of_not_initialized (AudioEngine.cleanup p) hinit
  exact ⟨key, by rw [key], by rw [key]⟩

/-- C11 as stated fails.  Start an engine whose capture setup fails (Simulation mode) and
call `update()` at tick 16: the analysis sets the envelope level to `0.5`.  After
`cleanup()` the accessor `getAudioLevel()` still returns `0.5`, not `0`. -/
theorem C11_counterexample :
    (AudioEngine.cleanup (AudioEngine.update realMath 16
      ( AudioEngine.initialize realMath allFail
        (AudioEngine.new realMath)).1)).engine.getAudioLevel = 0.5 ∧
    (AudioEngine.cleanup (AudioEngine.update realMath 16
      ( AudioEngine.initialize realMath allFail
        (AudioEngine.new realMath)).1)).engine.getAudioLevel ≠ 0 :=
  have h := initialize_new_fields realMath allFail
  have h5 : (AudioEngine.cleanup (AudioEngine.update realMath 16
      ( AudioEngine.initialize realMath allFail
        (AudioEngine.new realMath)).1)).engine.getAudioLevel = 0.5 :=
    (cleanup_fields _).2.1.trans
      (update_sim_audioLevel realMath 16 _ h.1 (by rw [h.2.1]; decide) (h.2.2.2.trans rfl))
  ⟨h5, by rw [h5]; norm_num⟩

/-- C11 (amended).  `cleanup()` resets none of the data the accessors read: for every
engine state, after `cleanup()` the accessors `getFrequencyData()`, `getAudioLevel()`,
`getBeat()` and `getAmplitude()` return what they returned before it.  They return
zero data when the data was zero before, as when `cleanup()` follows `initialize()` on a
new engine: then `getFrequencyData()` is 64 zeros, `getAudioLevel()` is `0` and
`getBeat()` is `0`. -/
theorem C11_accessors_after_cleanup (m : MathFns α) (r : ComResults) (p : Process α) :
    ((AudioEngine.cleanup p).engine.getFrequencyData = p.engine.getFrequencyData ∧
      (AudioEngine.cleanup p).engine.getAudioLevel = p.engine.getAudioLevel ∧
      (AudioEngine.cleanup p).engine.getBeat = p.engine.getBeat ∧
      (AudioEngine.cleanup p).engine.getAmplitude = p.engine.getAmplitude) ∧
    ((AudioEngine.cleanup ( AudioEngine.initialize m r
        (AudioEngine.new m)).1).engine.getFrequencyData = List.replicate 64 0 ∧
      (AudioEngine.cleanup ( AudioEngine.initialize m r
        (AudioEngine.new m)).1).engine.getAudioLevel = 0 ∧
      (AudioEngine.cleanup ( AudioEngine.initialize m r
        (AudioEngine.new m)).1).engine.getBeat = 0) := by
  have keep : ∀ q : Process α,
      (AudioEngine.cleanup q).engine.getFrequencyData = q.engine.getFrequencyData ∧
      (AudioEngine.cleanup q).engine.getAudioLevel = q.engine.getAudioLevel ∧
      (AudioEngine.cleanup q).engine.getBeat = q.engine.getBeat ∧
      (AudioEngine.cleanup q).engine.getAmplitude = q.engine.getAmplitude := by
    intro q
    have hc := cleanup_fields q
    refine ⟨hc.1, hc.2.1, ?_, ?_⟩
    · unfold AudioEngine.getBeat
      rw [hc.1]
    · unfold AudioEngine.getAmplitude
      rw [hc.2.1]
  have hi := initialize_new_accessors m r
  refine ⟨keep p, ?_, ?_, ?_⟩
  · exact (keep _).1.trans hi.1
  · exact (keep _).2.1.trans hi.2
  · rw [(keep _).2.2.1]
    apply getBeat_of_zero
    intro i
    rw [hi.1, getD_replicate_self]

/-- C12 (accessors before `initialize`).  On a newly constructed engine
`getFrequencyData()` returns 64 zeros and `getAudioLevel()`, `getAmplitude()` and
`getBeat()` return `0`; `update()`, at any tick, returns without changing anything. -/
theorem C12_accessors_before_initialize (m : MathFns α) (t : Nat) :
    (AudioEngine.new m).engine.getFrequencyData = List.replicate 64 0 ∧
    (AudioEngine.new m).engine.getAudioLevel = 0 ∧
    (AudioEngine.new m).engine.getAmplitude = 0 ∧
    (AudioEngine.new m).engine.getBeat = 0 ∧
    AudioEngine.update m t (AudioEngine.new m) = AudioEngine.new m := by
  refine ⟨new_frequencyData m, rfl, ?_, ?_, update_skip m t _ (Or.inl rfl)⟩
  · unfold AudioEngine.getAmplitude
    rw [new_audioLevel]
    norm_num
  · apply getBeat_of_zero
    intro i
    rw [new_frequencyData, getD_replicate_self]

/-- C13 (envelope EMA).  In Live mode, the delivery of a block of `F ≥ 1` frames whose
written mono samples are `m_0 .. m_{F−1}` (the list `monoBlock d F`) sets the envelope
level to `0.9·e + 0.1·(Σ|m_j| / F)`, with `e` the level before; and in every reachable
state the envelope level lies in `[0, 1]`. -/
theorem C13_envelope_ema (m : MathFns α) (p : Process α) (d : Nat → α) (F : Nat)
    (hlive : p.engine.simulationMode = false) (hF1 : 1 ≤ F)
    (hF : F < 2305843009213693952) :
    (AudioEngine.deliver (some d) F p).engine.getAudioLevel =
      0.9 * p.engine.getAudioLevel +
        0.1 * (((monoBlock d F).map (fun x => |x|)).sum / (F : α)) ∧
    (∀ j, j < F → (monoBlock d F).getD j 0 = foldedSample d j) ∧
    (∀ q : Process α, Reachable m q →
      0 ≤ q.engine.getAudioLevel ∧ q.engine.getAudioLevel ≤ 1) := by
  refine ⟨?_, ?_, fun q hq => reachable_level m q hq⟩
  · unfold AudioEngine.getAudioLevel
    rw [deliver_audioLevel d F p hlive hF1 hF]
    ring
  · intro j hj
    unfold monoBlock
    rw [List.getD_eq_getElem _ _ (by simpa using hj)]
    simp

/-- C13 at a concrete input: one frame `(0.5, 0.5)` delivered to a new engine. -/
theorem C13_envelope_ema_witness :
    (AudioEngine.deliver (some (fun _ => (0.5 : ℝ))) 1
      (AudioEngine.new realMath)).engine.getAudioLevel =
      0.9 * (AudioEngine.new realMath).engine.getAudioLevel +
        0.1 * (((monoBlock (fun _ => (0.5 : ℝ)) 1).map (fun x => |x|)).sum / ((1 : Nat) : ℝ)) :=
  (C13_envelope_ema realMath (AudioEngine.new realMath) (fun _ => (0.5 : ℝ)) 1 rfl
    (by norm_num) (by norm_num)).1

/-- C14 as stated fails.  In the state in which `initialize()` returns after a failed
capture setup the mode is Simulation and `getAudioLevel()` is `0`, not `0.5`; it is still
`0` after a throttled `update()` at tick 10. -/
theorem C14_counterexample :
    ( AudioEngine.initialize realMath allFail
      (AudioEngine.new realMath)).1.engine.isSimulationMode = true ∧
    ( AudioEngine.initialize realMath allFail
      (AudioEngine.new realMath)).1.engine.getAudioLevel = 0 ∧
    (AudioEngine.update realMath 10 ( AudioEngine.initialize realMath allFail
      (AudioEngine.new realMath)).1).engine.getAudioLevel = 0 ∧
    ( AudioEngine.initialize realMath allFail
      (AudioEngine.new realMath)).1.engine.getAudioLevel ≠ 0.5 :=
  have h := initialize_new_fields realMath allFail
  have h0 : ( AudioEngine.initialize realMath allFail
      (AudioEngine.new realMath)).1.engine.getAudioLevel = 0 := h.2.2.1
  ⟨h.2.2.2.trans rfl, h0,
    (congrArg (fun q => q.engine.getAudioLevel)
      (update_skip realMath 10 _ (Or.inr (by rw [h.2.1]; decide)))).trans h0,
    by rw [h0]; norm_num⟩

/-- C14 (amended).  `initialize()` leaves the envelope level at `0`, in either mode.  In
Simulation mode the first `update()` that performs an analysis sets it to `0.5`, and from
then on `getAudioLevel()` equals `0.5` in every state reached by calls of `update`
(throttled or not), `cleanup`, `processAudioInput` and capture deliveries. -/
theorem C14_simulation_pin (m : MathFns α) (p : Process α) (t : Nat) (ops : List (Op α))
    (hinit : p.engine.initialized = true) (hsim : p.engine.simulationMode = true)
    (ht : 16 ≤ sub32 t p.engine.lastUpdateTime)
    (hops : ∀ op ∈ ops, op.isInit = false) :
    (run m (AudioEngine.update m t p) ops).engine.getAudioLevel = 0.5 ∧
    (run m (AudioEngine.update m t p) ops).engine.isSimulationMode = true ∧
    (∀ (r : ComResults) (q : Process α),
      ( AudioEngine.initialize m r q).1.engine.getAudioLevel = 0) := by
  have h := sim_pin_run m (AudioEngine.update m t p) ops hops
    ((update_simulationMode m t p).trans hsim) (update_sim_audioLevel m t p hinit ht hsim)
  refine ⟨h.2, h.1, fun r q => ?_⟩
  unfold AudioEngine.getAudioLevel
  rw [(initialize_engine m r q).1]

/-- C14 (amended) at a concrete input: an engine in Simulation mode, the first analysis at
tick 16, then a throttled update, a delivery, a cleanup and another update. -/
theorem C14_simulation_pin_witness :
    (run realMath (AudioEngine.update realMath 16
        ( AudioEngine.initialize realMath allFail (AudioEngine.new realMath)).1)
      [.update 20, .deliver (some (fun _ => 0.25)) 8, .cleanup, .update 40]).engine.getAudioLevel
      = 0.5 :=
  (C14_simulation_pin realMath ( AudioEngine.initialize realMath allFail
      (AudioEngine.new realMath)).1 16 _
    (initialize_new_fields realMath allFail).1
    ((initialize_new_fields realMath allFail).2.2.2.trans rfl)
    (by rw [(initialize_new_fields realMath allFail).2.1]; decide)
    (by
      intro op hop
      simp only [List.mem_cons, List.mem_singleton, List.not_mem_nil, or_false] at hop
      rcases hop with rfl | rfl | rfl | rfl <;> rfl)).1

/-- C16 (Hann window).  In every reachable state `hanningWindow` has exactly `N = 2048`
entries, entry `i` is `0.5·(1 − cos(2π·i/(N−1)))` for every `i < N`, and no call
(`initialize`, `update`, a capture delivery, `processAudioInput`, `cleanup`) changes the
window. -/
theorem C16_hann_window (m : MathFns α) (p : Process α) (hr : Reachable m p) :
    p.engine.hanningWindow.length = 2048 ∧
    (∀ i, i < 2048 → p.engine.hanningWindow.getD i 0
      = 0.5 * (1 - m.cos (2 * m.pi * (i : α) / (2048 - 1)))) ∧
    (∀ op : Op α, (step m p op).engine.hanningWindow = p.engine.hanningWindow) := by
  have hw := reachable_hanning m p hr
  refine ⟨by rw [hw, length_hanning], fun i hi => by rw [hw, hanning_getD m i hi], fun op => ?_⟩
  exact hanning_step m p op (reachable_shaped m p hr).bufferSize_eq hw

/-- C16 at a concrete input: the new engine, over the real numbers. -/
theorem C16_hann_window_witness :
    (AudioEngine.new realMath).engine.hanningWindow.length = 2048 :=
  (C16_hann_window realMath (AudioEngine.new realMath) (reachable_new realMath)).1

/-- C17 (per-band smoothing).  For every analysis step (`performOptimizedFFT` on an
engine with 64 bands) and every band `k < 64`: the new smoothed value is
`α_k·old + (1 − α_k)·L_k` with `α_k = 0.2 + 0.6·k/64` and `L_k = 0.1·ln(1 + 10000·M_k)`,
`M_k` the raw magnitude of the band; `0.2 ≤ α_k < 0.8`; `α` is strictly increasing in the
band, so the weight `1 − α` of the new raw value is strictly decreasing; and the new
value lies between the old value and `L_k`. -/
theorem C17_band_smoothing (m : MathFns α) (e : AudioEngine α) (k : Nat)
    (hs : e.smoothedFreqData.length = 64) (hf : e.frequencyData.length = 64) (hk : k < 64) :
    let old := e.smoothedFreqData.getD k 0
    let L := 0.1 * m.log (1 + 10000 * bandMagnitude m e k)
    let new := (AudioEngine.performOptimizedFFT m e).smoothedFreqData.getD k 0
    new = smoothFactorSpec k * old + (1 - smoothFactorSpec k) * L ∧
    ((0.2 : α) ≤ smoothFactorSpec k ∧ smoothFactorSpec k < (0.8 : α)) ∧
    (∀ j, j < k → (smoothFactorSpec j : α) < smoothFactorSpec k ∧
      (1 - smoothFactorSpec k : α) < 1 - smoothFactorSpec j) ∧
    (min old L ≤ new ∧ new ≤ max old L) := by
  intro old L new
  have hnew : new = smoothFactorSpec k * old + (1 - smoothFactorSpec k) * L := by
    show (AudioEngine.performOptimizedFFT m e).smoothedFreqData.getD k 0 = _
    rw [performOptimizedFFT_smoothed m e k hs hf hk]
    unfold smoothedValue smoothFactorSpec
    show _ = _ * e.smoothedFreqData.getD k 0 + _ * (0.1 * m.log (1 + 10000 * bandMagnitude m e k))
    norm_num
    ring_nf
  have hr := smoothFactorSpec_range (α := α) k hk
  refine ⟨hnew, hr, fun j hj => ?_, ?_⟩
  · have := smoothFactorSpec_strictMono (α := α) j k hj
    exact ⟨this, by linarith⟩
  · have ha0 : (0 : α) ≤ smoothFactorSpec k := le_trans (by norm_num) hr.1
    have ha1 : (0 : α) ≤ 1 - smoothFactorSpec k := by
      have : (0.8 : α) ≤ 1 := by norm_num
      linarith [hr.2]
    rw [hnew]
    constructor
    · have h1 : smoothFactorSpec k * min old L ≤ smoothFactorSpec k * old :=
        mul_le_mul_of_nonneg_left (min_le_left _ _) ha0
      have h2 : (1 - smoothFactorSpec k) * min old L ≤ (1 - smoothFactorSpec k) * L :=
        mul_le_mul_of_nonneg_left (min_le_right _ _) ha1
      nlinarith
    · have h1 : smoothFactorSpec k * old ≤ smoothFactorSpec k * max old L :=
        mul_le_mul_of_nonneg_left (le_max_left _ _) ha0
      have h2 : (1 - smoothFactorSpec k) * L ≤ (1 - smoothFactorSpec k) * max old L :=
        mul_le_mul_of_nonneg_left (le_max_right _ _) ha1
      nlinarith

/-- C17 at a concrete input: the new engine, band 3, over the real numbers. -/
theorem C17_band_smoothing_witness :
    (AudioEngine.performOptimizedFFT realMath
        (AudioEngine.new realMath).engine).smoothedFreqData.getD 3 0
      = smoothFactorSpec 3 * (AudioEngine.new realMath).engine.smoothedFreqData.getD 3 0
        + (1 - smoothFactorSpec 3) *
          (0.1 * realMath.log (1 + 10000 * bandMagnitude realMath
            (AudioEngine.new realMath).engine 3)) :=
  (C17_band_smoothing realMath (AudioEngine.new realMath).engine 3
    (shaped_new realMath).smoothedFreqData_length (shaped_new realMath).frequencyData_length
    (by norm_num)).1

/-- C18 (silence).  Start a new engine whose capture setup succeeds (Live mode, ring of
zeros) and let it receive any sequence of `update()` calls and capture deliveries of
zeros (such as 4096 zero samples), reaching the state `p`.  Then the spectrum holds zeros
only and `getBeat()` is `0`; and for any `update()` at a tick `t` in `p`: the spectrum
before normalization holds zeros only, the normalization branch is not taken (the
maximum does not exceed `0.001`), and afterwards every spectrum entry is `≤ 0.001` (in
fact `0`) and `getBeat() ≤ 0.001`.  The C library enters with `sqrt 0 = 0` and
`log 1 = 0`. -/
theorem C18_silence (m : MathFns α) (hx : m.Exact) (r : ComResults)
    (hok : captureSetupOk (α := α) r = true) (ops : List (Op α))
    (hops : ∀ op ∈ ops, op.Silent) (t : Nat) :
    let p := run m ( AudioEngine.initialize m r (AudioEngine.new m)).1 ops
    let pre := (smoothAll m (analysisInput m t p)).frequencyData
    ((∀ x ∈ p.engine.getFrequencyData, x = 0) ∧ p.engine.getBeat = 0) ∧
    ((∀ x ∈ pre, x = 0) ∧ normalize pre = pre ∧
      ∀ x xs, pre = x :: xs → ¬ (0.001 : α) < maxElement x xs) ∧
    ((∀ x ∈ (AudioEngine.update m t p).engine.getFrequencyData, x = 0 ∧ x ≤ 0.001) ∧
      (AudioEngine.update m t p).engine.getBeat = 0 ∧
      (AudioEngine.update m t p).engine.getBeat ≤ 0.001) := by
  intro p pre
  have hq : p.engine.Quiet := quiet_run m hx _ ops hops (quiet_initialize_new m r hok)
  have hq' : (AudioEngine.update m t p).engine.Quiet := quiet_update m hx t p hq
  have hpre := (quiet_analysis m hx t p hq).2
  have hn := normalize_zero _ hpre
  have hb : ∀ e : AudioEngine α, e.Quiet → e.getBeat = 0 :=
    fun e he => getBeat_of_zero e (getD_zero_of_mem _ he.frequency_zero)
  refine ⟨⟨hq.frequency_zero, hb _ hq⟩, ⟨hpre, hn.1, hn.2⟩, ?_, hb _ hq', ?_⟩
  · intro x hx'
    have h0 := hq'.frequency_zero x hx'
    exact ⟨h0, by rw [h0]; norm_num⟩
  · rw [hb _ hq']
    norm_num

/-- C18 at a concrete input: after 4096 zero samples (2048 zero frames) and two updates,
an update at tick 60 leaves `getBeat()` at `0`, over the real numbers. -/
theorem C18_silence_witness :
    (AudioEngine.update realMath 60
      (run realMath ( AudioEngine.initialize realMath allOk (AudioEngine.new realMath)).1
        [.deliver (some (fun _ => 0)) 2048, .update 16, .update 40])).engine.getBeat = 0 :=
  (C18_silence realMath realMath_exact allOk rfl
    [.deliver (some (fun _ => 0)) 2048, .update 16, .update 40]
    (by
      intro op hop
      simp only [List.mem_cons, List.mem_singleton, List.not_mem_nil, or_false] at hop
      rcases hop with rfl | rfl | rfl
      · exact ⟨by norm_num, fun d hd i => by cases hd; rfl⟩
      · trivial
      · trivial) 60).2.2.2.1

/-- C19 (envelope decay on cancelling or silent input).  In Live mode, for blocks whose
pairs all satisfy `R = −L` (all-zero pairs included): every mono sample written is `0`,
each non-empty block turns the envelope level `e` into exactly `0.9·e`, after `n` such
blocks the level is `0.9^n·e`, and for `e ≥ 0` (every reachable state) that sequence is
non-increasing and tends to `0`. -/
theorem C19_envelope_decay (p : Process ℝ) (ds : List ((Nat → ℝ) × Nat))
    (hlive : p.engine.simulationMode = false)
    (hds : ∀ x ∈ ds, 1 ≤ x.2 ∧ x.2 < 2305843009213693952 ∧
      ∀ j, j < x.2 → x.1 (2 * j + 1) = -x.1 (2 * j)) :
    (∀ x ∈ ds, ∀ j, j < x.2 → foldedSample x.1 j = 0) ∧
    (∀ x ∈ ds, ∀ q : Process ℝ, q.engine.simulationMode = false →
      (AudioEngine.deliver (some x.1) x.2 q).engine.getAudioLevel
        = 0.9 * q.engine.getAudioLevel) ∧
    (deliverAll ds p).engine.getAudioLevel = 0.9 ^ ds.length * p.engine.getAudioLevel ∧
    (0 ≤ p.engine.getAudioLevel →
      Antitone (fun n : Nat => (0.9 : ℝ) ^ n * p.engine.getAudioLevel)) ∧
    Filter.Tendsto (fun n : Nat => (0.9 : ℝ) ^ n * p.engine.getAudioLevel)
      Filter.atTop (nhds 0) := by
  refine ⟨fun x hx j hj => foldedSample_cancel x.1 j ((hds x hx).2.2 j hj),
    fun x hx q hq => deliver_cancel_level x.1 x.2 q hq (hds x hx).1 (hds x hx).2.1 (hds x hx).2.2,
    deliverAll_cancel_level ds p hlive hds, fun h0 => ?_, ?_⟩
  · apply antitone_nat_of_succ_le
    intro n
    have hp : (0 : ℝ) ≤ 0.9 ^ n * p.engine.getAudioLevel :=
      mul_nonneg (pow_nonneg (by norm_num) n) h0
    rw [pow_succ]
    nlinarith
  · have h := (tendsto_pow_atTop_nhds_zero_of_lt_one (by norm_num : (0 : ℝ) ≤ 0.9)
      (by norm_num : (0.9 : ℝ) < 1)).mul_const p.engine.getAudioLevel
    rwa [zero_mul] at h

/-- C19 at a concrete input: two blocks of pairs `(0.3, −0.3)` delivered to a new
engine. -/
theorem C19_envelope_decay_witness :
    (deliverAll [((fun i => if i % 2 = 0 then (0.3 : ℝ) else -0.3), 4),
        ((fun i => if i % 2 = 0 then (0.3 : ℝ) else -0.3), 7)]
      (AudioEngine.new realMath)).engine.getAudioLevel
      = 0.9 ^ 2 * (AudioEngine.new realMath).engine.getAudioLevel :=
  (C19_envelope_decay (AudioEngine.new realMath)
    [((fun i => if i % 2 = 0 then (0.3 : ℝ) else -0.3), 4),
      ((fun i => if i % 2 = 0 then (0.3 : ℝ) else -0.3), 7)] rfl
    (by
      intro x hx
      simp only [List.mem_cons, List.mem_singleton, List.not_mem_nil, or_false] at hx
      rcases hx with rfl | rfl
      · refine ⟨by norm_num, by norm_num, fun j _ => ?_⟩
        have h1 : (2 * j + 1) % 2 = 1 := by omega
        have h2 : (2 * j) % 2 = 0 := by omega
        simp [h1, h2]
      · refine ⟨by norm_num, by norm_num, fun j _ => ?_⟩
        have h1 : (2 * j + 1) % 2 = 1 := by omega
        have h2 : (2 * j) % 2 = 0 := by omega
        simp [h1, h2])).2.2.1

/-- C20 (sample range).  In every reachable state (from the ring of zeros of the new
engine, under any sequence of calls, Live deliveries and simulation ticks among them) the
ring has 4096 entries and every one lies in `[−1, 1]`; and after an `update()` that
executes a simulation tick every ring entry has magnitude at most `0.6`.  The C library
enters with `|sin x| ≤ 1`. -/
theorem C20_sample_range (m : MathFns α) (hx : m.Exact) (p : Process α)
    (hr : Reachable m p) :
    p.engine.audioBuffer.length = 4096 ∧
    (∀ x ∈ p.engine.audioBuffer, -1 ≤ x ∧ x ≤ 1) ∧
    (∀ t, isSimTick t p = true →
      ∀ x ∈ (AudioEngine.update m t p).engine.audioBuffer, |x| ≤ 0.6) :=
  ⟨(reachable_shaped m p hr).audioBuffer_length, reachable_ring_range m hx p hr,
    fun t ht => update_sim_ring_bound m hx t p ht⟩

/-- C20 at a concrete input: the new engine, over the real numbers. -/
theorem C20_sample_range_witness :
    (AudioEngine.new realMath).engine.audioBuffer.length = 4096 :=
  (C20_sample_range realMath realMath_exact (AudioEngine.new realMath)
    (reachable_new realMath)).1

/-- C21 (one writer of the ring per mode).  In Simulation mode every call of
`processAudioInput` leaves the ring, the write index, the envelope level and the callback
count unchanged (indeed the whole engine).  In Live mode every `update()` leaves the ring,
the write index and the envelope level unchanged: the engine afterwards differs from the
engine before in `lastUpdateTime`, the smoothed spectrum and the spectrum only. -/
theorem C21_single_writer (m : MathFns α) (d : Nat → α) (len t : Nat) (p q : Process α)
    (hsim : p.engine.simulationMode = true) (hlive : q.engine.simulationMode = false) :
    ((AudioEngine.processAudioInput d len p).engine.audioBuffer = p.engine.audioBuffer ∧
      (AudioEngine.processAudioInput d len p).engine.currentWritePos
        = p.engine.currentWritePos ∧
      (AudioEngine.processAudioInput d len p).engine.audioLevel = p.engine.audioLevel ∧
      (AudioEngine.processAudioInput d len p).engine.callbackCount
        = p.engine.callbackCount ∧
      (AudioEngine.processAudioInput d len p).engine = p.engine) ∧
    ((AudioEngine.update m t q).engine.audioBuffer = q.engine.audioBuffer ∧
      (AudioEngine.update m t q).engine.currentWritePos = q.engine.currentWritePos ∧
      (AudioEngine.update m t q).engine.audioLevel = q.engine.audioLevel ∧
      (AudioEngine.update m t q).engine =
        { q.engine with
          lastUpdateTime := (AudioEngine.update m t q).engine.lastUpdateTime
          smoothedFreqData := (AudioEngine.update m t q).engine.smoothedFreqData
          frequencyData := (AudioEngine.update m t q).engine.frequencyData }) := by
  have h1 := processAudioInput_engine_sim d len p hsim
  have h2 := update_live_frame m t q hlive
  refine ⟨⟨by rw [h1], by rw [h1], by rw [h1], by rw [h1], h1⟩, ?_, ?_, ?_, h2⟩
  · rw [h2]
  · rw [h2]
  · rw [h2]

/-- C21 at a concrete input: a delivery to an engine in Simulation mode, and an update
of a new Live engine. -/
theorem C21_single_writer_witness :
    (AudioEngine.processAudioInput (fun _ => (0.5 : ℝ)) 64
      ( AudioEngine.initialize realMath allFail (AudioEngine.new realMath)).1).engine
      = ( AudioEngine.initialize realMath allFail (AudioEngine.new realMath)).1.engine :=
  (C21_single_writer realMath (fun _ => (0.5 : ℝ)) 64 16
    ( AudioEngine.initialize realMath allFail (AudioEngine.new realMath)).1
    (AudioEngine.new realMath)
    ((initialize_new_fields realMath allFail).2.2.2.trans rfl) rfl).1.2.2.2.2

/-- C25 (ring index safety).  In every reachable state the write index is below 4096,
the size of the ring, so the write `audioBuffer[currentWritePos]` is in bounds; and for
every index `i` the projection loop visits (`0, 4, …, 2044`) the read index
`(currentWritePos − i + size) % size`, computed with the `int` difference converted to
`size_t`, is the mathematical `(currentWritePos − i) mod 4096`, lies below the size of the
ring, and `i` lies below the size of the window. -/
theorem C25_ring_index_safety (m : MathFns α) (p : Process α) (i : Nat)
    (hr : Reachable m p)
    (hi : i ∈ loopIndices p.engine.bufferSize (max 1 (p.engine.bufferSize / 512))) :
    p.engine.currentWritePos < 4096 ∧
    p.engine.audioBuffer.length = 4096 ∧
    ((readIdx p.engine.currentWritePos i p.engine.audioBuffer.length : Nat) : Int)
      = ((p.engine.currentWritePos : Int) - (i : Int)) % 4096 ∧
    readIdx p.engine.currentWritePos i p.engine.audioBuffer.length
      < p.engine.audioBuffer.length ∧
    i < p.engine.hanningWindow.length := by
  have hsh := reachable_shaped m p hr
  have hw := reachable_hanning m p hr
  rw [hsh.bufferSize_eq] at hi
  have hi' : i < 2048 := ((mem_loopIndices_2048 i).mp hi).1
  have hidx := readIdx_int p.engine.currentWritePos i hsh.currentWritePos_lt (by omega)
  refine ⟨hsh.currentWritePos_lt, hsh.audioBuffer_length, ?_, ?_, ?_⟩
  · rw [hsh.audioBuffer_length]; exact hidx
  · rw [hsh.audioBuffer_length]; omega
  · rw [hw, length_hanning]; exact hi'

/-- C25 at a concrete input: the new engine, window position 4. -/
theorem C25_ring_index_safety_witness :
    (AudioEngine.new realMath).engine.currentWritePos < 4096 :=
  (C25_ring_index_safety realMath (AudioEngine.new realMath) 4 (reachable_new realMath)
    ((mem_loopIndices_2048 4).mpr ⟨by norm_num, by norm_num⟩)).1

/-- C30 (throttle arithmetic under clock wrap).  For an initialized engine `update()` at
tick `t` changes nothing when the `Uint32` difference `t − lastUpdateTime` is below 16,
and otherwise performs the analysis and sets `lastUpdateTime` to `t`.  That difference is
`(t − lastUpdateTime) mod 2^32`, so it is the elapsed time also when the tick counter has
wrapped in between.  And from the state in which `initialize()` returns, where
`lastUpdateTime` is `0`, updates at ticks below 16 are all skipped. -/
theorem C30_throttle_wrap (m : MathFns α) (t : Nat) (p : Process α)
    (hinit : p.engine.initialized = true) :
    (sub32 t p.engine.lastUpdateTime < 16 → AudioEngine.update m t p = p) ∧
    (16 ≤ sub32 t p.engine.lastUpdateTime →
      (AudioEngine.update m t p).engine
        = AudioEngine.performOptimizedFFT m (analysisInput m t p) ∧
      (AudioEngine.update m t p).engine.lastUpdateTime = t) ∧
    (t < 4294967296 → p.engine.lastUpdateTime < 4294967296 →
      ((sub32 t p.engine.lastUpdateTime : Nat) : Int)
        = ((t : Int) - (p.engine.lastUpdateTime : Int)) % 4294967296) ∧
    (∀ elapsed, elapsed < 4294967296 → p.engine.lastUpdateTime < 4294967296 →
      sub32 ((p.engine.lastUpdateTime + elapsed) % 4294967296) p.engine.lastUpdateTime
        = elapsed) ∧
    (∀ (r : ComResults) (q : Process α) (ts : List Nat), (∀ x ∈ ts, x < 16) →
      run m ( AudioEngine.initialize m r q).1 (ts.map Op.update)
        = ( AudioEngine.initialize m r q).1) := by
  refine ⟨fun h => update_skip m t p (Or.inr h), fun h => ⟨update_engine m t p hinit h, ?_⟩,
    fun h1 h2 => sub32_int t _ h1 h2, fun el h1 h2 => sub32_wrap _ el h2 h1,
    fun r q ts hts => run_early_updates m _ ?_ ts hts⟩
  · rw [update_frame m t p hinit h]
  · rw [(initialize_engine m r q).1]

/-- C30 at a concrete input: ten milliseconds after tick `2^32 − 6` the counter reads `4`
and the difference the code computes is `10`; and an update at tick 10 of a newly
initialized engine is skipped. -/
theorem C30_throttle_wrap_witness :
    sub32 ((4294967290 + 10) % 4294967296) 4294967290 = 10 ∧
    AudioEngine.update realMath 10
        ( AudioEngine.initialize realMath allOk (AudioEngine.new realMath)).1
      = ( AudioEngine.initialize realMath allOk (AudioEngine.new realMath)).1 :=
  ⟨by decide,
    (C30_throttle_wrap realMath 10
      ( AudioEngine.initialize realMath allOk (AudioEngine.new realMath)).1
      (initialize_new_fields realMath allOk).1).1
      (by rw [(initialize_new_fields realMath allOk).2.1]; decide)⟩

/-- C23: what the code does.  On a capture object whose `initialize()` succeeded,
`shutdown()` joins the thread, stops the stream and releases the audio client, and only
then releases the capture client, before the default device and the device enumerator:
the audio client, acquired third, is released before the capture client, acquired
fourth.  (The run flag is cleared first: `running` is `false` afterwards.) -/
theorem C23_shutdown_release_order :
    ( WASAPICapture.initialize (α := ℝ) allOk WASAPICapture.new).2.2 = true ∧
    ( WASAPICapture.initialize (α := ℝ) allOk WASAPICapture.new).2.1 =
      [.com .coInitializeEx, .com .coCreateInstance, .com .getDefaultAudioEndpoint,
        .com .activate, .com .getMixFormat, .com .clientInitialize, .com .coTaskMemFree,
        .com .getService, .com .clientStart, .com .threadStart,
        .log (.text "WASAPI capture initialized successfully")] ∧
    (WASAPICapture.shutdown (α := ℝ)
        ( WASAPICapture.initialize (α := ℝ) allOk WASAPICapture.new).1).2 =
      [.com .threadJoin, .com .clientStop, .com .releaseAudioClient,
        .com .releaseCaptureClient, .com .releaseDefaultDevice,
        .com .releaseDeviceEnumerator, .com .coUninit,
        .log (.text "WASAPI capture shutdown")] ∧
    (WASAPICapture.shutdown (α := ℝ)
        ( WASAPICapture.initialize (α := ℝ) allOk WASAPICapture.new).1).1.running = false :=
  ⟨rfl, rfl, rfl, rfl⟩

/-- C24 as stated fails.  The thread starts, polls a packet, and `GetBuffer` fails: the
inner loop is left, the thread sleeps, tests the run flag, polls again, gets a buffer and
calls the delivery callback.  The loop has not exited. -/
theorem C24_counterexample :
    (captureRun (α := ℝ) CapturePc.loopTest
      [replyRunning, replyPacket 1, replyFailed,
        replyRunning, replyPacket 1, replyBuffer (fun _ => 0.5) 2]).1
      = CapturePc.releaseBuffer 2 ∧
    (captureRun (α := ℝ) CapturePc.loopTest
      [replyRunning, replyPacket 1, replyFailed,
        replyRunning, replyPacket 1, replyBuffer (fun _ => 0.5) 2]).2
      = [.call .getNextPacketSize,
          .call .getBuffer, .log (.comError "GetBuffer failed in captureLoop"), .sleep,
          .call .getNextPacketSize,
          .call .getBuffer, .callback (some (fun _ => 0.5)) 2] :=
  ⟨rfl, rfl⟩

/-- C24 (amended).  When the `GetNextPacketSize` call before the inner loop fails the
capture loop exits: whatever answers follow, the thread logs the failure and the exit and
makes no further API call and no further callback.  When `GetBuffer`, `ReleaseBuffer` or
the `GetNextPacketSize` call at the end of the inner loop fails, only the inner loop is
left: the thread logs the failure, makes no callback for the failed call, sleeps and goes
back to the test of the run flag, where it exits if the flag is cleared and polls again
if it is set. -/
theorem C24_capture_failure {β : Type} (reply : ApiReply β) (rs : List (ApiReply β)) (n : Nat)
    (hfail : reply.ok = false) :
    captureRun CapturePc.outerPoll (reply :: rs) =
      (CapturePc.exited,
        [.call .getNextPacketSize,
          .log (.comError "GetNextPacketSize failed in captureLoop"),
          .log (.text "WASAPI capture loop exited.")]) ∧
    captureStep CapturePc.getBuffer reply =
      (CapturePc.loopTest,
        [.call .getBuffer, .log (.comError "GetBuffer failed in captureLoop"), .sleep]) ∧
    captureStep (CapturePc.releaseBuffer n) reply =
      (CapturePc.loopTest,
        [.call .releaseBuffer, .log (.comError "ReleaseBuffer failed in captureLoop"),
          .sleep]) ∧
    captureStep CapturePc.innerPoll reply =
      (CapturePc.loopTest,
        [.call .getNextPacketSize,
          .log (.comError "GetNextPacketSize after ReleaseBuffer failed in captureLoop"),
          .sleep]) ∧
    (∀ next : ApiReply β, next.running = false →
      captureRun CapturePc.loopTest (next :: rs) =
        (CapturePc.exited, [.log (.text "WASAPI capture loop exited.")])) ∧
    (∀ next : ApiReply β, next.running = true →
      captureStep CapturePc.loopTest next
        = (CapturePc.outerPoll, ([] : List (CaptureEvent β)))) := by
  refine ⟨?_, ?_, ?_, ?_, ?_, ?_⟩
  · rw [captureRun_cons]
    simp [captureStep, hfail, captureRun_exited]
  · simp [captureStep, hfail]
  · simp [captureStep, hfail]
  · simp [captureStep, hfail]
  · intro next hnext
    rw [captureRun_cons]
    simp [captureStep, hnext, captureRun_exited]
  · intro next hnext
    simp [captureStep, hnext]

/-- C24 (amended) at a concrete input: the first poll fails; the answers that would
follow are never asked for. -/
theorem C24_capture_failure_witness :
    captureRun (α := ℝ) CapturePc.outerPoll
        (replyFailed :: [replyRunning, replyPacket 3, replyBuffer (fun _ => 0.5) 3]) =
      (CapturePc.exited,
        [.call .getNextPacketSize,
          .log (.comError "GetNextPacketSize failed in captureLoop"),
          .log (.text "WASAPI capture loop exited.")]) :=
  (C24_capture_failure (β := ℝ) replyFailed
    [replyRunning, replyPacket 3, replyBuffer (fun _ => 0.5) 3] 0 rfl).1

/-- C26 (input read bounds).  For a Live engine, with `sampleCount = len/4`:
`processAudioInput` runs `n = (sampleCount + 1)/2 = ⌈sampleCount/2⌉` loop iterations (the
write index advances by `n` and the level is the mean over `n` samples), and iteration `k`
folds the input at `i = 2·k` and `i + 1`; its result is the same for inputs that agree
below `2·n`, and changes with the input value at every index `j < 2·n`.  A delivery of
`F ≥ 1` frames through the capture callback is the call with `len = 8·F`, where
`sampleCount = 2·F`, the loop runs `F` iterations and only indices below `2·F` are read.
For an odd `sampleCount` the last iteration folds the input at `sampleCount − 1` and at
`sampleCount`, one past the end of the input: inputs equal at every index below
`sampleCount` give different results. -/
theorem C26_input_read_bounds (d d' : Nat → α) (len F j : Nat) (p : Process α)
    (hlive : p.engine.simulationMode = false)
    (hlen : p.engine.audioBuffer.length = 4096) (hw : p.engine.currentWritePos < 4096)
    (hF : F < 2305843009213693952) :
    (2 * ((len / 4 + 1) / 2) = len / 4 + len / 4 % 2 ∧
      (AudioEngine.processAudioInput d len p).engine.currentWritePos
        = (p.engine.currentWritePos + (len / 4 + 1) / 2) % 4096 ∧
      (AudioEngine.processAudioInput d len p).engine.audioLevel =
        (if 0 < (len / 4 + 1) / 2 then
          p.engine.audioLevel * 0.9 +
            ((List.range ((len / 4 + 1) / 2)).map (fun (k : Nat) =>
              |max (-1) (min 1 ((d (2 * k) + d (2 * k + 1)) * 0.5 * 3))|)).sum
              / (((len / 4 + 1) / 2 : Nat) : α) * 0.1
        else p.engine.audioLevel)) ∧
    ((∀ i, i < 2 * ((len / 4 + 1) / 2) → d i = d' i) →
      AudioEngine.processAudioInput d len p = AudioEngine.processAudioInput d' len p) ∧
    (j < 2 * ((len / 4 + 1) / 2) →
      AudioEngine.processAudioInput (fun (i : Nat) => if i = j then (1 : α) else 0) len p
        ≠ AudioEngine.processAudioInput (fun _ => (0 : α)) len p) ∧
    (0 < F →
      AudioEngine.deliver (some d) F p = AudioEngine.processAudioInput d (8 * F) p ∧
      8 * F / 4 = 2 * F ∧ (8 * F / 4 + 1) / 2 = F ∧
      (AudioEngine.deliver (some d) F p).engine.currentWritePos
        = (p.engine.currentWritePos + F) % 4096 ∧
      ((∀ i, i < 2 * F → d i = d' i) →
        AudioEngine.deliver (some d) F p = AudioEngine.deliver (some d') F p)) ∧
    (len / 4 % 2 = 1 →
      (len / 4 + 1) / 2 = len / 4 / 2 + 1 ∧
      (AudioEngine.processAudioInput d len p).engine.audioBuffer.getD
          ((p.engine.currentWritePos + len / 4 / 2) % 4096) 0
        = max (-1) (min 1 ((d (len / 4 - 1) + d (len / 4)) * 0.5 * 3)) ∧
      AudioEngine.processAudioInput (fun (i : Nat) => if i = len / 4 then (1 : α) else 0) len p
        ≠ AudioEngine.processAudioInput (fun _ => (0 : α)) len p) := by
  have hcongr : ∀ l : Nat, (∀ i, i < 2 * ((l / 4 + 1) / 2) → d i = d' i) →
      AudioEngine.processAudioInput d l p = AudioEngine.processAudioInput d' l p :=
    fun l h => processAudioInput_congr d d' l p (fun i hi => h i ((mem_indicesRead _ i).mp hi))
  have hiter := processAudioInput_iterations d len p hlive hlen hw
  refine ⟨⟨by omega, hiter.1, hiter.2⟩, hcongr len,
    fun hj => (processAudioInput_pulse len j p hlive hj).2.2, fun hF1 => ?_, fun hodd => ?_⟩
  · have hd := deliver_eq_processAudioInput d F p hF1 hF
    have hd' := deliver_eq_processAudioInput d' F p hF1 hF
    have hn : (8 * F / 4 + 1) / 2 = F := by omega
    refine ⟨hd, by omega, hn, ?_, fun h => ?_⟩
    · rw [hd, (processAudioInput_iterations d (8 * F) p hlive hlen hw).1, hn]
    · rw [hd, hd']
      exact hcongr (8 * F) (fun i hi => h i (by omega))
  · have hlast := processAudioInput_last d len p hlive hlen hw (by omega)
    have e1 : (len / 4 + 1) / 2 - 1 = len / 4 / 2 := by omega
    have e2 : 2 * (len / 4 / 2) = len / 4 - 1 := by omega
    have e3 : len / 4 - 1 + 1 = len / 4 := by omega
    rw [e1, e2, e3] at hlast
    exact ⟨by omega, hlast, (processAudioInput_pulse len (len / 4) p hlive (by omega)).2.2⟩

/-- C26 at a concrete input: 12 bytes (three samples, an odd count) handed to a new
engine; the result changes with the input value at index 3, one past the end. -/
theorem C26_input_read_bounds_witness :
    AudioEngine.processAudioInput (fun (i : Nat) => if i = 12 / 4 then (1 : ℝ) else 0) 12
        (AudioEngine.new realMath)
      ≠ AudioEngine.processAudioInput (fun _ => (0 : ℝ)) 12 (AudioEngine.new realMath) :=
  ((C26_input_read_bounds (fun _ => (0 : ℝ)) (fun _ => (0 : ℝ)) 12 1 0
    (AudioEngine.new realMath) rfl (shaped_new realMath).audioBuffer_length
    (shaped_new realMath).currentWritePos_lt (by norm_num)).2.2.2.2 (by norm_num)).2.2

/-- C27 (raw magnitude and smoothed-spectrum bound).  Over the real numbers, for an engine
with `bufferSize = 2048` and the Hann window whose ring entries lie in `[−1, 1]`, and
every band `k`: the raw magnitude satisfies `0 ≤ M_k ≤ 1`, hence
`0 ≤ L_k = 0.1·ln(1 + 10000·M_k) ≤ 0.1·ln 10001`, and `0.1·ln 10001 < 1`; and in every
state reachable from the new (zero-initialised) engine, every entry of `smoothedFreqData`
lies in `[0, 0.1·ln 10001]`. -/
theorem C27_magnitude_bound (e : AudioEngine ℝ) (k : Nat) (hbs : e.bufferSize = 2048)
    (hwin : e.hanningWindow = hanning realMath 2048)
    (hring : ∀ x ∈ e.audioBuffer, -1 ≤ x ∧ x ≤ 1) :
    (0 ≤ bandMagnitude realMath e k ∧ bandMagnitude realMath e k ≤ 1) ∧
    (0 ≤ 0.1 * realMath.log (1 + 10000 * bandMagnitude realMath e k) ∧
      0.1 * realMath.log (1 + 10000 * bandMagnitude realMath e k) ≤ 0.1 * Real.log 10001) ∧
    0.1 * Real.log 10001 < 1 ∧
    (∀ p : Process ℝ, Reachable realMath p →
      ∀ x ∈ p.engine.smoothedFreqData, 0 ≤ x ∧ x ≤ 0.1 * Real.log 10001) :=
  ⟨bandMagnitude_range e k hbs hwin hring,
    logMagnitude_range _ (bandMagnitude_range e k hbs hwin hring).1
      (bandMagnitude_range e k hbs hwin hring).2,
    log_10001_lt, reachable_smoothed_range⟩

/-- C27 at a concrete input: the new engine, band 5. -/
theorem C27_magnitude_bound_witness :
    0 ≤ bandMagnitude realMath (AudioEngine.new realMath).engine 5 ∧
    bandMagnitude realMath (AudioEngine.new realMath).engine 5 ≤ 1 :=
  (C27_magnitude_bound (AudioEngine.new realMath).engine 5 rfl (new_hanningWindow realMath)
    (reachable_ring_range realMath realMath_exact _ (reachable_new realMath))).1

/-- C28 (analysis input dependence).  Take two engine states of the reachable shape
(ring of 4096, 64 bands, `bufferSize = 2048`) with the Hann window, the same sample rate,
the same write index `w` and the same smoothed spectrum, whose rings agree on the 511
slots `(w − 4·j) mod 4096`, `j = 1..511`.  Then `performOptimizedFFT` computes the same
raw magnitudes, the same smoothed spectrum and the same spectrum for both: the slot at
`w` is read with Hann weight `0` (as `cos 0 = 1`), and no other slot is read. -/
theorem C28_analysis_dependence (m : MathFns α) (hcos : m.cos 0 = 1) (e₁ e₂ : AudioEngine α)
    (hsh₁ : e₁.Shaped) (hsh₂ : e₂.Shaped)
    (hwin₁ : e₁.hanningWindow = hanning m 2048) (hwin₂ : e₂.hanningWindow = hanning m 2048)
    (hsr : e₁.sampleRate = e₂.sampleRate)
    (hw : e₁.currentWritePos = e₂.currentWritePos)
    (hsm : e₁.smoothedFreqData = e₂.smoothedFreqData)
    (hslots : ∀ j, 1 ≤ j → j ≤ 511 →
      e₁.audioBuffer.getD ((e₁.currentWritePos + 4096 - 4 * j) % 4096) 0
        = e₂.audioBuffer.getD ((e₁.currentWritePos + 4096 - 4 * j) % 4096) 0) :
    (∀ k, bandMagnitude m e₁ k = bandMagnitude m e₂ k) ∧
    (AudioEngine.performOptimizedFFT m e₁).smoothedFreqData
      = (AudioEngine.performOptimizedFFT m e₂).smoothedFreqData ∧
    (AudioEngine.performOptimizedFFT m e₁).frequencyData
      = (AudioEngine.performOptimizedFFT m e₂).frequencyData ∧
    windowedSample e₁ 0 = 0 := by
  have hws := windowedSample_congr m hcos e₁ e₂ hsh₁.audioBuffer_length hsh₂.audioBuffer_length
    hsh₁.currentWritePos_lt hw hwin₁ hwin₂ hslots
  have hmag : ∀ k, bandMagnitude m e₁ k = bandMagnitude m e₂ k :=
    fun k => bandMagnitude_congr m e₁ e₂ k hsh₁.bufferSize_eq hsh₂.bufferSize_eq hsr hws
  have hsmooth := performOptimizedFFT_smoothed_ext m e₁ e₂
    hsh₁.smoothedFreqData_length hsh₁.frequencyData_length
    hsh₂.smoothedFreqData_length hsh₂.frequencyData_length hsm (fun k _ => hmag k)
  refine ⟨hmag, hsmooth, ?_, ?_⟩
  · rw [performOptimizedFFT_spectrum m e₁ hsh₁.smoothedFreqData_length hsh₁.frequencyData_length,
      performOptimizedFFT_spectrum m e₂ hsh₂.smoothedFreqData_length hsh₂.frequencyData_length,
      hsmooth]
  · unfold windowedSample
    rw [hwin₁, hanning_zero m hcos, mul_zero]

/-- C28 at a concrete input: the new engine and the same engine with `0.5` stored in ring
slot 1, which the analysis does not read, give the same spectrum. -/
theorem C28_analysis_dependence_witness :
    (AudioEngine.performOptimizedFFT realMath (AudioEngine.new realMath).engine).frequencyData
      = (AudioEngine.performOptimizedFFT realMath
          { (AudioEngine.new realMath).engine with
            audioBuffer := (AudioEngine.new realMath).engine.audioBuffer.set 1 0.5 }).frequencyData :=
  (C28_analysis_dependence realMath Real.cos_zero (AudioEngine.new realMath).engine
    { (AudioEngine.new realMath).engine with
      audioBuffer := (AudioEngine.new realMath).engine.audioBuffer.set 1 0.5 }
    (shaped_new realMath) (shaped_set_ring _ 1 0.5 (shaped_new realMath))
    (new_hanningWindow realMath)
    ((set_ring_fields (AudioEngine.new realMath).engine 1 0.5).2.2.2.trans
      (new_hanningWindow realMath))
    (set_ring_fields (AudioEngine.new realMath).engine 1 0.5).1
    (set_ring_fields (AudioEngine.new realMath).engine 1 0.5).2.1
    (set_ring_fields (AudioEngine.new realMath).engine 1 0.5).2.2.1
    (set_ring_slots (AudioEngine.new realMath).engine 0.5 (new_currentWritePos realMath))).2.2.1

/-- C29 (silence after signal).  For an engine with 64 bands whose ring is all zeros, an
analysis step sets `smoothedFreqData[k]` to exactly `α_k·smoothedFreqData[k]`,
`α_k = 0.2 + 0.6·k/64`, for every band `k`; the spectrum it emits is the normalized
smoothed spectrum: when one of the decayed values still exceeds `0.001` the spectrum has
the entry `1` and no entry above `1`, and when none does the spectrum is the decayed
values themselves.  The C library enters with `sqrt 0 = 0` and `log 1 = 0`. -/
theorem C29_silence_after_signal (m : MathFns α) (hx : m.Exact) (e : AudioEngine α) (k : Nat)
    (hs : e.smoothedFreqData.length = 64) (hf : e.frequencyData.length = 64)
    (hring : ∀ i, e.audioBuffer.getD i 0 = 0) (hk : k < 64) :
    (AudioEngine.performOptimizedFFT m e).smoothedFreqData.getD k 0
      = smoothFactorSpec k * e.smoothedFreqData.getD k 0 ∧
    ((∃ x ∈ (AudioEngine.performOptimizedFFT m e).smoothedFreqData, (0.001 : α) < x) →
      (1 : α) ∈ (AudioEngine.performOptimizedFFT m e).frequencyData ∧
      ∀ y ∈ (AudioEngine.performOptimizedFFT m e).frequencyData, y ≤ 1) ∧
    ((∀ x ∈ (AudioEngine.performOptimizedFFT m e).smoothedFreqData, x ≤ 0.001) →
      (AudioEngine.performOptimizedFFT m e).frequencyData
        = (AudioEngine.performOptimizedFFT m e).smoothedFreqData) := by
  have hspec := performOptimizedFFT_spectrum m e hs hf
  have hn := normalize_cases (AudioEngine.performOptimizedFFT m e).smoothedFreqData
  refine ⟨?_, ?_, ?_⟩
  · rw [performOptimizedFFT_smoothed m e k hs hf hk, bandMagnitude_zero m hx e k hring]
    unfold smoothedValue smoothFactorSpec
    rw [zero_mul, add_zero, hx.log_one]
    norm_num
    ring
  · intro h
    rw [hspec]
    exact hn.1 h
  · intro h
    rw [hspec]
    exact hn.2 h


/-- C29 at a concrete input: the new engine (ring of zeros) with every smoothed band at
`0.5`; band 3 decays to `α₃·0.5`. -/
theorem C29_silence_after_signal_witness :
    (AudioEngine.performOptimizedFFT realMath
      { (AudioEngine.new realMath).engine with
        smoothedFreqData := List.replicate 64 0.5 }).smoothedFreqData.getD 3 0
      = smoothFactorSpec 3 * (List.replicate 64 (0.5 : ℝ)).getD 3 0 :=
  (C29_silence_after_signal realMath realMath_exact
    { (AudioEngine.new realMath).engine with smoothedFreqData := List.replicate 64 0.5 } 3
    (List.length_replicate _ _) (shaped_new realMath).frequencyData_length
    (new_ring_zero realMath) (by norm_num)).1

end Claims

end Visualizer
